import Mathlib

/-!
# File transfer through shared memory: sender / receiver protocol

Shallow embedding of `sender.cpp`, `recv.cpp` (message-queue backend) and
`sender_ec.cpp`, `recv_ec.cpp` (signal backend).

The two processes are embedded as small-step functions over one global state
(`Queue.Sys`, `Notify.Sys`); a step of the system is a step of either process
(or, in the signal backend, the run of a signal handler).  Blocking calls
(`msgrcv`, `sigsuspend`) are steps that are not enabled (`none`) until the peer
has provided the message or the signal.

The C library and the kernel are not part of the repository; the small part
of them the programs rely on is embedded with its documented behaviour:
`fread`/`feof` on a regular file, System V message queues (`msgsnd`,
`msgrcv` by type), and signals (`kill`, handler, `sigprocmask`, `sigsuspend`).
-/

namespace Transfer

/-! ## Bytes, C integers, stdio -/

abbrev Byte := Fin 256

/-- Constant `#define SHARED_MEMORY_CHUNK_SIZE 1000` (all four files). -/
def SHARED_MEMORY_CHUNK_SIZE : Nat := 1000

/-- Constant `#define MAX_FILE_NAME_SIZE 100` (`sender_ec.cpp` line 10; the queue backend
takes it from the header `msg.h`, see `Queue.sendFileName`). -/
def MAX_FILE_NAME_SIZE : Nat := 100

/-- Value of an `int` after an arithmetic result is stored (32-bit two's complement). -/
def wrapInt (x : Int) : Int := (x + 2 ^ 31) % 2 ^ 32 - 2 ^ 31

/-- Conversion of a signed value to `unsigned long` / `size_t` (64 bit). -/
def toULong (x : Int) : Nat := (x % 2 ^ 64).toNat

/-- Addition on `unsigned long`. -/
def addULong (a b : Nat) : Nat := (a + b) % 2 ^ 64

/-- A stdio stream opened for reading on a regular file: the bytes not yet read and the
end-of-file indicator. -/
structure FILE where
  rest : List Byte
  eof : Bool
deriving DecidableEq

/-- The call `fread(ptr, sizeof(char), count, fp)`: delivers the next `count` bytes, or all
that are left when fewer remain; the end-of-file indicator is set when the request could not
be satisfied in full.  Returns the bytes stored at `ptr` and the stream afterwards. -/
def fread (count : Nat) (fp : FILE) : List Byte × FILE :=
  (fp.rest.take count,
   { rest := fp.rest.drop count,
     eof := fp.eof || decide ((fp.rest.take count).length < count) })

/-- The call `feof(fp)`. -/
def feof (fp : FILE) : Bool := fp.eof

/-- The store of `bytes` at the start of a memory region (what `fread` does with its
destination): the bytes behind the written ones keep their value.  A store longer than the
region makes the result longer than the region. -/
def memWrite (mem bytes : List Byte) : List Byte := bytes ++ mem.drop bytes.length

/-! ## Message-queue backend (`sender.cpp`, `recv.cpp`) -/

namespace Queue

/-- Modelled from the spec: the header `msg.h` with the three message structs and their
`mtype` tags is not among the sources.  Spec §3: tagged variant
`Filename{name}`, `DataReady{size}`, `Ack{}`; the code reads and writes `message.size`
as an `int`-like field and `fileNameMsg.fileName` as a C string. -/
inductive Msg where
  /-- struct `fileNameMsg`, `mtype = FILE_NAME_TRANSFER_TYPE` -/
  | fileName (name : List Byte)
  /-- struct `message`, `mtype = SENDER_DATA_TYPE` -/
  | data (size : Int)
  /-- struct `ackMessage`, `mtype = RECV_DONE_TYPE` -/
  | ack
deriving DecidableEq

/-- The call `msgsnd(msqid, &m, ...)`: the message is appended to the queue. -/
def msgsnd (q : List Msg) (m : Msg) : List Msg := q ++ [m]

/-- The call `msgrcv(msqid, &rcvMsg, ..., SENDER_DATA_TYPE, 0)`: removes the first message
of that type; `none` while there is none (the call blocks). -/
def msgrcvData : List Msg → Option (Int × List Msg)
  | [] => none
  | Msg.data n :: q => some (n, q)
  | Msg.fileName nm :: q => (msgrcvData q).map fun r => (r.1, Msg.fileName nm :: r.2)
  | Msg.ack :: q => (msgrcvData q).map fun r => (r.1, Msg.ack :: r.2)

/-- The call `msgrcv(msqid, &rcvMsg, ..., RECV_DONE_TYPE, 0)`. -/
def msgrcvAck : List Msg → Option (List Msg)
  | [] => none
  | Msg.ack :: q => some q
  | Msg.fileName nm :: q => (msgrcvAck q).map fun r => Msg.fileName nm :: r
  | Msg.data n :: q => (msgrcvAck q).map fun r => Msg.data n :: r

/-- Observable actions of the two processes, recorded in order. -/
inductive Ev where
  /-- sender: `msgsnd` of a `message` with this `size`, announcing this payload -/
  | sndData (size : Int) (payload : List Byte)
  /-- sender: `msgrcv` returned an `ackMessage` -/
  | rcvAck
  /-- receiver: `fopen(..., "w")` -/
  | fopen
  /-- receiver: `msgrcv` returned a `message` with this `size` -/
  | rcvData (size : Int)
  /-- receiver: `fwrite` of these bytes -/
  | write (bytes : List Byte)
  /-- receiver: `msgsnd` of an `ackMessage` -/
  | sndAck
  /-- receiver: `fclose` -/
  | fclose
deriving DecidableEq

/-- Program points of `sendFile` (`sender.cpp` 88-155). -/
inductive SPc where
  /-- line 111, the test `while (!feof(fp))` -/
  | loop
  /-- line 127, before `msgsnd` of the chunk just read -/
  | snd
  /-- line 134, in `msgrcv` for the acknowledgment -/
  | rcv
  /-- line 154, returned -/
  | done
deriving DecidableEq

/-- Program points of `mainLoop` (`recv.cpp` 96-182). -/
inductive RPc where
  /-- line 111, before `fopen` -/
  | start
  /-- line 123, the test `while (msgSize != 0)`, then `msgrcv` at line 139 -/
  | loop
  /-- line 148, the test `if (msgSize != 0)` -/
  | handle
  /-- line 167, before `msgsnd` of the acknowledgment -/
  | ack
  /-- line 181, returned -/
  | done
deriving DecidableEq

/-- Global state: the locals of `sendFile`, the locals of `mainLoop`, the shared memory
segment, the message queue, and the record of actions. -/
structure Sys where
  spc : SPc
  fp : FILE
  sndSize : Int
  numBytesSent : Nat
  rpc : RPc
  msgSize : Int
  numBytesRecv : Int
  sink : List Byte
  shm : List Byte
  queue : List Msg
  trace : List Ev
deriving DecidableEq

/-- One step of the sender inside `sendFile`. -/
def sendFile (s : Sys) : Option Sys :=
  match s.spc with
  | SPc.loop =>
    if feof s.fp then
      -- lines 142-154: sndMsg.size = 0; msgsnd; fclose; return numBytesSent
      some { s with
        spc := SPc.done, sndSize := 0,
        queue := msgsnd s.queue (Msg.data 0),
        trace := s.trace ++ [Ev.sndData 0 []] }
    else
      -- lines 117-124: sndMsg.size = fread(sharedMemPtr, 1, 1000, fp); numBytesSent += size
      some { s with
        spc := SPc.snd,
        fp := (fread SHARED_MEMORY_CHUNK_SIZE s.fp).2,
        shm := memWrite s.shm (fread SHARED_MEMORY_CHUNK_SIZE s.fp).1,
        sndSize := ((fread SHARED_MEMORY_CHUNK_SIZE s.fp).1.length : Int),
        numBytesSent := addULong s.numBytesSent (fread SHARED_MEMORY_CHUNK_SIZE s.fp).1.length }
  | SPc.snd =>
    -- line 127
    some { s with
      spc := SPc.rcv,
      queue := msgsnd s.queue (Msg.data s.sndSize),
      trace := s.trace ++ [Ev.sndData s.sndSize (s.shm.take (toULong s.sndSize))] }
  | SPc.rcv =>
    -- line 134
    match msgrcvAck s.queue with
    | none => none
    | some q => some { s with spc := SPc.loop, queue := q, trace := s.trace ++ [Ev.rcvAck] }
  | SPc.done => none

/-- One step of the receiver inside `mainLoop`. -/
def mainLoop (s : Sys) : Option Sys :=
  match s.rpc with
  | RPc.start =>
    -- line 111
    some { s with rpc := RPc.loop, sink := [], trace := s.trace ++ [Ev.fopen] }
  | RPc.loop =>
    if s.msgSize ≠ 0 then
      -- lines 139-145
      match msgrcvData s.queue with
      | none => none
      | some r =>
        some { s with
          rpc := RPc.handle, msgSize := r.1, queue := r.2,
          trace := s.trace ++ [Ev.rcvData r.1] }
    else
      -- line 181
      some { s with rpc := RPc.done }
  | RPc.handle =>
    if s.msgSize ≠ 0 then
      -- lines 151-154
      some { s with
        rpc := RPc.ack,
        numBytesRecv := wrapInt (s.numBytesRecv + s.msgSize),
        sink := s.sink ++ s.shm.take (toULong s.msgSize),
        trace := s.trace ++ [Ev.write (s.shm.take (toULong s.msgSize))] }
    else
      -- line 177
      some { s with rpc := RPc.loop, trace := s.trace ++ [Ev.fclose] }
  | RPc.ack =>
    -- line 167
    some { s with
      rpc := RPc.loop,
      queue := msgsnd s.queue Msg.ack,
      trace := s.trace ++ [Ev.sndAck] }
  | RPc.done => none

/-- Both processes at the entry of `sendFile` and `mainLoop`: the source holds `data`, the
shared segment holds `shm0`, the queue is empty (the file-name message has been taken).
The field `sndMsg.size` has no value yet; it is stored at line 117 or 142 before it is
read, and starts as 0 here. -/
def initial (data shm0 : List Byte) : Sys :=
  { spc := SPc.loop, fp := { rest := data, eof := false }, sndSize := 0, numBytesSent := 0,
    rpc := RPc.start, msgSize := -1, numBytesRecv := 0, sink := [],
    shm := shm0, queue := [], trace := [] }

/-- A step of the system: a step of the sender or a step of the receiver. -/
def Step (s t : Sys) : Prop := sendFile s = some t ∨ mainLoop s = some t

/-- States the two processes can be in after any interleaving of their steps. -/
def Reachable (data shm0 : List Byte) (t : Sys) : Prop :=
  Relation.ReflTransGen Step (initial data shm0) t

/-- Neither process can take a step: each has returned or is blocked for ever. -/
def Terminal (s : Sys) : Prop := sendFile s = none ∧ mainLoop s = none

/-- The scheduler used to run the system: the sender when it can move, else the receiver. -/
def sched (s : Sys) : Option Sys :=
  match sendFile s with
  | some t => some t
  | none => mainLoop s

/-- Runs the system for at most `fuel` steps; stops early in a terminal state. -/
def run : Nat → Sys → Sys
  | 0, s => s
  | fuel + 1, s =>
    match sched s with
    | none => s
    | some t => run fuel t

/-- The value `sendFile` returns, once it has returned. -/
def sendFileResult (s : Sys) : Option Nat :=
  if s.spc = SPc.done then some s.numBytesSent else none

/-- The value `mainLoop` returns (`int numBytesRecv` as `unsigned long`), once it has. -/
def mainLoopResult (s : Sys) : Option Nat :=
  if s.rpc = RPc.done then some (toULong s.numBytesRecv) else none

/-- The `size` fields of the data messages the sender has sent, in order. -/
def sentSizes : List Ev → List Int
  | [] => []
  | Ev.sndData n _ :: t => n :: sentSizes t
  | _ :: t => sentSizes t

/-- The chunks (size, payload) the sender has announced, in order. -/
def sentChunks : List Ev → List (Int × List Byte)
  | [] => []
  | Ev.sndData n b :: t => (n, b) :: sentChunks t
  | _ :: t => sentChunks t

/-- The payloads the receiver has written to its sink, in order. -/
def written : List Ev → List (List Byte)
  | [] => []
  | Ev.write b :: t => b :: written t
  | _ :: t => written t

/-- Number of acknowledgments the sender has received. -/
def acksReceived (tr : List Ev) : Nat := tr.count Ev.rcvAck

end Queue

/-! ### Termination measure of the queue backend -/

namespace Queue

/-- Number of data messages waiting in the queue. -/
def dataCount : List Msg → Nat
  | [] => 0
  | Msg.data _ :: q => dataCount q + 1
  | _ :: q => dataCount q

/-- Weight of a sender program point in the termination measure. -/
def sRank : SPc → Nat
  | SPc.done => 0
  | SPc.loop => 5
  | SPc.rcv => 6
  | SPc.snd => 11

/-- Weight of a receiver program point in the termination measure. -/
def rRank : RPc → Nat
  | RPc.done => 0
  | RPc.loop => 1
  | RPc.ack => 2
  | RPc.start => 2
  | RPc.handle => 3

/-- Termination measure: every step of either process makes it smaller. -/
def mu (s : Sys) : Nat :=
  8 * (s.fp.rest.length + (if s.fp.eof then 0 else 1)) + sRank s.spc
    + 4 * dataCount s.queue + rRank s.rpc

end Queue

/-! ### Joint invariant of the queue backend -/

namespace Queue

/-- The receiver is before its `msgrcv` and has not yet seen the terminator. -/
def rIdle (s : Sys) : Prop := (s.rpc = RPc.start ∨ s.rpc = RPc.loop) ∧ s.msgSize ≠ 0

/-- A chunk is in the shared segment, read from the source and not yet written to the sink. -/
def Flight (data : List Byte) (s : Sys) : Prop :=
  s.sink ++ s.shm.take (toULong s.sndSize) ++ s.fp.rest = data ∧
  0 ≤ s.sndSize ∧ s.sndSize ≤ 1000 ∧ (s.sndSize < 1000 → s.fp.eof = true)

/-- The lock-step phases of the protocol: the program points of both processes, the queue
content and the whereabouts of the source bytes in each phase. -/
def Phase (data : List Byte) (s : Sys) : Prop :=
  (s.spc = SPc.loop ∧ rIdle s ∧ s.queue = [] ∧ s.sink ++ s.fp.rest = data) ∨
  (s.spc = SPc.snd ∧ rIdle s ∧ s.queue = [] ∧ Flight data s) ∨
  (s.spc = SPc.rcv ∧ rIdle s ∧ s.queue = [Msg.data s.sndSize] ∧ Flight data s) ∨
  (s.spc = SPc.rcv ∧ s.rpc = RPc.handle ∧ s.msgSize = s.sndSize ∧ s.queue = [] ∧
    Flight data s) ∨
  (s.spc = SPc.rcv ∧ s.rpc = RPc.ack ∧ s.msgSize ≠ 0 ∧ s.queue = [] ∧
    s.sink ++ s.fp.rest = data) ∨
  (s.spc = SPc.rcv ∧ s.rpc = RPc.loop ∧ s.msgSize ≠ 0 ∧ s.queue = [Msg.ack] ∧
    s.sink ++ s.fp.rest = data) ∨
  (s.spc = SPc.done ∧ rIdle s ∧ s.queue = [Msg.data 0] ∧ s.sink = data) ∨
  (s.spc = SPc.done ∧ s.rpc = RPc.handle ∧ s.msgSize = 0 ∧ s.queue = [] ∧ s.sink = data) ∨
  ((s.spc = SPc.rcv ∨ s.spc = SPc.done) ∧ (s.rpc = RPc.loop ∨ s.rpc = RPc.done) ∧
    s.msgSize = 0 ∧ s.queue = [] ∧ s.sink = data)

/-- Invariant of all reachable states of the queue backend. -/
def Inv (data : List Byte) (s : Sys) : Prop :=
  (s.rpc = RPc.start → s.sink = []) ∧ (s.fp.eof = true → s.fp.rest = []) ∧ Phase data s

end Queue

/-! ## Signal backend (`sender_ec.cpp`, `recv_ec.cpp`) -/

namespace Notify

/-- Observable actions of the two processes, recorded in order. -/
inductive Ev where
  /-- sender: `setChunkSize(size)`, the length header is stored -/
  | setChunkSize (size : Nat)
  /-- sender: `kill(rpid, SIGUSR1)`, announcing the chunk with this header and payload -/
  | killUsr1 (size : Nat) (payload : List Byte)
  /-- sender: `wait(usr_interrupt)` returned -/
  | waitReturned
  /-- receiver: `fopen(..., "w")` -/
  | fopen
  /-- receiver: `wait` returned and `getChunkSize()` read this header -/
  | getChunkSize (size : Nat)
  /-- receiver: `fwrite` of these bytes -/
  | write (bytes : List Byte)
  /-- receiver: `kill(spid, SIGUSR2)` -/
  | killUsr2
  /-- receiver: `fclose` -/
  | fclose
deriving DecidableEq

/-- Program points of `sendFile` (`sender_ec.cpp` 143-216), with those of the call of
`wait` at line 193 (`wait` is lines 104-124). -/
inductive SPc where
  /-- line 167, the test `while (!feof(fp))` -/
  | loop
  /-- line 186, before `kill(rpid, SIGUSR1)` for the chunk just stored -/
  | kill
  /-- line 106, in `wait`, before `sigprocmask(SIG_BLOCK, &mask, &oldmask)` -/
  | wBlock
  /-- line 112, in `wait`, the test `while (!flag)` and `sigsuspend(&oldmask)` -/
  | wTest
  /-- line 117, in `wait`, before `sigprocmask(SIG_UNBLOCK, &mask, NULL)` -/
  | wUnblock
  /-- line 123, in `wait`, before `flag = false` -/
  | wClear
  /-- line 215, returned -/
  | done
deriving DecidableEq

/-- Program points of `mainLoop` (`recv_ec.cpp` 163-235), with those of the call of `wait`
at line 198 (`wait` is lines 34-54). -/
inductive RPc where
  /-- line 178, before `fopen` -/
  | start
  /-- line 195, the test `while (chunkSize != 0)` -/
  | loop
  /-- line 36, in `wait`, before `sigprocmask(SIG_BLOCK, &mask, &oldmask)` -/
  | wBlock
  /-- line 42, in `wait`, the test `while (!flag)` and `sigsuspend(&oldmask)` -/
  | wTest
  /-- line 47, in `wait`, before `sigprocmask(SIG_UNBLOCK, &mask, NULL)` -/
  | wUnblock
  /-- line 53, in `wait`, before `flag = false`; then `getChunkSize()` at line 201 -/
  | wClear
  /-- line 204, the test `if (chunkSize != 0)` -/
  | handle
  /-- line 217, before `kill(spid, SIGUSR2)` -/
  | kill
  /-- line 234, returned -/
  | done
deriving DecidableEq

/-- Global state: locals and signal state of the sender, locals and signal state of the
receiver, the shared segment (length header, then the payload region), the record of
actions.  `sPending` / `rPending`: a signal has been sent to the process and its handler
has not run yet; `sFlag` / `rFlag`: the process's `usr_interrupt`. -/
structure Sys where
  spc : SPc
  fp : FILE
  sndChunkSize : Nat
  numBytesSent : Nat
  sFlag : Bool
  sPending : Bool
  rpc : RPc
  chunkSize : Nat
  numBytesRecv : Int
  rFlag : Bool
  rPending : Bool
  sink : List Byte
  hdr : Nat
  payload : List Byte
  trace : List Ev
deriving DecidableEq

/-- The sender has `SIGUSR2` blocked: between the two calls of `sigprocmask` in `wait`
(inside `sigsuspend` the signal is let through, see `sendFile`). -/
def sBlocked (pc : SPc) : Bool :=
  match pc with
  | SPc.wTest => true
  | SPc.wUnblock => true
  | _ => false

/-- The receiver has `SIGUSR1` blocked: between the two calls of `sigprocmask` in `wait`. -/
def rBlocked (pc : RPc) : Bool :=
  match pc with
  | RPc.wTest => true
  | RPc.wUnblock => true
  | _ => false

/-- One step of the sender inside `sendFile`, the statements of `wait` included. -/
def sendFile (s : Sys) : Option Sys :=
  match s.spc with
  | SPc.loop =>
    if feof s.fp then
      -- lines 197-215: chunkSize = 0; setChunkSize; kill; fclose; return numBytesSent
      some { s with
        spc := SPc.done, sndChunkSize := 0, hdr := 0, rPending := true,
        trace := s.trace ++ [Ev.setChunkSize 0, Ev.killUsr1 0 []] }
    else
      -- lines 173-183: chunkSize = fread(sharedMemPtr, 1, 1000, fp); setChunkSize;
      -- numBytesSent += chunkSize
      some { s with
        spc := SPc.kill,
        fp := (fread SHARED_MEMORY_CHUNK_SIZE s.fp).2,
        payload := memWrite s.payload (fread SHARED_MEMORY_CHUNK_SIZE s.fp).1,
        sndChunkSize := (fread SHARED_MEMORY_CHUNK_SIZE s.fp).1.length,
        hdr := (fread SHARED_MEMORY_CHUNK_SIZE s.fp).1.length,
        numBytesSent := addULong s.numBytesSent (fread SHARED_MEMORY_CHUNK_SIZE s.fp).1.length,
        trace := s.trace ++ [Ev.setChunkSize (fread SHARED_MEMORY_CHUNK_SIZE s.fp).1.length] }
  | SPc.kill =>
    -- line 186
    some { s with
      spc := SPc.wBlock, rPending := true,
      trace := s.trace ++ [Ev.killUsr1 s.hdr (s.payload.take s.hdr)] }
  | SPc.wBlock =>
    -- line 106: sigprocmask(SIG_BLOCK, &mask, &oldmask)
    some { s with spc := SPc.wTest }
  | SPc.wTest =>
    -- lines 112-115: while (!flag) sigsuspend(&oldmask)
    if s.sFlag then some { s with spc := SPc.wUnblock }
    else if s.sPending then
      -- inside sigsuspend the signal is delivered, the handler runs, sigsuspend returns
      some { s with sPending := false, sFlag := true }
    else none
  | SPc.wUnblock =>
    -- line 117: sigprocmask(SIG_UNBLOCK, &mask, NULL)
    some { s with spc := SPc.wClear }
  | SPc.wClear =>
    -- line 123: flag = false
    some { s with spc := SPc.loop, sFlag := false, trace := s.trace ++ [Ev.waitReturned] }
  | SPc.done => none

/-- The handler `usr2Signal` runs in the sender (`sender_ec.cpp` 221-225): a pending
`SIGUSR2` is delivered as soon as it is not blocked. -/
def usr2Signal (s : Sys) : Option Sys :=
  if s.sPending ∧ sBlocked s.spc = false then some { s with sPending := false, sFlag := true }
  else none

/-- One step of the receiver inside `mainLoop`, the statements of `wait` included. -/
def mainLoop (s : Sys) : Option Sys :=
  match s.rpc with
  | RPc.start =>
    -- line 178
    some { s with rpc := RPc.loop, sink := [], trace := s.trace ++ [Ev.fopen] }
  | RPc.loop =>
    -- line 195, then the call of wait at line 198 or the return at line 234
    if s.chunkSize ≠ 0 then some { s with rpc := RPc.wBlock }
    else some { s with rpc := RPc.done }
  | RPc.wBlock =>
    -- line 36: sigprocmask(SIG_BLOCK, &mask, &oldmask)
    some { s with rpc := RPc.wTest }
  | RPc.wTest =>
    -- lines 42-45: while (!flag) sigsuspend(&oldmask)
    if s.rFlag then some { s with rpc := RPc.wUnblock }
    else if s.rPending then
      -- inside sigsuspend the signal is delivered, the handler runs, sigsuspend returns
      some { s with rPending := false, rFlag := true }
    else none
  | RPc.wUnblock =>
    -- line 47: sigprocmask(SIG_UNBLOCK, &mask, NULL)
    some { s with rpc := RPc.wClear }
  | RPc.wClear =>
    -- line 53: flag = false; line 201: chunkSize = getChunkSize()
    some { s with
      rpc := RPc.handle, rFlag := false, chunkSize := s.hdr,
      trace := s.trace ++ [Ev.getChunkSize s.hdr] }
  | RPc.handle =>
    if s.chunkSize ≠ 0 then
      -- lines 207-210
      some { s with
        rpc := RPc.kill,
        numBytesRecv := wrapInt (s.numBytesRecv + s.chunkSize),
        sink := s.sink ++ s.payload.take s.chunkSize,
        trace := s.trace ++ [Ev.write (s.payload.take s.chunkSize)] }
    else
      -- line 227
      some { s with rpc := RPc.loop, trace := s.trace ++ [Ev.fclose] }
  | RPc.kill =>
    -- line 217
    some { s with rpc := RPc.loop, sPending := true, trace := s.trace ++ [Ev.killUsr2] }
  | RPc.done => none

/-- The handler `usr1Signal` runs in the receiver (`recv_ec.cpp` 262-266): a pending
`SIGUSR1` is delivered as soon as it is not blocked. -/
def usr1Signal (s : Sys) : Option Sys :=
  if s.rPending ∧ rBlocked s.rpc = false then some { s with rPending := false, rFlag := true }
  else none

/-- Both processes at the entry of `sendFile` and `mainLoop`: the file-name exchange is
over, no signal is outstanding; the shared segment holds what the earlier phases left in
it, `hdr0` in the header and `shm0` in the payload region. -/
def initial (data shm0 : List Byte) (hdr0 : Nat) : Sys :=
  { spc := SPc.loop, fp := { rest := data, eof := false }, sndChunkSize := 0,
    numBytesSent := 0, sFlag := false, sPending := false,
    rpc := RPc.start, chunkSize := 2 ^ 64 - 1, numBytesRecv := 0,
    rFlag := false, rPending := false, sink := [],
    hdr := hdr0, payload := shm0, trace := [] }

/-- A step of the system: a step of either process or the run of either handler. -/
def Step (s t : Sys) : Prop :=
  sendFile s = some t ∨ mainLoop s = some t ∨ usr2Signal s = some t ∨ usr1Signal s = some t

/-- States the system can be in after any interleaving of steps. -/
def Reachable (data shm0 : List Byte) (hdr0 : Nat) (t : Sys) : Prop :=
  Relation.ReflTransGen Step (initial data shm0 hdr0) t

/-- Nothing can move: each process has returned or sleeps for ever. -/
def Terminal (s : Sys) : Prop :=
  sendFile s = none ∧ mainLoop s = none ∧ usr2Signal s = none ∧ usr1Signal s = none

/-- The scheduler used to run the system: sender, else receiver, else a handler. -/
def sched (s : Sys) : Option Sys :=
  match sendFile s with
  | some t => some t
  | none =>
    match mainLoop s with
    | some t => some t
    | none =>
      match usr2Signal s with
      | some t => some t
      | none => usr1Signal s

/-- Runs the system for at most `fuel` steps; stops early in a terminal state. -/
def run : Nat → Sys → Sys
  | 0, s => s
  | fuel + 1, s =>
    match sched s with
    | none => s
    | some t => run fuel t

/-- The value `sendFile` returns, once it has returned. -/
def sendFileResult (s : Sys) : Option Nat :=
  if s.spc = SPc.done then some s.numBytesSent else none

/-- The value `mainLoop` returns (`int numBytesRecv` as `unsigned long`), once it has. -/
def mainLoopResult (s : Sys) : Option Nat :=
  if s.rpc = RPc.done then some (toULong s.numBytesRecv) else none

/-- The chunk sizes the sender has stored in the length header, in order. -/
def sentSizes : List Ev → List Nat
  | [] => []
  | Ev.setChunkSize n :: t => n :: sentSizes t
  | _ :: t => sentSizes t

/-- The chunks (size, payload) the sender has announced, in order. -/
def sentChunks : List Ev → List (Nat × List Byte)
  | [] => []
  | Ev.killUsr1 n b :: t => (n, b) :: sentChunks t
  | _ :: t => sentChunks t

/-- The payloads the receiver has written to its sink, in order. -/
def written : List Ev → List (List Byte)
  | [] => []
  | Ev.write b :: t => b :: written t
  | _ :: t => written t

/-! ### Termination measure and joint invariant of the signal backend -/

/-- Weight of a sender program point in the termination measure. -/
def sRank : SPc → Nat
  | SPc.done => 0
  | SPc.loop => 11
  | SPc.wClear => 12
  | SPc.wUnblock => 13
  | SPc.wTest => 14
  | SPc.wBlock => 15
  | SPc.kill => 26

/-- Weight of a receiver program point in the termination measure; past the test in
`wait` the weight includes the notification being consumed. -/
def rRank : RPc → Nat
  | RPc.done => 0
  | RPc.wClear => 9
  | RPc.wUnblock => 10
  | RPc.wTest => 2
  | RPc.wBlock => 3
  | RPc.loop => 4
  | RPc.start => 5
  | RPc.kill => 7
  | RPc.handle => 8

/-- Weight of a signal flag in the termination measure. -/
def w (b : Bool) (n : Nat) : Nat := if b then n else 0

/-- The receiver's flag counts in the measure except past the test in `wait`, where the
program point carries its weight. -/
def rFlagCounts (pc : RPc) : Bool :=
  match pc with
  | RPc.wUnblock => false
  | RPc.wClear => false
  | _ => true

/-- Termination measure: every step makes it smaller. -/
def mu (s : Sys) : Nat :=
  16 * (s.fp.rest.length + (if s.fp.eof then 0 else 1)) + sRank s.spc + rRank s.rpc
    + w s.sFlag 1 + w s.sPending 2 + w (s.rFlag && rFlagCounts s.rpc) 9 + w s.rPending 10

/-- No signal is outstanding to the sender. -/
def sQuiet (s : Sys) : Prop := s.sFlag = false ∧ s.sPending = false

/-- No signal is outstanding to the receiver. -/
def rQuiet (s : Sys) : Prop := s.rFlag = false ∧ s.rPending = false

/-- The sender is in `wait` before the test and no signal is outstanding to it. -/
def sWaiting (s : Sys) : Prop := (s.spc = SPc.wBlock ∨ s.spc = SPc.wTest) ∧ sQuiet s

/-- The sender is in `wait` and exactly one notification is outstanding to it: pending or
delivered before the test, or seen by the test. -/
def sSignalled (s : Sys) : Prop :=
  ((s.spc = SPc.wBlock ∨ s.spc = SPc.wTest) ∧
    ((s.sPending = true ∧ s.sFlag = false) ∨ (s.sPending = false ∧ s.sFlag = true))) ∨
  ((s.spc = SPc.wUnblock ∨ s.spc = SPc.wClear) ∧ s.sPending = false ∧ s.sFlag = true)

/-- The receiver is before the test in `wait`. -/
def rBefore (s : Sys) : Prop :=
  s.rpc = RPc.start ∨ s.rpc = RPc.loop ∨ s.rpc = RPc.wBlock ∨ s.rpc = RPc.wTest

/-- The receiver is before the test in `wait`, has not seen the terminator and no signal
is outstanding to it. -/
def rIdle (s : Sys) : Prop := rBefore s ∧ s.chunkSize ≠ 0 ∧ rQuiet s

/-- The receiver has not seen the terminator and exactly one notification is outstanding
to it: pending or delivered before the test, or seen by the test. -/
def rSignalled (s : Sys) : Prop :=
  s.chunkSize ≠ 0 ∧
  ((rBefore s ∧
      ((s.rPending = true ∧ s.rFlag = false) ∨ (s.rPending = false ∧ s.rFlag = true))) ∨
    ((s.rpc = RPc.wUnblock ∨ s.rpc = RPc.wClear) ∧ s.rPending = false ∧ s.rFlag = true))

/-- A chunk is in the shared segment, read from the source and not yet written to the sink. -/
def Flight (data : List Byte) (s : Sys) : Prop :=
  s.sink ++ s.payload.take s.hdr ++ s.fp.rest = data ∧
  s.hdr ≤ 1000 ∧ (s.hdr < 1000 → s.fp.eof = true)

/-- The lock-step phases of the protocol. -/
def Phase (data : List Byte) (s : Sys) : Prop :=
  (s.spc = SPc.loop ∧ sQuiet s ∧ rIdle s ∧ s.sink ++ s.fp.rest = data) ∨
  (s.spc = SPc.kill ∧ sQuiet s ∧ rIdle s ∧ Flight data s) ∨
  (sWaiting s ∧ rSignalled s ∧ Flight data s) ∨
  (sWaiting s ∧ s.rpc = RPc.handle ∧ s.chunkSize = s.hdr ∧ rQuiet s ∧ Flight data s) ∨
  (sWaiting s ∧ s.rpc = RPc.kill ∧ s.chunkSize ≠ 0 ∧ rQuiet s ∧
    s.sink ++ s.fp.rest = data) ∨
  (sSignalled s ∧ rIdle s ∧ s.sink ++ s.fp.rest = data) ∨
  (s.spc = SPc.done ∧ sQuiet s ∧ rSignalled s ∧ s.hdr = 0 ∧ s.sink = data) ∨
  (s.spc = SPc.done ∧ sQuiet s ∧ s.rpc = RPc.handle ∧ s.chunkSize = 0 ∧ rQuiet s ∧
    s.sink = data) ∨
  ((sWaiting s ∨ (s.spc = SPc.done ∧ sQuiet s)) ∧ (s.rpc = RPc.loop ∨ s.rpc = RPc.done) ∧
    s.chunkSize = 0 ∧ rQuiet s ∧ s.sink = data)

/-- Invariant of all reachable states of the signal backend. -/
def Inv (data : List Byte) (s : Sys) : Prop :=
  (s.rpc = RPc.start → s.sink = []) ∧ (s.fp.eof = true → s.fp.rest = []) ∧ Phase data s

end Notify

/-! ## Process start-up and the file-name message -/

/-- Exit status the parent sees for `exit(code)`. -/
def exitStatus (code : Int) : Nat := (code % 256).toNat

/-- Actions of a sender's `main` that matter for the file-name check. -/
inductive Act where
  /-- call `msgsnd` of the file-name message -/
  | msgsndFileName (name : List Byte)
  /-- call `wait(usr_interrupt)` -/
  | wait
  /-- call `strcpy(sharedMemPtr, fileName)` -/
  | strcpy (name : List Byte)
  /-- call `kill(rpid, SIGUSR1)` -/
  | kill
  /-- the call of `sendFile` -/
  | sendFile
deriving DecidableEq

/-- What `main` of a sender does behind `sendFileName`, up to the call of `sendFile`: when
`sendFileName` has exited the process (`exit(c)`), nothing more, and the exit status is
`some c`; when it has returned, `main` calls `sendFile`, and the process has not exited at
that point (`none`).  How it ends from there (the return of 0 behind `cleanUp`, an `exit`
inside `sendFile` or `cleanUp`, or a `sendFile` that never returns) is the matter of
`sendFile`, not of this function. -/
def thenSendFile (r : List Act × Except Int Unit) : List Act × Option Int :=
  match r with
  | (acts, Except.error c) => (acts, some c)
  | (acts, Except.ok _) => (acts ++ [Act.sendFile], none)

namespace Queue

/-- Results of the system calls made by `init`: the key, the segment id, the address
returned by `shmat` (`(void*) -1`, the largest address, on failure), the queue id. -/
structure InitCalls where
  ftok : Int
  shmget : Int
  shmat : Nat
  msgget : Int
deriving DecidableEq

/-- The value `(void*) -1` that `shmat` returns on failure. -/
def shmatFailed : Nat := 2 ^ 64 - 1

/-- The relational comparison `p < 0` of a pointer with the null pointer constant:
addresses compare as unsigned numbers. -/
def ptrLtNull (p : Nat) : Bool := decide (p < 0)

/-- The function `init` of `recv.cpp` (48-89; `sender.cpp` 24-65 has the same tests):
`Except.error c` is `exit(c)`, `Except.ok` carries `shmid`, `sharedMemPtr`, `msqid`. -/
def init (c : InitCalls) : Except Int (Int × Nat × Int) :=
  if c.ftok < 0 then Except.error (-1)
  else if c.shmget < 0 then Except.error (-1)
  else if ptrLtNull c.shmat then Except.error (-1)
  else if c.msgget < 0 then Except.error (-1)
  else Except.ok (c.shmget, c.shmat, c.msgget)

/-- The function `sendFileName` of `sender.cpp` (161-184): the actions performed and
`Except.error c` for `exit(c)`.  `maxFileNameSize` is `MAX_FILE_NAME_SIZE` of the header
`msg.h`, which is not among the sources; `msgsndOk` tells whether `msgsnd` succeeds. -/
def sendFileName (maxFileNameSize : Nat) (fileName : List Byte) (msgsndOk : Bool) :
    List Act × Except Int Unit :=
  -- int fileNameSize = strlen(fileName);
  let fileNameSize : Int := wrapInt fileName.length
  if fileNameSize > maxFileNameSize then ([], Except.error (-1))
  else if msgsndOk then ([Act.msgsndFileName fileName], Except.ok ())
  else ([Act.msgsndFileName fileName], Except.error (-1))

/-- The part of `main` of `sender.cpp` behind `init`, up to the call of `sendFile`
(205-208): the actions, and the exit status when the process has exited. -/
def main (maxFileNameSize : Nat) (fileName : List Byte) (msgsndOk : Bool) :
    List Act × Option Int :=
  thenSendFile (sendFileName maxFileNameSize fileName msgsndOk)

end Queue

namespace Notify

/-- The function `sendFileName` of `sender_ec.cpp` (255-282): the actions performed (when
the calls of `wait` return) and `Except.error c` for `exit(c)`; `killOk` tells whether
`kill` succeeds. -/
def sendFileName (fileName : List Byte) (killOk : Bool) : List Act × Except Int Unit :=
  -- int fileNameSize = strlen(fileName);
  let fileNameSize : Int := wrapInt fileName.length
  if fileNameSize > MAX_FILE_NAME_SIZE then ([], Except.error (-1))
  else if killOk then ([Act.wait, Act.strcpy fileName, Act.kill, Act.wait], Except.ok ())
  else ([Act.wait, Act.strcpy fileName, Act.kill], Except.error (-1))

/-- The part of `main` of `sender_ec.cpp` behind the identity exchange, up to the call of
`sendFile` (316-319): the actions, and the exit status when the process has exited. -/
def main (fileName : List Byte) (killOk : Bool) : List Act × Option Int :=
  thenSendFile (sendFileName fileName killOk)

end Notify

/-! ## The function `wait` (`recv_ec.cpp` 34-54, `sender_ec.cpp` 104-124) -/

namespace Signal

/-- Program points of `wait`. -/
inductive WPc where
  /-- before `sigprocmask(SIG_BLOCK, &mask, &oldmask)` -/
  | entry
  /-- the test `while (!flag)` -/
  | test
  /-- asleep in `sigsuspend(&oldmask)` -/
  | suspended
  /-- before `sigprocmask(SIG_UNBLOCK, &mask, NULL)` -/
  | unblock
  /-- before `flag = false` -/
  | clear
  /-- returned -/
  | returned
deriving DecidableEq

/-- Signal state of one process inside `wait`: `sig` is the notification signal (`SIGUSR1`
in the receiver, `SIGUSR2` in the sender), `sigmask` the process signal mask, `pending`
tells that `sig` was sent while blocked and is not yet delivered, `mask` and `oldmask`
are the globals of that name, `saved` is the mask `sigsuspend` restores when it returns,
`flag` is `usr_interrupt`, and `suspends` counts the calls of `sigsuspend`. -/
structure Proc where
  pc : WPc
  sig : Nat
  sigmask : Finset Nat
  pending : Bool
  mask : Finset Nat
  oldmask : Finset Nat
  saved : Finset Nat
  flag : Bool
  suspends : Nat
deriving DecidableEq

/-- What happens next: the process executes its next statement, or the peer's signal
arrives. -/
inductive Ev where
  | tick
  | signal
deriving DecidableEq

/-- The peer's `kill` arrives: the signal stays pending while blocked; otherwise the
handler (`usr1Signal` / `usr2Signal`) sets the flag, and a process asleep in `sigsuspend`
returns from it with its mask restored. -/
def onSignal (p : Proc) : Proc :=
  if p.sig ∈ p.sigmask then { p with pending := true }
  else if p.pc = WPc.suspended then { p with flag := true, sigmask := p.saved, pc := WPc.test }
  else { p with flag := true }

/-- The process executes its next statement of `wait`. -/
def tick (p : Proc) : Proc :=
  match p.pc with
  | WPc.entry =>
    -- sigprocmask(SIG_BLOCK, &mask, &oldmask)
    { p with oldmask := p.sigmask, sigmask := p.sigmask ∪ p.mask, pc := WPc.test }
  | WPc.test =>
    if p.flag then { p with pc := WPc.unblock }
    else if p.pending ∧ p.sig ∉ p.oldmask then
      -- sigsuspend(&oldmask) with the signal pending: the handler runs at once
      { p with pending := false, flag := true, suspends := p.suspends + 1 }
    else
      -- sigsuspend(&oldmask): sleep under the old mask
      { p with saved := p.sigmask, sigmask := p.oldmask, pc := WPc.suspended,
               suspends := p.suspends + 1 }
  | WPc.suspended => p
  | WPc.unblock =>
    -- sigprocmask(SIG_UNBLOCK, &mask, NULL); a pending signal is delivered when unblocked
    if p.pending ∧ p.sig ∉ p.sigmask \ p.mask then
      { p with sigmask := p.sigmask \ p.mask, pending := false, flag := true, pc := WPc.clear }
    else { p with sigmask := p.sigmask \ p.mask, pc := WPc.clear }
  | WPc.clear =>
    -- flag = false
    { p with flag := false, pc := WPc.returned }
  | WPc.returned => p

/-- One event. -/
def exec (e : Ev) (p : Proc) : Proc :=
  match e with
  | Ev.tick => tick p
  | Ev.signal => onSignal p

/-- The call `wait(flag)` under a schedule of events: the state at the moment `wait`
returns, `none` when the schedule ends before that. -/
def wait : List Ev → Proc → Option Proc
  | [], p => if p.pc = WPc.returned then some p else none
  | e :: es, p => if p.pc = WPc.returned then some p else wait es (exec e p)

/-- A process about to call `wait`. -/
def atEntry (sig : Nat) (sigmask mask : Finset Nat) (pending flag : Bool) : Proc :=
  { pc := WPc.entry, sig := sig, sigmask := sigmask, pending := pending, mask := mask,
    oldmask := ∅, saved := ∅, flag := flag, suspends := 0 }

end Signal

namespace Signal

/-- Statements of `wait` still to execute from a program point when the flag is set. -/
def ticksLeft : WPc → Nat
  | WPc.entry => 4
  | WPc.test => 3
  | WPc.unblock => 2
  | WPc.clear => 1
  | WPc.suspended => 0
  | WPc.returned => 0

/-- The process is inside `wait` on the path that does not sleep: past the test, or before
it with the flag set. -/
def Awake (p : Proc) : Prop :=
  p.pc = WPc.clear ∨ p.pc = WPc.unblock ∨ (p.pc = WPc.test ∧ p.flag = true) ∨
    (p.pc = WPc.entry ∧ p.flag = true)

end Signal

/-! ## Invariant of `wait` on the signal mask -/

namespace Signal

/-- Where the signal mask stands at each program point of `wait`, for a call entered with
the process mask `m0` and the global `mask` equal to `mk`. -/
def MaskInv (m0 mk : Finset Nat) (p : Proc) : Prop :=
  p.mask = mk ∧
  match p.pc with
  | WPc.entry => p.sigmask = m0
  | WPc.test => p.sigmask = m0 ∪ mk ∧ p.oldmask = m0
  | WPc.suspended => p.sigmask = m0 ∧ p.oldmask = m0 ∧ p.saved = m0 ∪ mk
  | WPc.unblock => p.sigmask = m0 ∪ mk
  | WPc.clear => p.sigmask = m0 \ mk
  | WPc.returned => p.sigmask = m0 \ mk ∧ p.flag = false

end Signal


/-! ## The chunk sequence of a source -/

/-- The successive pieces of `SHARED_MEMORY_CHUNK_SIZE` bytes of `rest`, each with its length;
the last piece is shorter when the length is not a multiple.  The first argument bounds the
number of pieces. -/
def chunkSeqAux : Nat → List Byte → List (Nat × List Byte)
  | 0, _ => []
  | n + 1, rest =>
    if rest = [] then []
    else ((rest.take SHARED_MEMORY_CHUNK_SIZE).length, rest.take SHARED_MEMORY_CHUNK_SIZE) ::
      chunkSeqAux n (rest.drop SHARED_MEMORY_CHUNK_SIZE)

/-- The chunks (size, payload) of a source in the order of announcement: its successive
pieces of 1000 bytes, then the terminator of size 0 with no payload. -/
def chunkSeq (data : List Byte) : List (Nat × List Byte) :=
  chunkSeqAux data.length data ++ [(0, [])]

/-- The sizes of a chunk sequence as values of the `int` field `size` of a message. -/
def sizesToInt (l : List (Nat × List Byte)) : List (Int × List Byte) :=
  l.map (fun p => ((p.1 : Int), p.2))

/-! ## Exchange of the process ids (`recv_ec.cpp` 282-297 and 330-333, `sender_ec.cpp`
230-249 and 310-313) -/

namespace Handshake

/-- Program points of the sender in `main`, lines 310-313. -/
inductive SPc where
  /-- before `rpid = recvpid()` -/
  | recvpid
  /-- in `sendpid`, before the store of `getpid()` at the start of the segment -/
  | store
  /-- in `sendpid`, before `kill(rpid, SIGUSR1)` -/
  | kill
  /-- the call `sendpid` has returned; the next statement of the sender that touches the segment is
  behind the `wait` at the start of `sendFileName` -/
  | done
  /-- the signal went to a process other than the receiver, or `kill` failed -/
  | astray
deriving DecidableEq, Repr

/-- Program points of the receiver in `main`, lines 330-333, the statements of `wait`
included. -/
inductive RPc where
  /-- before `sendpid()` -/
  | sendpid
  /-- in `recvpid`, in `wait` before `sigprocmask(SIG_BLOCK, ..)` -/
  | wBlock
  /-- the test `while (!flag)` -/
  | wTest
  /-- before `sigprocmask(SIG_UNBLOCK, ..)` -/
  | wUnblock
  /-- before `flag = false` -/
  | wClear
  /-- in `recvpid`, before the load from the start of the segment -/
  | load
  /-- the assignment `spid = recvpid()` is done -/
  | done
deriving DecidableEq, Repr

/-- Both processes during the exchange.  `cell` is the `pid_t` at the start of the shared
segment; `rpid` and `spid` are the globals of the sender and of the receiver; `rFlag` is the
receiver's `usr_interrupt` and `rPending` a `SIGUSR1` sent to it and not yet delivered.
`ordered` records, when the sender executes `recvpid`, whether the receiver had executed
`sendpid` by then; the code never reads it. -/
structure Sys where
  senderPid : Int
  receiverPid : Int
  cell : Int
  spc : SPc
  rpid : Int
  rpc : RPc
  spid : Int
  rFlag : Bool
  rPending : Bool
  ordered : Bool
deriving DecidableEq, Repr

/-- The receiver has `SIGUSR1` blocked: between the two calls of `sigprocmask` in `wait`. -/
def rBlocked (pc : RPc) : Bool :=
  match pc with
  | RPc.wTest => true
  | RPc.wUnblock => true
  | _ => false

/-- One step of the sender. -/
def sender (s : Sys) : Option Sys :=
  match s.spc with
  | SPc.recvpid =>
    -- line 310 with 246-249: rpid = *static_cast<pid_t*>(sharedMemPtr)
    some { s with spc := SPc.store, rpid := s.cell, ordered := decide (s.rpc ≠ RPc.sendpid) }
  | SPc.store =>
    -- line 232: *static_cast<pid_t*>(sharedMemPtr) = getpid()
    some { s with spc := SPc.kill, cell := s.senderPid }
  | SPc.kill =>
    -- line 235: kill(rpid, SIGUSR1)
    if s.rpid = s.receiverPid then some { s with spc := SPc.done, rPending := true }
    else some { s with spc := SPc.astray }
  | SPc.done => none
  | SPc.astray => none

/-- One step of the receiver. -/
def receiver (s : Sys) : Option Sys :=
  match s.rpc with
  | RPc.sendpid =>
    -- line 330 with 284: *static_cast<pid_t*>(sharedMemPtr) = getpid()
    some { s with rpc := RPc.wBlock, cell := s.receiverPid }
  | RPc.wBlock =>
    -- line 36: sigprocmask(SIG_BLOCK, &mask, &oldmask)
    some { s with rpc := RPc.wTest }
  | RPc.wTest =>
    -- lines 42-45: while (!flag) sigsuspend(&oldmask)
    if s.rFlag then some { s with rpc := RPc.wUnblock }
    else if s.rPending then
      -- inside sigsuspend the signal is delivered, the handler runs, sigsuspend returns
      some { s with rPending := false, rFlag := true }
    else none
  | RPc.wUnblock =>
    -- line 47: sigprocmask(SIG_UNBLOCK, &mask, NULL)
    some { s with rpc := RPc.wClear }
  | RPc.wClear =>
    -- line 53: flag = false
    some { s with rpc := RPc.load, rFlag := false }
  | RPc.load =>
    -- line 296 with 333: spid = *static_cast<pid_t*>(sharedMemPtr)
    some { s with rpc := RPc.done, spid := s.cell }
  | RPc.done => none

/-- The handler `usr1Signal` runs in the receiver (`recv_ec.cpp` 262-266): a pending
`SIGUSR1` is delivered as soon as it is not blocked. -/
def usr1Signal (s : Sys) : Option Sys :=
  if s.rPending ∧ rBlocked s.rpc = false then some { s with rPending := false, rFlag := true }
  else none

/-- Both processes after `init`: the handlers are installed, `usr_interrupt` is false, the
globals `rpid` and `spid` are zero, the segment holds `cell0`, left by whoever used it
before.  The processes have the ids `sp` and `rp`. -/
def initial (sp rp cell0 : Int) : Sys :=
  { senderPid := sp, receiverPid := rp, cell := cell0, spc := SPc.recvpid, rpid := 0,
    rpc := RPc.sendpid, spid := 0, rFlag := false, rPending := false, ordered := false }

/-- A step of the system: a step of either process or the run of the handler. -/
def Step (s t : Sys) : Prop :=
  sender s = some t ∨ receiver s = some t ∨ usr1Signal s = some t

/-- States the system can be in after any interleaving of steps. -/
def Reachable (sp rp cell0 : Int) (t : Sys) : Prop :=
  Relation.ReflTransGen Step (initial sp rp cell0) t

/-- Nothing can move: each process is through or sleeps for ever. -/
def Terminal (s : Sys) : Prop :=
  sender s = none ∧ receiver s = none ∧ usr1Signal s = none

/-- The scheduler used to run the system: receiver, else sender, else the handler. -/
def sched (s : Sys) : Option Sys :=
  match receiver s with
  | some t => some t
  | none =>
    match sender s with
    | some t => some t
    | none => usr1Signal s

/-- Runs the system for at most `fuel` steps; stops early in a terminal state. -/
def run : Nat → Sys → Sys
  | 0, s => s
  | fuel + 1, s =>
    match sched s with
    | some t => run fuel t
    | none => s

/-- Weight of a sender program point in the termination measure. -/
def sRank : SPc → Nat
  | SPc.done => 0
  | SPc.astray => 0
  | SPc.kill => 11
  | SPc.store => 12
  | SPc.recvpid => 13

/-- Weight of a receiver program point in the termination measure; past the test in
`wait` the weight includes the notification being consumed. -/
def rRank : RPc → Nat
  | RPc.done => 0
  | RPc.load => 1
  | RPc.wClear => 9
  | RPc.wUnblock => 10
  | RPc.wTest => 2
  | RPc.wBlock => 3
  | RPc.sendpid => 4

/-- The receiver's flag counts in the measure except past the test in `wait`. -/
def rFlagCounts (pc : RPc) : Bool :=
  match pc with
  | RPc.wUnblock => false
  | RPc.wClear => false
  | _ => true

/-- Termination measure: every step makes it smaller. -/
def mu (s : Sys) : Nat :=
  sRank s.spc + rRank s.rpc + (if s.rFlag && rFlagCounts s.rpc then 9 else 0)
    + (if s.rPending then 10 else 0)

/-- No signal is outstanding to the receiver. -/
def rQuiet (s : Sys) : Prop := s.rFlag = false ∧ s.rPending = false

/-- The receiver is in `wait` before the test has seen the flag. -/
def rBefore (s : Sys) : Prop := s.rpc = RPc.wBlock ∨ s.rpc = RPc.wTest

/-- Where the receiver stands once the sender has signalled it. -/
def Signalled (sp : Int) (s : Sys) : Prop :=
  (rBefore s ∧
    ((s.rPending = true ∧ s.rFlag = false) ∨ (s.rPending = false ∧ s.rFlag = true))) ∨
  ((s.rpc = RPc.wUnblock ∨ s.rpc = RPc.wClear) ∧ s.rPending = false ∧ s.rFlag = true) ∨
  (s.rpc = RPc.load ∧ rQuiet s) ∨
  (s.rpc = RPc.done ∧ rQuiet s ∧ s.spid = sp)

/-- Invariant of all reachable states of the exchange; the part about the sender past
`recvpid` holds when the receiver had executed `sendpid` before. -/
def Inv (sp rp : Int) (s : Sys) : Prop :=
  s.senderPid = sp ∧ s.receiverPid = rp ∧
  (s.spc = SPc.recvpid →
    s.ordered = false ∧ rQuiet s ∧ (s.rpc = RPc.sendpid ∨ rBefore s) ∧
    (s.rpc ≠ RPc.sendpid → s.cell = rp)) ∧
  (s.ordered = true →
    s.rpid = rp ∧ s.spc ≠ SPc.astray ∧
    (s.spc = SPc.store → rQuiet s ∧ rBefore s) ∧
    (s.spc = SPc.kill → s.cell = sp ∧ rQuiet s ∧ rBefore s) ∧
    (s.spc = SPc.done → s.cell = sp ∧ Signalled sp s))

end Handshake
/-! ## Theorems: stdio and C integers -/

theorem fread_length_le (fp : FILE) :
    (fread SHARED_MEMORY_CHUNK_SIZE fp).1.length ≤ 1000 := by
  simp [fread, SHARED_MEMORY_CHUNK_SIZE]

theorem fread_split (n : Nat) (fp : FILE) : (fread n fp).1 ++ (fread n fp).2.rest = fp.rest := by
  simp [fread]

theorem toULong_natCast {n : Nat} (h : n ≤ 1000) : toULong (n : Int) = n := by
  unfold toULong
  have : ((n : Int) % 2 ^ 64) = (n : Int) := Int.emod_eq_of_lt (by omega) (by omega)
  rw [this]; simp

/-! ## Theorems: message-queue backend -/

namespace Queue

theorem q_dataCount_append (q r : List Msg) : dataCount (q ++ r) = dataCount q + dataCount r := by
  induction q with
  | nil => simp [dataCount]
  | cons m q ih => cases m <;> simp [dataCount, ih]; omega

theorem q_dataCount_msgrcvAck {q q' : List Msg} (h : msgrcvAck q = some q') :
    dataCount q' = dataCount q := by
  induction q generalizing q' with
  | nil => simp [msgrcvAck] at h
  | cons m q ih =>
    cases m with
    | ack => simp [msgrcvAck] at h; subst h; simp [dataCount]
    | fileName nm =>
      simp [msgrcvAck] at h
      obtain ⟨r, hr, rfl⟩ := h
      simp [dataCount, ih hr]
    | data n =>
      simp [msgrcvAck] at h
      obtain ⟨r, hr, rfl⟩ := h
      simp [dataCount, ih hr]

theorem q_dataCount_msgrcvData {q : List Msg} {r : Int × List Msg} (h : msgrcvData q = some r) :
    dataCount r.2 + 1 = dataCount q := by
  induction q generalizing r with
  | nil => simp [msgrcvData] at h
  | cons m q ih =>
    cases m with
    | data n => simp [msgrcvData] at h; subst h; simp [dataCount]
    | fileName nm =>
      simp [msgrcvData] at h
      obtain ⟨a, b, hr, rfl⟩ := h
      simpa [dataCount] using ih hr
    | ack =>
      simp [msgrcvData] at h
      obtain ⟨a, b, hr, rfl⟩ := h
      simpa [dataCount] using ih hr

theorem q_sendFile_mu {s t : Sys} (h : sendFile s = some t) : mu t < mu s := by
  unfold sendFile at h
  split at h
  next hpc =>
    split at h
    next he =>
      simp only [Option.some.injEq] at h
      subst h
      simp [mu, hpc, sRank, msgsnd, q_dataCount_append, dataCount, feof] at he ⊢
      omega
    next he =>
      simp only [Option.some.injEq] at h
      subst h
      simp [feof] at he
      simp [mu, hpc, sRank, fread, he, SHARED_MEMORY_CHUNK_SIZE]
      split <;> omega
  next hpc =>
    simp only [Option.some.injEq] at h
    subst h
    simp [mu, hpc, sRank, msgsnd, q_dataCount_append, dataCount]
    omega
  next hpc =>
    split at h
    · simp at h
    next q hq =>
      simp only [Option.some.injEq] at h
      subst h
      simp [mu, hpc, sRank, q_dataCount_msgrcvAck hq]
  next hpc => simp at h

theorem q_mainLoop_mu {s t : Sys} (h : mainLoop s = some t) : mu t < mu s := by
  unfold mainLoop at h
  split at h
  next hpc =>
    simp only [Option.some.injEq] at h
    subst h
    simp [mu, hpc, rRank]
  next hpc =>
    split at h
    next hm =>
      split at h
      · simp at h
      next r hr =>
        simp only [Option.some.injEq] at h
        subst h
        have := q_dataCount_msgrcvData hr
        simp [mu, hpc, rRank]
        omega
    next hm =>
      simp only [Option.some.injEq] at h
      subst h
      simp [mu, hpc, rRank]
  next hpc =>
    split at h <;>
    · simp only [Option.some.injEq] at h
      subst h
      simp [mu, hpc, rRank]
  next hpc =>
    simp only [Option.some.injEq] at h
    subst h
    simp [mu, hpc, rRank, msgsnd, q_dataCount_append, dataCount]
  next hpc => simp at h

theorem q_step_mu {s t : Sys} (h : Step s t) : mu t < mu s := by
  rcases h with h | h
  · exact q_sendFile_mu h
  · exact q_mainLoop_mu h

theorem q_sched_step {s t : Sys} (h : sched s = some t) : Step s t := by
  unfold sched at h
  split at h
  next u hu => left; rw [hu, h]
  next hu => right; exact h

theorem q_sched_none {s : Sys} (h : sched s = none) : Terminal s := by
  unfold sched at h
  split at h
  · simp at h
  next hu => exact ⟨hu, h⟩

theorem q_run_terminal (n : Nat) (s : Sys) (h : mu s ≤ n) : Terminal (run n s) := by
  induction n generalizing s with
  | zero =>
    have hs : sched s = none := by
      cases hc : sched s with
      | none => rfl
      | some t => have := q_step_mu (q_sched_step hc); omega
    simpa [run] using q_sched_none hs
  | succ n ih =>
    cases hc : sched s with
    | none => simpa [run, hc] using q_sched_none hc
    | some t =>
      have := q_step_mu (q_sched_step hc)
      simpa [run, hc] using ih t (by omega)

theorem q_run_reaches (n : Nat) (s : Sys) : Relation.ReflTransGen Step s (run n s) := by
  induction n generalizing s with
  | zero => exact Relation.ReflTransGen.refl
  | succ n ih =>
    cases hc : sched s with
    | none => simpa [run, hc] using Relation.ReflTransGen.refl
    | some t =>
      simpa [run, hc] using Relation.ReflTransGen.head (q_sched_step hc) (ih t)

end Queue

namespace Queue

theorem q_take_fread (shm : List Byte) (fp : FILE) :
    List.take (toULong ((fread SHARED_MEMORY_CHUNK_SIZE fp).1.length : Int))
      (memWrite shm (fread SHARED_MEMORY_CHUNK_SIZE fp).1) =
      (fread SHARED_MEMORY_CHUNK_SIZE fp).1 := by
  rw [toULong_natCast (fread_length_le fp)]
  simp [memWrite]

theorem q_inv_init (data shm0 : List Byte) : Inv data (initial data shm0) := by
  simp [Inv, Phase, initial, rIdle]

theorem q_inv_sendFile {data : List Byte} {s t : Sys} (hi : Inv data s)
    (h : sendFile s = some t) : Inv data t := by
  obtain ⟨h1, h2, hp⟩ := hi
  rcases hp with ⟨hs, hr, hq, hd⟩ | ⟨hs, hr, hq, hd⟩ | ⟨hs, hr, hq, hd⟩ | ⟨hs, hr, hm, hq, hd⟩ |
    ⟨hs, hr, hm, hq, hd⟩ | ⟨hs, hr, hm, hq, hd⟩ | ⟨hs, hr, hq, hd⟩ | ⟨hs, hr, hm, hq, hd⟩ |
    ⟨hs, hr, hm, hq, hd⟩
  · -- at the loop test
    unfold sendFile at h
    rw [hs] at h
    simp only at h
    split at h
    next he =>
      simp only [Option.some.injEq] at h
      subst h
      simp only [feof] at he
      have hrest := h2 he
      refine ⟨h1, h2, ?_⟩
      simp [Phase, hq, msgsnd, rIdle] at hr ⊢
      refine ⟨hr, ?_⟩
      simpa [hrest] using hd
    next he =>
      simp only [Option.some.injEq] at h
      subst h
      simp only [feof, Bool.not_eq_true] at he
      refine ⟨h1, ?_, ?_⟩
      · simp [fread, he, SHARED_MEMORY_CHUNK_SIZE]
        intro hl; omega
      · right; left
        refine ⟨rfl, hr, hq, ?_, ?_, ?_, ?_⟩
        · show s.sink ++ List.take (toULong ((fread SHARED_MEMORY_CHUNK_SIZE s.fp).1.length : Int))
              (memWrite s.shm (fread SHARED_MEMORY_CHUNK_SIZE s.fp).1) ++
              (fread SHARED_MEMORY_CHUNK_SIZE s.fp).2.rest = data
          rw [q_take_fread, List.append_assoc, fread_split, hd]
        · simp
        · simp [fread, SHARED_MEMORY_CHUNK_SIZE]
        · simp [fread, SHARED_MEMORY_CHUNK_SIZE, he]
  · simp [sendFile, hs] at h
    subst h
    refine ⟨h1, h2, ?_⟩
    right; right; left
    exact ⟨rfl, hr, by simp [hq, msgsnd], hd⟩
  · simp [sendFile, hs, hq, msgrcvAck] at h
  · simp [sendFile, hs, hq, msgrcvAck] at h
  · simp [sendFile, hs, hq, msgrcvAck] at h
  · simp [sendFile, hs, hq, msgrcvAck] at h
    subst h
    refine ⟨h1, h2, ?_⟩
    left
    exact ⟨rfl, ⟨Or.inr hr, hm⟩, rfl, hd⟩
  · simp [sendFile, hs] at h
  · simp [sendFile, hs] at h
  · rcases hs with hs | hs <;> simp [sendFile, hs, hq, msgrcvAck] at h

theorem q_inv_mainLoop {data : List Byte} {s t : Sys} (hi : Inv data s)
    (h : mainLoop s = some t) : Inv data t := by
  obtain ⟨h1, h2, hp⟩ := hi
  rcases hp with ⟨hs, hr, hq, hd⟩ | ⟨hs, hr, hq, hd⟩ | ⟨hs, hr, hq, hd⟩ | ⟨hs, hr, hm, hq, hd⟩ |
    ⟨hs, hr, hm, hq, hd⟩ | ⟨hs, hr, hm, hq, hd⟩ | ⟨hs, hr, hq, hd⟩ | ⟨hs, hr, hm, hq, hd⟩ |
    ⟨hs, hr, hm, hq, hd⟩
  · obtain ⟨hr | hr, hm⟩ := hr
    · simp [mainLoop, hr] at h
      subst h
      have h0 := h1 hr
      refine ⟨by simp, h2, Or.inl ⟨hs, ⟨Or.inr rfl, hm⟩, hq, ?_⟩⟩
      simpa [h0] using hd
    · simp [mainLoop, hr, hm, hq, msgrcvData] at h
  · obtain ⟨hr | hr, hm⟩ := hr
    · simp [mainLoop, hr] at h
      subst h
      have h0 := h1 hr
      refine ⟨by simp, h2, Or.inr (Or.inl ⟨hs, ⟨Or.inr rfl, hm⟩, hq, ?_⟩)⟩
      simpa [Flight, h0] using hd
    · simp [mainLoop, hr, hm, hq, msgrcvData] at h
  · obtain ⟨hr | hr, hm⟩ := hr
    · simp [mainLoop, hr] at h
      subst h
      have h0 := h1 hr
      refine ⟨by simp, h2, Or.inr (Or.inr (Or.inl ⟨hs, ⟨Or.inr rfl, hm⟩, hq, ?_⟩))⟩
      simpa [Flight, h0] using hd
    · simp [mainLoop, hr, hm, hq, msgrcvData] at h
      subst h
      refine ⟨by simp, h2, Or.inr (Or.inr (Or.inr (Or.inl ⟨hs, rfl, rfl, rfl, hd⟩)))⟩
  · by_cases hz : s.msgSize = 0
    · simp [mainLoop, hr, hz] at h
      subst h
      obtain ⟨hd1, hd2, hd3, hd4⟩ := hd
      have hss : s.sndSize = 0 := by rw [← hm]; exact hz
      have hrest := h2 (hd4 (by omega))
      refine ⟨by simp, h2, ?_⟩
      simp [Phase, hs, hq, hz]
      simpa [hss, hrest, toULong] using hd1
    · simp [mainLoop, hr, hz] at h
      subst h
      obtain ⟨hd1, hd2, hd3, hd4⟩ := hd
      refine ⟨by simp, h2, ?_⟩
      simp [Phase, hs, hq, hz]
      rw [hm, ← List.append_assoc]
      exact hd1
  · simp [mainLoop, hr] at h
    subst h
    refine ⟨by simp, h2, ?_⟩
    simp [Phase, hs, hq, msgsnd, hd, hm]
  · simp [mainLoop, hr, hm, hq, msgrcvData] at h
  · obtain ⟨hr | hr, hm⟩ := hr
    · simp [mainLoop, hr] at h
      subst h
      have h0 := h1 hr
      refine ⟨by simp, h2, ?_⟩
      simp [Phase, hs, hq, rIdle, hm]
      rw [← hd, h0]
    · simp [mainLoop, hr, hm, hq, msgrcvData] at h
      subst h
      refine ⟨by simp, h2, ?_⟩
      simp [Phase, hs, hd]
  · simp [mainLoop, hr, hm] at h
    subst h
    refine ⟨by simp, h2, ?_⟩
    simp [Phase, hs, hm, hq, hd]
  · rcases hr with hr | hr
    · simp [mainLoop, hr, hm] at h
      subst h
      refine ⟨by simp, h2, ?_⟩
      simp [Phase, hs, hm, hq, hd]
    · simp [mainLoop, hr] at h

end Queue

namespace Queue

theorem q_reachable_induction {data shm0 : List Byte} (P : Sys → Prop)
    (h0 : P (initial data shm0)) (hstep : ∀ s t, P s → Step s t → P t)
    {t : Sys} (ht : Reachable data shm0 t) : P t := by
  induction ht with
  | refl => exact h0
  | tail _ hst ih => exact hstep _ _ ih hst

theorem q_inv_reachable {data shm0 : List Byte} {t : Sys} (ht : Reachable data shm0 t) :
    Inv data t := by
  refine q_reachable_induction (Inv data) (q_inv_init data shm0) ?_ ht
  intro s t hs hst
  rcases hst with h | h
  · exact q_inv_sendFile hs h
  · exact q_inv_mainLoop hs h

theorem q_inv_sink_part {data : List Byte} {s : Sys} (hi : Inv data s) :
    ∃ r, s.sink ++ r = data := by
  obtain ⟨_, _, hp⟩ := hi
  rcases hp with ⟨hs, hr, hq, hd⟩ | ⟨hs, hr, hq, hd⟩ | ⟨hs, hr, hq, hd⟩ | ⟨hs, hr, hm, hq, hd⟩ |
    ⟨hs, hr, hm, hq, hd⟩ | ⟨hs, hr, hm, hq, hd⟩ | ⟨hs, hr, hq, hd⟩ | ⟨hs, hr, hm, hq, hd⟩ |
    ⟨hs, hr, hm, hq, hd⟩
  · exact ⟨_, hd⟩
  · exact ⟨_, by rw [← List.append_assoc]; exact hd.1⟩
  · exact ⟨_, by rw [← List.append_assoc]; exact hd.1⟩
  · exact ⟨_, by rw [← List.append_assoc]; exact hd.1⟩
  · exact ⟨_, hd⟩
  · exact ⟨_, hd⟩
  · exact ⟨[], by simpa using hd⟩
  · exact ⟨[], by simpa using hd⟩
  · exact ⟨[], by simpa using hd⟩

theorem q_inv_terminal {data : List Byte} {s : Sys} (hi : Inv data s) (ht : Terminal s) :
    s.rpc = RPc.done ∧ s.sink = data := by
  obtain ⟨h1, h2, hp⟩ := hi
  obtain ⟨hts, htr⟩ := ht
  rcases hp with ⟨hs, hr, hq, hd⟩ | ⟨hs, hr, hq, hd⟩ | ⟨hs, hr, hq, hd⟩ | ⟨hs, hr, hm, hq, hd⟩ |
    ⟨hs, hr, hm, hq, hd⟩ | ⟨hs, hr, hm, hq, hd⟩ | ⟨hs, hr, hq, hd⟩ | ⟨hs, hr, hm, hq, hd⟩ |
    ⟨hs, hr, hm, hq, hd⟩
  · exfalso; unfold sendFile at hts; rw [hs] at hts; simp only at hts; split at hts <;> simp at hts
  · simp [sendFile, hs] at hts
  · obtain ⟨hr | hr, hm⟩ := hr
    · simp [mainLoop, hr] at htr
    · simp [mainLoop, hr, hm, hq, msgrcvData] at htr
  · exfalso; unfold mainLoop at htr; rw [hr] at htr; simp only at htr; split at htr <;> simp at htr
  · simp [mainLoop, hr] at htr
  · simp [sendFile, hs, hq, msgrcvAck] at hts
  · obtain ⟨hr | hr, hm⟩ := hr
    · simp [mainLoop, hr] at htr
    · simp [mainLoop, hr, hm, hq, msgrcvData] at htr
  · simp [mainLoop, hr, hm] at htr
  · rcases hr with hr | hr
    · simp [mainLoop, hr, hm] at htr
    · exact ⟨hr, hd⟩

/-- The payloads written so far are the content of the sink. -/
theorem q_written_append (a b : List Ev) : written (a ++ b) = written a ++ written b := by
  induction a with
  | nil => simp [written]
  | cons e a ih => cases e <;> simp [written, ih]

theorem q_sentSizes_append (a b : List Ev) : sentSizes (a ++ b) = sentSizes a ++ sentSizes b := by
  induction a with
  | nil => simp [sentSizes]
  | cons e a ih => cases e <;> simp [sentSizes, ih]

theorem q_sendFile_frame {s t : Sys} (h : sendFile s = some t) :
    t.rpc = s.rpc ∧ t.sink = s.sink ∧ written t.trace = written s.trace := by
  unfold sendFile at h
  split at h
  · split at h <;>
    · simp only [Option.some.injEq] at h
      subst h
      simp [q_written_append, written]
  · simp only [Option.some.injEq] at h
    subst h
    simp [q_written_append, written]
  · split at h
    · simp at h
    · simp only [Option.some.injEq] at h
      subst h
      simp [q_written_append, written]
  · simp at h

theorem q_written_reachable {data shm0 : List Byte} {t : Sys} (ht : Reachable data shm0 t) :
    (written t.trace).flatten = t.sink ∧ (t.rpc = RPc.start → t.sink = []) := by
  refine q_reachable_induction
    (fun t => (written t.trace).flatten = t.sink ∧ (t.rpc = RPc.start → t.sink = []))
    (by simp [initial, written]) ?_ ht
  intro s t ⟨hs1, hs2⟩ hst
  rcases hst with h | h
  · obtain ⟨f1, f2, f3⟩ := q_sendFile_frame h
    rw [f1, f2, f3]; exact ⟨hs1, hs2⟩
  · unfold mainLoop at h
    split at h
    next hpc =>
      simp only [Option.some.injEq] at h
      subst h
      have := hs2 hpc
      simp [q_written_append, written, hs1, this]
    next hpc =>
      split at h
      · split at h
        · simp at h
        · simp only [Option.some.injEq] at h
          subst h
          simp [q_written_append, written, hs1]
      · simp only [Option.some.injEq] at h
        subst h
        simp [hs1]
    next hpc =>
      split at h <;>
      · simp only [Option.some.injEq] at h
        subst h
        simp [q_written_append, written, hs1]
    next hpc =>
      simp only [Option.some.injEq] at h
      subst h
      simp [q_written_append, written, hs1]
    next hpc => simp at h

end Queue

namespace Queue

theorem q_mainLoop_frame {s t : Sys} (h : mainLoop s = some t) :
    t.spc = s.spc ∧ t.sndSize = s.sndSize ∧ t.shm = s.shm ∧
      sentSizes t.trace = sentSizes s.trace ∧ acksReceived t.trace = acksReceived s.trace := by
  unfold mainLoop at h
  split at h
  · simp only [Option.some.injEq] at h
    subst h
    simp [q_sentSizes_append, sentSizes, acksReceived]
  · split at h
    · split at h
      · simp at h
      · simp only [Option.some.injEq] at h
        subst h
        simp [q_sentSizes_append, sentSizes, acksReceived]
    · simp only [Option.some.injEq] at h
      subst h
      simp
  · split at h <;>
    · simp only [Option.some.injEq] at h
      subst h
      simp [q_sentSizes_append, sentSizes, acksReceived]
  · simp only [Option.some.injEq] at h
    subst h
    simp [q_sentSizes_append, sentSizes, acksReceived]
  · simp at h

theorem q_lockstep_reachable {data shm0 : List Byte} {t : Sys} (ht : Reachable data shm0 t) :
    ((t.spc = SPc.loop ∨ t.spc = SPc.snd) →
        (sentSizes t.trace).length = acksReceived t.trace) ∧
    ((t.spc = SPc.rcv ∨ t.spc = SPc.done) →
        (sentSizes t.trace).length = acksReceived t.trace + 1) := by
  refine q_reachable_induction
    (fun t => ((t.spc = SPc.loop ∨ t.spc = SPc.snd) →
        (sentSizes t.trace).length = acksReceived t.trace) ∧
      ((t.spc = SPc.rcv ∨ t.spc = SPc.done) →
        (sentSizes t.trace).length = acksReceived t.trace + 1))
    (by simp [initial, sentSizes, acksReceived]) ?_ ht
  intro s t ⟨hs1, hs2⟩ hst
  rcases hst with h | h
  · unfold sendFile at h
    split at h
    next hpc =>
      have := hs1 (Or.inl hpc)
      split at h <;>
      · simp only [Option.some.injEq] at h
        subst h
        simp [q_sentSizes_append, sentSizes, acksReceived] at this ⊢
        exact this
    next hpc =>
      have := hs1 (Or.inr hpc)
      simp only [Option.some.injEq] at h
      subst h
      simp [q_sentSizes_append, sentSizes, acksReceived] at this ⊢
      exact this
    next hpc =>
      have := hs2 (Or.inl hpc)
      split at h
      · simp at h
      · simp only [Option.some.injEq] at h
        subst h
        simp [q_sentSizes_append, sentSizes, acksReceived] at this ⊢
        exact this
    next hpc => simp at h
  · obtain ⟨f1, _, _, f2, f3⟩ := q_mainLoop_frame h
    rw [f1, f2, f3]
    exact ⟨hs1, hs2⟩

theorem q_sizes_reachable {data shm0 : List Byte} {t : Sys} (ht : Reachable data shm0 t) :
    (∀ n ∈ sentSizes t.trace, 0 ≤ n ∧ n ≤ 1000) ∧
      (t.spc = SPc.snd → 0 ≤ t.sndSize ∧ t.sndSize ≤ 1000) ∧
      (shm0.length = SHARED_MEMORY_CHUNK_SIZE → t.shm.length = SHARED_MEMORY_CHUNK_SIZE) := by
  refine q_reachable_induction
    (fun t => (∀ n ∈ sentSizes t.trace, 0 ≤ n ∧ n ≤ 1000) ∧
      (t.spc = SPc.snd → 0 ≤ t.sndSize ∧ t.sndSize ≤ 1000) ∧
      (shm0.length = SHARED_MEMORY_CHUNK_SIZE → t.shm.length = SHARED_MEMORY_CHUNK_SIZE))
    (by simp [initial, sentSizes]) ?_ ht
  intro s t ⟨hs1, hs2, hs3⟩ hst
  rcases hst with h | h
  · unfold sendFile at h
    split at h
    next hpc =>
      split at h
      · simp only [Option.some.injEq] at h
        subst h
        refine ⟨?_, by simp, hs3⟩
        intro n hn
        simp [q_sentSizes_append, sentSizes] at hn
        rcases hn with hn | hn
        · exact hs1 n hn
        · subst hn; simp
      · simp only [Option.some.injEq] at h
        subst h
        have hle := fread_length_le s.fp
        refine ⟨hs1, fun _ => ⟨by simp, by simp only; omega⟩, ?_⟩
        intro h0
        have := hs3 h0
        have hle2 : (fread SHARED_MEMORY_CHUNK_SIZE s.fp).1.length ≤ SHARED_MEMORY_CHUNK_SIZE := by
          simp [fread]
        simp only [memWrite, List.length_append, List.length_drop]
        omega
    next hpc =>
      simp only [Option.some.injEq] at h
      subst h
      refine ⟨?_, by simp, hs3⟩
      intro n hn
      simp [q_sentSizes_append, sentSizes] at hn
      rcases hn with hn | hn
      · exact hs1 n hn
      · subst hn; exact hs2 hpc
    next hpc =>
      split at h
      · simp at h
      · simp only [Option.some.injEq] at h
        subst h
        refine ⟨?_, by simp, hs3⟩
        simpa [q_sentSizes_append, sentSizes] using hs1
    next hpc => simp at h
  · obtain ⟨f0, f1, f2, f3, _⟩ := q_mainLoop_frame h
    rw [f0, f1, f2, f3]
    exact ⟨hs1, hs2, hs3⟩

end Queue

namespace Queue

theorem q_run_2500 (c1 c2 c3 shm0 : List Byte) (h1 : c1.length = 1000) (h2 : c2.length = 1000)
    (h3 : c3.length = 500) :
    Terminal (run 23 (initial (c1 ++ (c2 ++ c3)) shm0)) ∧
    sentSizes (run 23 (initial (c1 ++ (c2 ++ c3)) shm0)).trace = [1000, 1000, 500, 0] ∧
    sendFileResult (run 23 (initial (c1 ++ (c2 ++ c3)) shm0)) = some 2500 ∧
    mainLoopResult (run 23 (initial (c1 ++ (c2 ++ c3)) shm0)) = some 2500 := by
  have e1 : ∀ l, List.take 1000 (c1 ++ l) = c1 := fun l => List.take_left' h1
  have e2 : ∀ l, List.drop 1000 (c1 ++ l) = l := fun l => List.drop_left' h1
  have e3 : ∀ l, List.take 1000 (c2 ++ l) = c2 := fun l => List.take_left' h2
  have e4 : ∀ l, List.drop 1000 (c2 ++ l) = l := fun l => List.drop_left' h2
  have e5 : List.take 1000 c3 = c3 := List.take_of_length_le (by omega)
  have e6 : List.drop 1000 c3 = [] := List.drop_of_length_le (by omega)
  simp [run, sched, sendFile, mainLoop, initial, fread, feof, msgsnd, msgrcvAck, msgrcvData,
    SHARED_MEMORY_CHUNK_SIZE, e1, e2, e3, e4, e5, e6, h1, h2, h3, Terminal, sentSizes,
    sendFileResult, mainLoopResult, addULong, wrapInt, toULong]

end Queue

/-! ## Theorems: signal backend -/

namespace Notify

theorem n_w_le (b : Bool) (n : Nat) : w b n ≤ n := by
  unfold w; split <;> omega

theorem n_w_true (n : Nat) : w true n = n := rfl

theorem n_w_false (n : Nat) : w false n = 0 := rfl

theorem n_sendFile_mu {s t : Sys} (h : sendFile s = some t) : mu t < mu s := by
  have b1 := n_w_le s.rPending 10
  have b2 := n_w_le s.sFlag 1
  have b3 := n_w_le s.sPending 2
  unfold sendFile at h
  split at h
  next hpc =>
    split at h
    next he =>
      simp only [Option.some.injEq] at h
      subst h
      simp only [feof] at he
      simp only [mu, hpc, sRank, he, n_w_true]
      simp
      omega
    next he =>
      simp only [Option.some.injEq] at h
      subst h
      simp [feof] at he
      simp only [mu, hpc, sRank, fread, he, SHARED_MEMORY_CHUNK_SIZE]
      simp
      split <;> omega
  next hpc =>
    simp only [Option.some.injEq] at h
    subst h
    simp only [mu, hpc, sRank, n_w_true]
    omega
  next hpc =>
    simp only [Option.some.injEq] at h
    subst h
    simp only [mu, hpc, sRank]
    omega
  next hpc =>
    split at h
    next hf =>
      simp only [Option.some.injEq] at h
      subst h
      simp only [mu, hpc, sRank]
      omega
    next hf =>
      split at h
      next hp =>
        simp only [Option.some.injEq] at h
        subst h
        simp only [mu, hpc, sRank, hp, n_w_true, n_w_false]
        omega
      · simp at h
  next hpc =>
    simp only [Option.some.injEq] at h
    subst h
    simp only [mu, hpc, sRank]
    omega
  next hpc =>
    simp only [Option.some.injEq] at h
    subst h
    simp only [mu, hpc, sRank, n_w_false]
    omega
  next hpc => simp at h

theorem n_mainLoop_mu {s t : Sys} (h : mainLoop s = some t) : mu t < mu s := by
  have b1 := n_w_le s.sPending 2
  have b2 := n_w_le s.rFlag 9
  unfold mainLoop at h
  split at h
  next hpc =>
    simp only [Option.some.injEq] at h
    subst h
    simp only [mu, hpc, rRank, rFlagCounts]
    omega
  next hpc =>
    split at h <;>
    · simp only [Option.some.injEq] at h
      subst h
      simp only [mu, hpc, rRank, rFlagCounts]
      omega
  next hpc =>
    simp only [Option.some.injEq] at h
    subst h
    simp only [mu, hpc, rRank, rFlagCounts]
    omega
  next hpc =>
    split at h
    next hf =>
      simp only [Option.some.injEq] at h
      subst h
      simp only [mu, hpc, rRank, rFlagCounts, hf, Bool.and_true, Bool.and_false, n_w_true,
        n_w_false]
      omega
    next hf =>
      split at h
      next hp =>
        simp only [Option.some.injEq] at h
        subst h
        simp only [Bool.not_eq_true] at hf
        simp only [mu, hpc, rRank, rFlagCounts, hf, hp, Bool.and_true, Bool.false_and,
          Bool.true_and, n_w_true, n_w_false]
        omega
      · simp at h
  next hpc =>
    simp only [Option.some.injEq] at h
    subst h
    simp only [mu, hpc, rRank, rFlagCounts, Bool.and_false, n_w_false]
    omega
  next hpc =>
    simp only [Option.some.injEq] at h
    subst h
    simp only [mu, hpc, rRank, rFlagCounts, Bool.and_false, Bool.false_and, n_w_false]
    omega
  next hpc =>
    split at h <;>
    · simp only [Option.some.injEq] at h
      subst h
      simp only [mu, hpc, rRank, rFlagCounts]
      omega
  next hpc =>
    simp only [Option.some.injEq] at h
    subst h
    simp only [mu, hpc, rRank, rFlagCounts, n_w_true]
    omega
  next hpc => simp at h

theorem n_usr2Signal_mu {s t : Sys} (h : usr2Signal s = some t) : mu t < mu s := by
  have b2 := n_w_le s.sFlag 1
  unfold usr2Signal at h
  split at h
  next hp =>
    simp only [Option.some.injEq] at h
    subst h
    simp only [mu, hp.1, n_w_true, n_w_false]
    omega
  · simp at h

theorem n_usr1Signal_mu {s t : Sys} (h : usr1Signal s = some t) : mu t < mu s := by
  have b2 := n_w_le (s.rFlag && rFlagCounts s.rpc) 9
  have b3 := n_w_le (true && rFlagCounts s.rpc) 9
  unfold usr1Signal at h
  split at h
  next hp =>
    simp only [Option.some.injEq] at h
    subst h
    simp only [mu, hp.1, n_w_true, n_w_false]
    omega
  · simp at h

theorem n_step_mu {s t : Sys} (h : Step s t) : mu t < mu s := by
  rcases h with h | h | h | h
  · exact n_sendFile_mu h
  · exact n_mainLoop_mu h
  · exact n_usr2Signal_mu h
  · exact n_usr1Signal_mu h

theorem n_sched_step {s t : Sys} (h : sched s = some t) : Step s t := by
  unfold sched at h
  split at h
  next u hu => left; rw [hu, h]
  next hu =>
    split at h
    next u hv => right; left; rw [hv, h]
    next hv =>
      split at h
      next u hw => right; right; left; rw [hw, h]
      next hw => right; right; right; exact h

theorem n_sched_none {s : Sys} (h : sched s = none) : Terminal s := by
  unfold sched at h
  split at h
  · simp at h
  next hu =>
    split at h
    · simp at h
    next hv =>
      split at h
      · simp at h
      next hw => exact ⟨hu, hv, hw, h⟩

theorem n_run_terminal (n : Nat) (s : Sys) (h : mu s ≤ n) : Terminal (run n s) := by
  induction n generalizing s with
  | zero =>
    have hs : sched s = none := by
      cases hc : sched s with
      | none => rfl
      | some t => have := n_step_mu (n_sched_step hc); omega
    simpa [run] using n_sched_none hs
  | succ n ih =>
    cases hc : sched s with
    | none => simpa [run, hc] using n_sched_none hc
    | some t =>
      have := n_step_mu (n_sched_step hc)
      simpa [run, hc] using ih t (by omega)

theorem n_run_reaches (n : Nat) (s : Sys) : Relation.ReflTransGen Step s (run n s) := by
  induction n generalizing s with
  | zero => exact Relation.ReflTransGen.refl
  | succ n ih =>
    cases hc : sched s with
    | none => simpa [run, hc] using Relation.ReflTransGen.refl
    | some t =>
      simpa [run, hc] using Relation.ReflTransGen.head (n_sched_step hc) (ih t)

end Notify

namespace Notify

theorem n_take_fread (shm : List Byte) (fp : FILE) :
    List.take (fread SHARED_MEMORY_CHUNK_SIZE fp).1.length
      (memWrite shm (fread SHARED_MEMORY_CHUNK_SIZE fp).1) =
      (fread SHARED_MEMORY_CHUNK_SIZE fp).1 := by
  simp [memWrite]

theorem n_inv_init (data shm0 : List Byte) (hdr0 : Nat) : Inv data (initial data shm0 hdr0) := by
  simp [Inv, Phase, initial, rIdle, rBefore, sQuiet, rQuiet]

/-- A sender waiting without a signal can only go from `wBlock` to `wTest`. -/
theorem n_sWaiting_sendFile {s t : Sys} (hw : sWaiting s) (h : sendFile s = some t) :
    t = { s with spc := SPc.wTest } := by
  obtain ⟨hpc | hpc, hf, hp⟩ := hw
  · simp [sendFile, hpc] at h
    exact h.symm
  · simp [sendFile, hpc, hf, hp] at h

/-- An idle receiver only advances towards the test in `wait`. -/
theorem n_rIdle_mainLoop {s t : Sys} (hr : rIdle s) (h0 : s.rpc = RPc.start → s.sink = [])
    (h : mainLoop s = some t) :
    ∃ pc tr, t = { s with rpc := pc, trace := tr } ∧
      (pc = RPc.loop ∨ pc = RPc.wBlock ∨ pc = RPc.wTest) := by
  obtain ⟨hpc | hpc | hpc | hpc, hm, hf, hp⟩ := hr
  · simp [mainLoop, hpc] at h
    subst h
    refine ⟨RPc.loop, s.trace ++ [Ev.fopen], ?_, Or.inl rfl⟩
    simp [h0 hpc]
  · simp [mainLoop, hpc, hm] at h
    subst h
    exact ⟨RPc.wBlock, s.trace, rfl, Or.inr (Or.inl rfl)⟩
  · simp [mainLoop, hpc] at h
    subst h
    exact ⟨RPc.wTest, s.trace, rfl, Or.inr (Or.inr rfl)⟩
  · simp [mainLoop, hpc, hf, hp] at h

theorem n_rIdle_frame {s : Sys} (hr : rIdle s) {pc : RPc} {tr : List Ev}
    (hpc : pc = RPc.loop ∨ pc = RPc.wBlock ∨ pc = RPc.wTest) :
    rIdle { s with rpc := pc, trace := tr } := by
  obtain ⟨_, hm, hq⟩ := hr
  refine ⟨?_, hm, hq⟩
  rcases hpc with h | h | h
  · exact Or.inr (Or.inl h)
  · exact Or.inr (Or.inr (Or.inl h))
  · exact Or.inr (Or.inr (Or.inr h))

theorem n_inv_sendFile {data : List Byte} {s t : Sys} (hi : Inv data s)
    (h : sendFile s = some t) : Inv data t := by
  obtain ⟨h1, h2, hp⟩ := hi
  rcases hp with ⟨hs, hsq, hr, hd⟩ | ⟨hs, hsq, hr, hd⟩ | ⟨hw, hr, hd⟩ |
    ⟨hw, hr, hm, hrq, hd⟩ | ⟨hw, hr, hm, hrq, hd⟩ | ⟨hss, hr, hd⟩ |
    ⟨hs, hsq, hr, hh, hd⟩ | ⟨hs, hsq, hr, hm, hrq, hd⟩ | ⟨hw, hr, hm, hrq, hd⟩
  · -- at the loop test
    unfold sendFile at h
    rw [hs] at h
    simp only at h
    split at h
    next he =>
      simp only [Option.some.injEq] at h
      subst h
      simp only [feof] at he
      have hrest := h2 he
      refine ⟨h1, h2, ?_⟩
      right; right; right; right; right; right; left
      obtain ⟨hb, hm, hrf, hrp⟩ := hr
      refine ⟨rfl, hsq, ⟨hm, Or.inl ⟨hb, Or.inl ⟨rfl, hrf⟩⟩⟩, rfl, ?_⟩
      simpa [hrest] using hd
    next he =>
      simp only [Option.some.injEq] at h
      subst h
      simp only [feof, Bool.not_eq_true] at he
      refine ⟨h1, ?_, ?_⟩
      · simp [fread, he, SHARED_MEMORY_CHUNK_SIZE]
        intro hl; omega
      · right; left
        refine ⟨rfl, hsq, hr, ?_, ?_, ?_⟩
        · show s.sink ++ List.take (fread SHARED_MEMORY_CHUNK_SIZE s.fp).1.length
              (memWrite s.payload (fread SHARED_MEMORY_CHUNK_SIZE s.fp).1) ++
              (fread SHARED_MEMORY_CHUNK_SIZE s.fp).2.rest = data
          rw [n_take_fread, List.append_assoc, fread_split, hd]
        · simp [fread, SHARED_MEMORY_CHUNK_SIZE]
        · simp [fread, SHARED_MEMORY_CHUNK_SIZE, he]
  · simp [sendFile, hs] at h
    subst h
    refine ⟨h1, h2, ?_⟩
    right; right; left
    obtain ⟨hb, hm, hrf, hrp⟩ := hr
    exact ⟨⟨Or.inl rfl, hsq⟩, ⟨hm, Or.inl ⟨hb, Or.inl ⟨rfl, hrf⟩⟩⟩, hd⟩
  · have ht := n_sWaiting_sendFile hw h
    subst ht
    exact ⟨h1, h2, Or.inr (Or.inr (Or.inl ⟨⟨Or.inr rfl, hw.2⟩, hr, hd⟩))⟩
  · have ht := n_sWaiting_sendFile hw h
    subst ht
    exact ⟨h1, h2, Or.inr (Or.inr (Or.inr (Or.inl ⟨⟨Or.inr rfl, hw.2⟩, hr, hm, hrq, hd⟩)))⟩
  · have ht := n_sWaiting_sendFile hw h
    subst ht
    exact ⟨h1, h2,
      Or.inr (Or.inr (Or.inr (Or.inr (Or.inl ⟨⟨Or.inr rfl, hw.2⟩, hr, hm, hrq, hd⟩))))⟩
  · rcases hss with ⟨hpc | hpc, hx⟩ | ⟨hpc | hpc, hsp, hsf⟩
    · simp [sendFile, hpc] at h
      subst h
      exact ⟨h1, h2, Or.inr (Or.inr (Or.inr (Or.inr (Or.inr (Or.inl
        ⟨Or.inl ⟨Or.inr rfl, hx⟩, hr, hd⟩)))))⟩
    · rcases hx with ⟨hsp, hsf⟩ | ⟨hsp, hsf⟩
      · simp [sendFile, hpc, hsp, hsf] at h
        subst h
        exact ⟨h1, h2, Or.inr (Or.inr (Or.inr (Or.inr (Or.inr (Or.inl
          ⟨Or.inl ⟨Or.inr rfl, Or.inr ⟨rfl, rfl⟩⟩, hr, hd⟩)))))⟩
      · simp [sendFile, hpc, hsf] at h
        subst h
        exact ⟨h1, h2, Or.inr (Or.inr (Or.inr (Or.inr (Or.inr (Or.inl
          ⟨Or.inr ⟨Or.inl rfl, hsp, rfl⟩, hr, hd⟩)))))⟩
    · simp [sendFile, hpc] at h
      subst h
      exact ⟨h1, h2, Or.inr (Or.inr (Or.inr (Or.inr (Or.inr (Or.inl
        ⟨Or.inr ⟨Or.inr rfl, hsp, hsf⟩, hr, hd⟩)))))⟩
    · simp [sendFile, hpc] at h
      subst h
      exact ⟨h1, h2, Or.inl ⟨rfl, ⟨rfl, hsp⟩, hr, hd⟩⟩
  · simp [sendFile, hs] at h
  · simp [sendFile, hs] at h
  · rcases hw with hw | ⟨hs, hsq⟩
    · have ht := n_sWaiting_sendFile hw h
      subst ht
      refine ⟨h1, h2, ?_⟩
      right; right; right; right; right; right; right; right
      exact ⟨Or.inl ⟨Or.inr rfl, hw.2⟩, hr, hm, hrq, hd⟩
    · simp [sendFile, hs] at h

/-- A signalled receiver goes through `wait` without sleeping; at its end it reads the
header. -/
theorem n_rSignalled_mainLoop {s t : Sys} (hr : rSignalled s)
    (h0 : s.rpc = RPc.start → s.sink = []) (h : mainLoop s = some t) :
    (∃ pc tr f p, t = { s with rpc := pc, rFlag := f, rPending := p, trace := tr } ∧
        rSignalled { s with rpc := pc, rFlag := f, rPending := p, trace := tr } ∧
        pc ≠ RPc.start) ∨
    (t = { s with rpc := RPc.handle, rFlag := false, chunkSize := s.hdr,
                  trace := s.trace ++ [Ev.getChunkSize s.hdr] } ∧ s.rPending = false) := by
  obtain ⟨hm, ⟨hpc | hpc | hpc | hpc, hx⟩ | ⟨hpc | hpc, hp, hf⟩⟩ := hr
  · simp [mainLoop, hpc] at h
    subst h
    left
    refine ⟨RPc.loop, s.trace ++ [Ev.fopen], s.rFlag, s.rPending, ?_, ?_, by simp⟩
    · simp [h0 hpc]
    · exact ⟨hm, Or.inl ⟨Or.inr (Or.inl rfl), hx⟩⟩
  · simp [mainLoop, hpc, hm] at h
    subst h
    left
    exact ⟨RPc.wBlock, s.trace, s.rFlag, s.rPending, rfl,
      ⟨hm, Or.inl ⟨Or.inr (Or.inr (Or.inl rfl)), hx⟩⟩, by simp⟩
  · simp [mainLoop, hpc] at h
    subst h
    left
    exact ⟨RPc.wTest, s.trace, s.rFlag, s.rPending, rfl,
      ⟨hm, Or.inl ⟨Or.inr (Or.inr (Or.inr rfl)), hx⟩⟩, by simp⟩
  · rcases hx with ⟨hp, hf⟩ | ⟨hp, hf⟩
    · simp [mainLoop, hpc, hp, hf] at h
      subst h
      left
      refine ⟨RPc.wTest, s.trace, true, false, ?_, ?_, by simp⟩
      · simp [hpc]
      · exact ⟨hm, Or.inl ⟨Or.inr (Or.inr (Or.inr rfl)), Or.inr ⟨rfl, rfl⟩⟩⟩
    · simp [mainLoop, hpc, hf] at h
      subst h
      left
      refine ⟨RPc.wUnblock, s.trace, true, false, ?_, ?_, by simp⟩
      · simp [hp, hf]
      · exact ⟨hm, Or.inr ⟨Or.inl rfl, rfl, rfl⟩⟩
  · simp [mainLoop, hpc] at h
    subst h
    left
    refine ⟨RPc.wClear, s.trace, true, false, ?_, ?_, by simp⟩
    · simp [hp, hf]
    · exact ⟨hm, Or.inr ⟨Or.inr rfl, rfl, rfl⟩⟩
  · simp [mainLoop, hpc] at h
    subst h
    right
    exact ⟨rfl, hp⟩

theorem n_inv_mainLoop {data : List Byte} {s t : Sys} (hi : Inv data s)
    (h : mainLoop s = some t) : Inv data t := by
  obtain ⟨h1, h2, hp⟩ := hi
  rcases hp with ⟨hs, hsq, hr, hd⟩ | ⟨hs, hsq, hr, hd⟩ | ⟨hw, hr, hd⟩ |
    ⟨hw, hr, hm, hrq, hd⟩ | ⟨hw, hr, hm, hrq, hd⟩ | ⟨hss, hr, hd⟩ |
    ⟨hs, hsq, hr, hh, hd⟩ | ⟨hs, hsq, hr, hm, hrq, hd⟩ | ⟨hw, hr, hm, hrq, hd⟩
  · obtain ⟨pc, tr, rfl, hpc⟩ := n_rIdle_mainLoop hr h1 h
    refine ⟨?_, h2, Or.inl ⟨hs, hsq, n_rIdle_frame hr hpc, hd⟩⟩
    intro hc
    rcases hpc with e | e | e <;> · rw [e] at hc; simp at hc
  · obtain ⟨pc, tr, rfl, hpc⟩ := n_rIdle_mainLoop hr h1 h
    refine ⟨?_, h2, Or.inr (Or.inl ⟨hs, hsq, n_rIdle_frame hr hpc, hd⟩)⟩
    intro hc
    rcases hpc with e | e | e <;> · rw [e] at hc; simp at hc
  · rcases n_rSignalled_mainLoop hr h1 h with ⟨pc, tr, f, p, rfl, hr2, hne⟩ | ⟨rfl, hp⟩
    · exact ⟨fun hc => absurd hc hne, h2, Or.inr (Or.inr (Or.inl ⟨hw, hr2, hd⟩))⟩
    · exact ⟨by simp, h2, Or.inr (Or.inr (Or.inr (Or.inl ⟨hw, rfl, rfl, ⟨rfl, hp⟩, hd⟩)))⟩
  · by_cases hz : s.chunkSize = 0
    · simp [mainLoop, hr, hz] at h
      subst h
      obtain ⟨hd1, hd3, hd4⟩ := hd
      have hss : s.hdr = 0 := by rw [← hm]; exact hz
      have hrest := h2 (hd4 (by omega))
      refine ⟨by simp, h2, ?_⟩
      right; right; right; right; right; right; right; right
      refine ⟨Or.inl hw, Or.inl rfl, rfl, hrq, ?_⟩
      simpa [hss, hrest] using hd1
    · simp [mainLoop, hr, hz] at h
      subst h
      obtain ⟨hd1, hd3, hd4⟩ := hd
      refine ⟨by simp, h2, ?_⟩
      right; right; right; right; left
      refine ⟨hw, rfl, hz, hrq, ?_⟩
      show s.sink ++ List.take s.chunkSize s.payload ++ s.fp.rest = data
      rw [hm]
      exact hd1
  · simp [mainLoop, hr] at h
    subst h
    refine ⟨by simp, h2, ?_⟩
    right; right; right; right; right; left
    exact ⟨Or.inl ⟨hw.1, Or.inl ⟨rfl, hw.2.1⟩⟩, ⟨Or.inr (Or.inl rfl), hm, hrq⟩, hd⟩
  · obtain ⟨pc, tr, rfl, hpc⟩ := n_rIdle_mainLoop hr h1 h
    refine ⟨?_, h2, Or.inr (Or.inr (Or.inr (Or.inr (Or.inr (Or.inl
      ⟨hss, n_rIdle_frame hr hpc, hd⟩)))))⟩
    intro hc
    rcases hpc with e | e | e <;> · rw [e] at hc; simp at hc
  · rcases n_rSignalled_mainLoop hr h1 h with ⟨pc, tr, f, p, rfl, hr2, hne⟩ | ⟨rfl, hp⟩
    · exact ⟨fun hc => absurd hc hne, h2,
        Or.inr (Or.inr (Or.inr (Or.inr (Or.inr (Or.inr (Or.inl ⟨hs, hsq, hr2, hh, hd⟩))))))⟩
    · exact ⟨by simp, h2, Or.inr (Or.inr (Or.inr (Or.inr (Or.inr (Or.inr (Or.inr (Or.inl
        ⟨hs, hsq, rfl, hh, ⟨rfl, hp⟩, hd⟩)))))))⟩
  · simp [mainLoop, hr, hm] at h
    subst h
    refine ⟨by simp, h2, ?_⟩
    right; right; right; right; right; right; right; right
    exact ⟨Or.inr ⟨hs, hsq⟩, Or.inl rfl, rfl, hrq, hd⟩
  · rcases hr with hr | hr
    · simp [mainLoop, hr, hm] at h
      subst h
      refine ⟨by simp, h2, ?_⟩
      right; right; right; right; right; right; right; right
      exact ⟨hw, Or.inr rfl, rfl, hrq, hd⟩
    · simp [mainLoop, hr] at h

theorem n_inv_usr2Signal {data : List Byte} {s t : Sys} (hi : Inv data s)
    (h : usr2Signal s = some t) : Inv data t := by
  obtain ⟨h1, h2, hp⟩ := hi
  have quiet : sQuiet s → False := by
    intro hq
    simp [usr2Signal, hq.2] at h
  rcases hp with ⟨hs, hsq, hr, hd⟩ | ⟨hs, hsq, hr, hd⟩ | ⟨hw, hr, hd⟩ |
    ⟨hw, hr, hm, hrq, hd⟩ | ⟨hw, hr, hm, hrq, hd⟩ | ⟨hss, hr, hd⟩ |
    ⟨hs, hsq, hr, hh, hd⟩ | ⟨hs, hsq, hr, hm, hrq, hd⟩ | ⟨hw, hr, hm, hrq, hd⟩
  · exact (quiet hsq).elim
  · exact (quiet hsq).elim
  · exact (quiet hw.2).elim
  · exact (quiet hw.2).elim
  · exact (quiet hw.2).elim
  · rcases hss with ⟨hpc | hpc, hx⟩ | ⟨hpc, hsp, hsf⟩
    · rcases hx with ⟨hsp, hsf⟩ | ⟨hsp, hsf⟩
      · have hb : sBlocked s.spc = false := by rw [hpc]; rfl
        simp [usr2Signal, hsp, hb] at h
        subst h
        exact ⟨h1, h2, Or.inr (Or.inr (Or.inr (Or.inr (Or.inr (Or.inl
          ⟨Or.inl ⟨Or.inl hpc, Or.inr ⟨rfl, rfl⟩⟩, hr, hd⟩)))))⟩
      · simp [usr2Signal, hsp] at h
    · simp [usr2Signal, hpc, sBlocked] at h
    · simp [usr2Signal, hsp] at h
  · exact (quiet hsq).elim
  · exact (quiet hsq).elim
  · rcases hw with hw | ⟨_, hsq⟩
    · exact (quiet hw.2).elim
    · exact (quiet hsq).elim

theorem n_inv_usr1Signal {data : List Byte} {s t : Sys} (hi : Inv data s)
    (h : usr1Signal s = some t) : Inv data t := by
  obtain ⟨h1, h2, hp⟩ := hi
  have quiet : rQuiet s → False := by
    intro hq
    simp [usr1Signal, hq.2] at h
  have sig : rSignalled s →
      t = { s with rPending := false, rFlag := true } ∧
        rSignalled { s with rPending := false, rFlag := true } := by
    intro hr
    obtain ⟨hm, ⟨hb, hx⟩ | ⟨hpc, hp, hf⟩⟩ := hr
    · rcases hx with ⟨hp, hf⟩ | ⟨hp, hf⟩
      · rcases hb with hpc | hpc | hpc | hpc
        · have hb : rBlocked s.rpc = false := by rw [hpc]; rfl
          simp [usr1Signal, hp, hb] at h
          exact ⟨h.symm, hm, Or.inl ⟨Or.inl hpc, Or.inr ⟨rfl, rfl⟩⟩⟩
        · have hb : rBlocked s.rpc = false := by rw [hpc]; rfl
          simp [usr1Signal, hp, hb] at h
          exact ⟨h.symm, hm, Or.inl ⟨Or.inr (Or.inl hpc), Or.inr ⟨rfl, rfl⟩⟩⟩
        · have hb : rBlocked s.rpc = false := by rw [hpc]; rfl
          simp [usr1Signal, hp, hb] at h
          exact ⟨h.symm, hm, Or.inl ⟨Or.inr (Or.inr (Or.inl hpc)), Or.inr ⟨rfl, rfl⟩⟩⟩
        · simp [usr1Signal, hp, hpc, rBlocked] at h
      · simp [usr1Signal, hp] at h
    · simp [usr1Signal, hp] at h
  rcases hp with ⟨hs, hsq, hr, hd⟩ | ⟨hs, hsq, hr, hd⟩ | ⟨hw, hr, hd⟩ |
    ⟨hw, hr, hm, hrq, hd⟩ | ⟨hw, hr, hm, hrq, hd⟩ | ⟨hss, hr, hd⟩ |
    ⟨hs, hsq, hr, hh, hd⟩ | ⟨hs, hsq, hr, hm, hrq, hd⟩ | ⟨hw, hr, hm, hrq, hd⟩
  · exact (quiet hr.2.2).elim
  · exact (quiet hr.2.2).elim
  · obtain ⟨rfl, hr2⟩ := sig hr
    exact ⟨h1, h2, Or.inr (Or.inr (Or.inl ⟨hw, hr2, hd⟩))⟩
  · exact (quiet hrq).elim
  · exact (quiet hrq).elim
  · exact (quiet hr.2.2).elim
  · obtain ⟨rfl, hr2⟩ := sig hr
    exact ⟨h1, h2,
      Or.inr (Or.inr (Or.inr (Or.inr (Or.inr (Or.inr (Or.inl ⟨hs, hsq, hr2, hh, hd⟩))))))⟩
  · exact (quiet hrq).elim
  · exact (quiet hrq).elim

end Notify

namespace Notify

theorem n_reachable_induction {data shm0 : List Byte} {hdr0 : Nat} (P : Sys → Prop)
    (h0 : P (initial data shm0 hdr0)) (hstep : ∀ s t, P s → Step s t → P t)
    {t : Sys} (ht : Reachable data shm0 hdr0 t) : P t := by
  induction ht with
  | refl => exact h0
  | tail _ hst ih => exact hstep _ _ ih hst

theorem n_inv_reachable {data shm0 : List Byte} {hdr0 : Nat} {t : Sys}
    (ht : Reachable data shm0 hdr0 t) : Inv data t := by
  refine n_reachable_induction (Inv data) (n_inv_init data shm0 hdr0) ?_ ht
  intro s t hs hst
  rcases hst with h | h | h | h
  · exact n_inv_sendFile hs h
  · exact n_inv_mainLoop hs h
  · exact n_inv_usr2Signal hs h
  · exact n_inv_usr1Signal hs h

theorem n_inv_sink_part {data : List Byte} {s : Sys} (hi : Inv data s) :
    ∃ r, s.sink ++ r = data := by
  obtain ⟨_, _, hp⟩ := hi
  rcases hp with ⟨hs, hsq, hr, hd⟩ | ⟨hs, hsq, hr, hd⟩ | ⟨hw, hr, hd⟩ |
    ⟨hw, hr, hm, hrq, hd⟩ | ⟨hw, hr, hm, hrq, hd⟩ | ⟨hss, hr, hd⟩ |
    ⟨hs, hsq, hr, hh, hd⟩ | ⟨hs, hsq, hr, hm, hrq, hd⟩ | ⟨hw, hr, hm, hrq, hd⟩
  · exact ⟨_, hd⟩
  · exact ⟨_, by rw [← List.append_assoc]; exact hd.1⟩
  · exact ⟨_, by rw [← List.append_assoc]; exact hd.1⟩
  · exact ⟨_, by rw [← List.append_assoc]; exact hd.1⟩
  · exact ⟨_, hd⟩
  · exact ⟨_, hd⟩
  · exact ⟨[], by simpa using hd⟩
  · exact ⟨[], by simpa using hd⟩
  · exact ⟨[], by simpa using hd⟩

theorem n_rSignalled_enabled {s : Sys} (hr : rSignalled s) : mainLoop s ≠ none := by
  obtain ⟨hm, ⟨hpc | hpc | hpc | hpc, hx⟩ | ⟨hpc | hpc, hp, hf⟩⟩ := hr
  · simp [mainLoop, hpc]
  · simp [mainLoop, hpc, hm]
  · simp [mainLoop, hpc]
  · rcases hx with ⟨hp, hf⟩ | ⟨hp, hf⟩
    · simp [mainLoop, hpc, hp, hf]
    · simp [mainLoop, hpc, hf]
  · simp [mainLoop, hpc]
  · simp [mainLoop, hpc]

theorem n_sSignalled_enabled {s : Sys} (hss : sSignalled s) : sendFile s ≠ none := by
  rcases hss with ⟨hpc | hpc, hx⟩ | ⟨hpc | hpc, hsp, hsf⟩
  · simp [sendFile, hpc]
  · rcases hx with ⟨hp, hf⟩ | ⟨hp, hf⟩
    · simp [sendFile, hpc, hp, hf]
    · simp [sendFile, hpc, hf]
  · simp [sendFile, hpc]
  · simp [sendFile, hpc]

theorem n_inv_terminal {data : List Byte} {s : Sys} (hi : Inv data s) (ht : Terminal s) :
    s.rpc = RPc.done ∧ s.sink = data := by
  obtain ⟨h1, h2, hp⟩ := hi
  obtain ⟨hts, htr, ht2, ht1⟩ := ht
  rcases hp with ⟨hs, hsq, hr, hd⟩ | ⟨hs, hsq, hr, hd⟩ | ⟨hw, hr, hd⟩ |
    ⟨hw, hr, hm, hrq, hd⟩ | ⟨hw, hr, hm, hrq, hd⟩ | ⟨hss, hr, hd⟩ |
    ⟨hs, hsq, hr, hh, hd⟩ | ⟨hs, hsq, hr, hm, hrq, hd⟩ | ⟨hw, hr, hm, hrq, hd⟩
  · exfalso; unfold sendFile at hts; rw [hs] at hts; simp only at hts; split at hts <;> simp at hts
  · simp [sendFile, hs] at hts
  · exact absurd htr (n_rSignalled_enabled hr)
  · exfalso; unfold mainLoop at htr; rw [hr] at htr; simp only at htr; split at htr <;> simp at htr
  · simp [mainLoop, hr] at htr
  · exact absurd hts (n_sSignalled_enabled hss)
  · exact absurd htr (n_rSignalled_enabled hr)
  · simp [mainLoop, hr, hm] at htr
  · rcases hr with hr | hr
    · simp [mainLoop, hr, hm] at htr
    · exact ⟨hr, hd⟩

theorem n_written_append (a b : List Ev) : written (a ++ b) = written a ++ written b := by
  induction a with
  | nil => simp [written]
  | cons e a ih => cases e <;> simp [written, ih]

theorem n_sentSizes_append (a b : List Ev) : sentSizes (a ++ b) = sentSizes a ++ sentSizes b := by
  induction a with
  | nil => simp [sentSizes]
  | cons e a ih => cases e <;> simp [sentSizes, ih]

theorem n_sendFile_frame {s t : Sys} (h : sendFile s = some t) :
    t.rpc = s.rpc ∧ t.sink = s.sink ∧ written t.trace = written s.trace := by
  unfold sendFile at h
  split at h
  · split at h <;>
    · simp only [Option.some.injEq] at h
      subst h
      simp [n_written_append, written]
  · simp only [Option.some.injEq] at h
    subst h
    simp [n_written_append, written]
  · simp only [Option.some.injEq] at h
    subst h
    simp
  · split at h
    · simp only [Option.some.injEq] at h
      subst h
      simp
    · split at h
      · simp only [Option.some.injEq] at h
        subst h
        simp
      · simp at h
  · simp only [Option.some.injEq] at h
    subst h
    simp
  · simp only [Option.some.injEq] at h
    subst h
    simp [n_written_append, written]
  · simp at h

theorem n_mainLoop_written {s t : Sys} (h : mainLoop s = some t)
    (hs1 : (written s.trace).flatten = s.sink) (hs2 : s.rpc = RPc.start → s.sink = []) :
    (written t.trace).flatten = t.sink ∧ (t.rpc = RPc.start → t.sink = []) := by
  unfold mainLoop at h
  split at h
  next hpc =>
    simp only [Option.some.injEq] at h
    subst h
    have := hs2 hpc
    simp [n_written_append, written, hs1, this]
  next hpc =>
    split at h <;>
    · simp only [Option.some.injEq] at h
      subst h
      simp [hs1]
  next hpc =>
    simp only [Option.some.injEq] at h
    subst h
    simp [hs1]
  next hpc =>
    split at h
    · simp only [Option.some.injEq] at h
      subst h
      simp [hs1]
    · split at h
      · simp only [Option.some.injEq] at h
        subst h
        simp [hs1, hpc]
      · simp at h
  next hpc =>
    simp only [Option.some.injEq] at h
    subst h
    simp [hs1]
  next hpc =>
    simp only [Option.some.injEq] at h
    subst h
    simp [n_written_append, written, hs1]
  next hpc =>
    split at h <;>
    · simp only [Option.some.injEq] at h
      subst h
      simp [n_written_append, written, hs1]
  next hpc =>
    simp only [Option.some.injEq] at h
    subst h
    simp [n_written_append, written, hs1]
  next hpc => simp at h

theorem n_written_reachable {data shm0 : List Byte} {hdr0 : Nat} {t : Sys}
    (ht : Reachable data shm0 hdr0 t) :
    (written t.trace).flatten = t.sink ∧ (t.rpc = RPc.start → t.sink = []) := by
  refine n_reachable_induction
    (fun t => (written t.trace).flatten = t.sink ∧ (t.rpc = RPc.start → t.sink = []))
    (by simp [initial, written]) ?_ ht
  intro s t ⟨hs1, hs2⟩ hst
  rcases hst with h | h | h | h
  · obtain ⟨f1, f2, f3⟩ := n_sendFile_frame h
    rw [f1, f2, f3]; exact ⟨hs1, hs2⟩
  · exact n_mainLoop_written h hs1 hs2
  · unfold usr2Signal at h
    split at h
    · simp only [Option.some.injEq] at h
      subst h
      exact ⟨hs1, hs2⟩
    · simp at h
  · unfold usr1Signal at h
    split at h
    · simp only [Option.some.injEq] at h
      subst h
      exact ⟨hs1, hs2⟩
    · simp at h

theorem n_sizes_reachable {data shm0 : List Byte} {hdr0 : Nat} {t : Sys}
    (ht : Reachable data shm0 hdr0 t) :
    (∀ n ∈ sentSizes t.trace, n ≤ 1000) ∧
      (shm0.length = SHARED_MEMORY_CHUNK_SIZE → t.payload.length = SHARED_MEMORY_CHUNK_SIZE) := by
  refine n_reachable_induction
    (fun t => (∀ n ∈ sentSizes t.trace, n ≤ 1000) ∧
      (shm0.length = SHARED_MEMORY_CHUNK_SIZE → t.payload.length = SHARED_MEMORY_CHUNK_SIZE))
    (by simp [initial, sentSizes]) ?_ ht
  intro s t ⟨hs1, hs3⟩ hst
  rcases hst with h | h | h | h
  · unfold sendFile at h
    split at h
    next hpc =>
      split at h
      · simp only [Option.some.injEq] at h
        subst h
        refine ⟨?_, hs3⟩
        intro n hn
        simp [n_sentSizes_append, sentSizes] at hn
        rcases hn with hn | hn
        · exact hs1 n hn
        · subst hn; simp
      · simp only [Option.some.injEq] at h
        subst h
        have hle := fread_length_le s.fp
        refine ⟨?_, ?_⟩
        · intro n hn
          simp [n_sentSizes_append, sentSizes] at hn
          rcases hn with hn | hn
          · exact hs1 n hn
          · subst hn; simpa using hle
        · intro h0
          have := hs3 h0
          have hle2 : (fread SHARED_MEMORY_CHUNK_SIZE s.fp).1.length ≤
              SHARED_MEMORY_CHUNK_SIZE := by
            simp [fread]
          simp only [memWrite, List.length_append, List.length_drop]
          omega
    next hpc =>
      simp only [Option.some.injEq] at h
      subst h
      refine ⟨?_, hs3⟩
      simpa [n_sentSizes_append, sentSizes] using hs1
    next hpc =>
      simp only [Option.some.injEq] at h
      subst h
      exact ⟨hs1, hs3⟩
    next hpc =>
      split at h
      · simp only [Option.some.injEq] at h
        subst h
        exact ⟨hs1, hs3⟩
      · split at h
        · simp only [Option.some.injEq] at h
          subst h
          exact ⟨hs1, hs3⟩
        · simp at h
    next hpc =>
      simp only [Option.some.injEq] at h
      subst h
      exact ⟨hs1, hs3⟩
    next hpc =>
      simp only [Option.some.injEq] at h
      subst h
      refine ⟨?_, hs3⟩
      simpa [n_sentSizes_append, sentSizes] using hs1
    next hpc => simp at h
  · have hfr : sentSizes t.trace = sentSizes s.trace ∧ t.payload = s.payload := by
      unfold mainLoop at h
      split at h
      · simp only [Option.some.injEq] at h
        subst h
        simp [n_sentSizes_append, sentSizes]
      · split at h <;>
        · simp only [Option.some.injEq] at h
          subst h
          simp
      · simp only [Option.some.injEq] at h
        subst h
        simp
      · split at h
        · simp only [Option.some.injEq] at h
          subst h
          simp
        · split at h
          · simp only [Option.some.injEq] at h
            subst h
            simp
          · simp at h
      · simp only [Option.some.injEq] at h
        subst h
        simp
      · simp only [Option.some.injEq] at h
        subst h
        simp [n_sentSizes_append, sentSizes]
      · split at h <;>
        · simp only [Option.some.injEq] at h
          subst h
          simp [n_sentSizes_append, sentSizes]
      · simp only [Option.some.injEq] at h
        subst h
        simp [n_sentSizes_append, sentSizes]
      · simp at h
    rw [hfr.1, hfr.2]
    exact ⟨hs1, hs3⟩
  · unfold usr2Signal at h
    split at h
    · simp only [Option.some.injEq] at h
      subst h
      exact ⟨hs1, hs3⟩
    · simp at h
  · unfold usr1Signal at h
    split at h
    · simp only [Option.some.injEq] at h
      subst h
      exact ⟨hs1, hs3⟩
    · simp at h

end Notify

/-! ## Theorems: `wait` -/

namespace Signal

theorem onSignal_awake {p : Proc} (h : Awake p) :
    Awake (onSignal p) ∧ (onSignal p).pc = p.pc ∧ (onSignal p).suspends = p.suspends := by
  unfold onSignal
  split
  · exact ⟨h, rfl, rfl⟩
  · split
    next hs =>
      exfalso
      rcases h with h | h | h | h
      · rw [h] at hs; simp at hs
      · rw [h] at hs; simp at hs
      · rw [h.1] at hs; simp at hs
      · rw [h.1] at hs; simp at hs
    next hs =>
      refine ⟨?_, rfl, rfl⟩
      rcases h with h | h | h | h
      · exact Or.inl h
      · exact Or.inr (Or.inl h)
      · exact Or.inr (Or.inr (Or.inl ⟨h.1, rfl⟩))
      · exact Or.inr (Or.inr (Or.inr ⟨h.1, rfl⟩))

theorem wait_returned (evs : List Ev) {p : Proc} (h : p.pc = WPc.returned) :
    wait evs p = some p := by
  cases evs <;> simp [wait, h]

theorem wait_awake (evs : List Ev) (p : Proc) (h : Awake p)
    (hn : ticksLeft p.pc ≤ evs.count Ev.tick) :
    ∃ q, wait evs p = some q ∧ q.pc = WPc.returned ∧ q.flag = false ∧
      q.suspends = p.suspends := by
  induction evs generalizing p with
  | nil =>
    exfalso
    rcases h with h | h | h | h
    · rw [h] at hn; simp [ticksLeft] at hn
    · rw [h] at hn; simp [ticksLeft] at hn
    · rw [h.1] at hn; simp [ticksLeft] at hn
    · rw [h.1] at hn; simp [ticksLeft] at hn
  | cons e es ih =>
    have hne : p.pc ≠ WPc.returned := by
      rcases h with h | h | h | h
      · rw [h]; simp
      · rw [h]; simp
      · rw [h.1]; simp
      · rw [h.1]; simp
    cases e with
    | signal =>
      obtain ⟨ha, hpc, hsus⟩ := onSignal_awake h
      have hn2 : ticksLeft (onSignal p).pc ≤ es.count Ev.tick := by
        rw [hpc]; simpa using hn
      obtain ⟨q, hq1, hq2, hq3, hq4⟩ := ih (onSignal p) ha hn2
      exact ⟨q, by simp [wait, hne, exec, hq1], hq2, hq3, by rw [hq4, hsus]⟩
    | tick =>
      have hc : List.count Ev.tick (Ev.tick :: es) = es.count Ev.tick + 1 := by simp
      rw [hc] at hn
      rcases h with h | h | h | h
      · refine ⟨tick p, ?_, ?_, ?_, ?_⟩
        · simp only [wait, hne, if_false, exec]
          exact wait_returned es (by simp [tick, h])
        · simp [tick, h]
        · simp [tick, h]
        · simp [tick, h]
      · have ht : Awake (tick p) ∧ (tick p).pc = WPc.clear ∧ (tick p).suspends = p.suspends := by
          unfold tick
          rw [h]
          simp only
          split <;> exact ⟨Or.inl rfl, rfl, rfl⟩
        obtain ⟨q, hq1, hq2, hq3, hq4⟩ := ih (tick p) ht.1 (by
          rw [ht.2.1]; rw [h] at hn; simp only [ticksLeft] at hn ⊢; omega)
        exact ⟨q, by simp [wait, hne, exec, hq1], hq2, hq3, by rw [hq4, ht.2.2]⟩
      · have ht : Awake (tick p) ∧ (tick p).pc = WPc.unblock ∧
            (tick p).suspends = p.suspends := by
          unfold tick
          rw [h.1]
          simp only
          rw [if_pos h.2]
          exact ⟨Or.inr (Or.inl rfl), rfl, rfl⟩
        obtain ⟨q, hq1, hq2, hq3, hq4⟩ := ih (tick p) ht.1 (by
          rw [ht.2.1]; rw [h.1] at hn; simp only [ticksLeft] at hn ⊢; omega)
        exact ⟨q, by simp [wait, hne, exec, hq1], hq2, hq3, by rw [hq4, ht.2.2]⟩
      · have ht : Awake (tick p) ∧ (tick p).pc = WPc.test ∧ (tick p).suspends = p.suspends := by
          unfold tick
          rw [h.1]
          exact ⟨Or.inr (Or.inr (Or.inl ⟨rfl, h.2⟩)), rfl, rfl⟩
        obtain ⟨q, hq1, hq2, hq3, hq4⟩ := ih (tick p) ht.1 (by
          rw [ht.2.1]; rw [h.1] at hn; simp only [ticksLeft] at hn ⊢; omega)
        exact ⟨q, by simp [wait, hne, exec, hq1], hq2, hq3, by rw [hq4, ht.2.2]⟩

end Signal
namespace Queue

/-- Facts about the sender that hold in every reachable state when the length of the source
is a multiple of 1000: `sendFile` has not returned, the end-of-file indicator is clear at
the loop test, and it is set only behind a read of 0 bytes, which nobody acknowledges. -/
theorem q_multiple_reachable {data shm0 : List Byte} (hlen : data.length % 1000 = 0)
    {t : Sys} (ht : Reachable data shm0 t) :
    Inv data t ∧ t.fp.rest.length % 1000 = 0 ∧ t.spc ≠ SPc.done ∧
      (t.spc = SPc.loop → t.fp.eof = false) ∧
      (t.fp.eof = true → t.sndSize = 0) ∧
      (t.rpc = RPc.ack → t.sndSize ≠ 0) ∧
      (Msg.ack ∈ t.queue → t.sndSize ≠ 0) ∧
      (t.msgSize = 0 → t.sndSize = 0) ∧
      (t.spc = SPc.rcv → (sentSizes t.trace).getLast? = some t.sndSize) := by
  refine q_reachable_induction
    (fun t => Inv data t ∧ t.fp.rest.length % 1000 = 0 ∧ t.spc ≠ SPc.done ∧
      (t.spc = SPc.loop → t.fp.eof = false) ∧
      (t.fp.eof = true → t.sndSize = 0) ∧
      (t.rpc = RPc.ack → t.sndSize ≠ 0) ∧
      (Msg.ack ∈ t.queue → t.sndSize ≠ 0) ∧
      (t.msgSize = 0 → t.sndSize = 0) ∧
      (t.spc = SPc.rcv → (sentSizes t.trace).getLast? = some t.sndSize))
    ?_ ?_ ht
  · exact ⟨q_inv_init data shm0, by simpa [initial] using hlen, by simp [initial],
      by simp [initial], by simp [initial], by simp [initial], by simp [initial],
      by simp [initial], by simp [initial]⟩
  · intro s t ⟨hi, k1, k2, k3, k4, k5, k6, k7, k8⟩ hst
    rcases hst with h | h
    · refine ⟨q_inv_sendFile hi h, ?_⟩
      obtain ⟨h1, h2, hp⟩ := hi
      unfold sendFile at h
      split at h
      next hpc =>
        have he := k3 hpc
        simp only [feof, he] at h
        simp only [Bool.false_eq_true, if_false, Option.some.injEq] at h
        subst h
        -- the receiver is idle and the queue is empty at the loop test
        have hA : s.rpc ≠ RPc.ack ∧ s.queue = [] ∧ s.msgSize ≠ 0 := by
          rcases hp with ⟨hs, hr, hq, hd⟩ | ⟨hs, hr, hq, hd⟩ | ⟨hs, hr, hq, hd⟩ |
            ⟨hs, hr, hm, hq, hd⟩ | ⟨hs, hr, hm, hq, hd⟩ | ⟨hs, hr, hm, hq, hd⟩ |
            ⟨hs, hr, hq, hd⟩ | ⟨hs, hr, hm, hq, hd⟩ | ⟨hs, hr, hm, hq, hd⟩
          · obtain ⟨hr | hr, hm⟩ := hr
            · exact ⟨by rw [hr]; simp, hq, hm⟩
            · exact ⟨by rw [hr]; simp, hq, hm⟩
          all_goals (rw [hpc] at hs; simp at hs)
        have hlen' : (List.take 1000 s.fp.rest).length = 1000 ∨ s.fp.rest = [] := by
          by_cases hc : 1000 ≤ s.fp.rest.length
          · left; simp; omega
          · right
            have : s.fp.rest.length = 0 := by omega
            exact List.length_eq_zero.mp this
        refine ⟨?_, by simp, by simp, ?_, ?_, ?_, ?_, by simp⟩
        · simp only [fread, SHARED_MEMORY_CHUNK_SIZE, List.length_drop]
          omega
        · simp only [fread, SHARED_MEMORY_CHUNK_SIZE, he, Bool.false_or, decide_eq_true_eq]
          intro hlt
          rcases hlen' with hl | hl
          · omega
          · simp [hl]
        · intro hc; exact absurd hc hA.1
        · intro hc; rw [hA.2.1] at hc; simp at hc
        · intro hc; exact absurd hc hA.2.2
      next hpc =>
        simp only [Option.some.injEq] at h
        subst h
        refine ⟨k1, by simp, by simp, k4, k5, ?_, k7, ?_⟩
        · intro hc
          simp only [msgsnd, List.mem_append, List.mem_singleton] at hc
          rcases hc with hc | hc
          · exact k6 hc
          · simp at hc
        · intro _
          simp [q_sentSizes_append, sentSizes]
      next hpc =>
        split at h
        · simp at h
        next q hq =>
          simp only [Option.some.injEq] at h
          subst h
          -- an acknowledgment was in the queue
          have hack : Msg.ack ∈ s.queue := by
            rcases hp with ⟨hs, hr, hq', hd⟩ | ⟨hs, hr, hq', hd⟩ | ⟨hs, hr, hq', hd⟩ |
              ⟨hs, hr, hm, hq', hd⟩ | ⟨hs, hr, hm, hq', hd⟩ | ⟨hs, hr, hm, hq', hd⟩ |
              ⟨hs, hr, hq', hd⟩ | ⟨hs, hr, hm, hq', hd⟩ | ⟨hs, hr, hm, hq', hd⟩
            all_goals (rw [hq'] at hq ⊢; simp [msgrcvAck] at hq ⊢)
          have hne := k6 hack
          refine ⟨k1, by simp, ?_, k4, k5, ?_, k7, by simp⟩
          · intro _
            cases hev : s.fp.eof with
            | false => rfl
            | true => exact absurd (k4 hev) hne
          · intro _; exact hne
      next hpc => simp at h
    · refine ⟨q_inv_mainLoop hi h, ?_⟩
      obtain ⟨h1, h2, hp⟩ := hi
      unfold mainLoop at h
      split at h
      next hpc =>
        simp only [Option.some.injEq] at h
        subst h
        refine ⟨k1, k2, k3, k4, by simp, k6, k7, ?_⟩
        intro hc
        simpa [q_sentSizes_append, sentSizes] using k8 hc
      next hpc =>
        split at h
        next hm =>
          split at h
          · simp at h
          next r hr =>
            simp only [Option.some.injEq] at h
            subst h
            -- the message taken is the one announcing `sndSize`
            have hsz : r.1 = s.sndSize ∧ r.2 = [] := by
              rcases hp with ⟨hs, hr', hq, hd⟩ | ⟨hs, hr', hq, hd⟩ | ⟨hs, hr', hq, hd⟩ |
                ⟨hs, hr', hm', hq, hd⟩ | ⟨hs, hr', hm', hq, hd⟩ | ⟨hs, hr', hm', hq, hd⟩ |
                ⟨hs, hr', hq, hd⟩ | ⟨hs, hr', hm', hq, hd⟩ | ⟨hs, hr', hm', hq, hd⟩
              · rw [hq] at hr; simp [msgrcvData] at hr
              · rw [hq] at hr; simp [msgrcvData] at hr
              · rw [hq] at hr; simp [msgrcvData] at hr; subst hr; exact ⟨rfl, rfl⟩
              · rw [hq] at hr; simp [msgrcvData] at hr
              · rw [hq] at hr; simp [msgrcvData] at hr
              · rw [hq] at hr; simp [msgrcvData] at hr
              · exact absurd hs k2
              · exact absurd hs k2
              · rw [hq] at hr; simp [msgrcvData] at hr
            refine ⟨k1, k2, k3, k4, by simp, ?_, ?_, ?_⟩
            · intro hc; rw [hsz.2] at hc; simp at hc
            · intro hc; rw [← hsz.1]; exact hc
            · intro hc
              simpa [q_sentSizes_append, sentSizes] using k8 hc
        next hm =>
          simp only [Option.some.injEq] at h
          subst h
          exact ⟨k1, k2, k3, k4, by simp, k6, k7, k8⟩
      next hpc =>
        have hD : s.msgSize = s.sndSize := by
          rcases hp with ⟨hs, hr', hq, hd⟩ | ⟨hs, hr', hq, hd⟩ | ⟨hs, hr', hq, hd⟩ |
            ⟨hs, hr', hm', hq, hd⟩ | ⟨hs, hr', hm', hq, hd⟩ | ⟨hs, hr', hm', hq, hd⟩ |
            ⟨hs, hr', hq, hd⟩ | ⟨hs, hr', hm', hq, hd⟩ | ⟨hs, hr', hm', hq, hd⟩
          · obtain ⟨hr' | hr', _⟩ := hr' <;> · rw [hpc] at hr'; simp at hr'
          · obtain ⟨hr' | hr', _⟩ := hr' <;> · rw [hpc] at hr'; simp at hr'
          · obtain ⟨hr' | hr', _⟩ := hr' <;> · rw [hpc] at hr'; simp at hr'
          · exact hm'
          · rw [hpc] at hr'; simp at hr'
          · rw [hpc] at hr'; simp at hr'
          · exact absurd hs k2
          · exact absurd hs k2
          · rcases hr' with hr' | hr' <;> · rw [hpc] at hr'; simp at hr'
        split at h
        next hm =>
          simp only [Option.some.injEq] at h
          subst h
          refine ⟨k1, k2, k3, k4, ?_, k6, k7, ?_⟩
          · intro _; rw [← hD]; exact hm
          · intro hc
            simpa [q_sentSizes_append, sentSizes] using k8 hc
        next hm =>
          simp only [Option.some.injEq] at h
          subst h
          refine ⟨k1, k2, k3, k4, by simp, k6, k7, ?_⟩
          intro hc
          simpa [q_sentSizes_append, sentSizes] using k8 hc
      next hpc =>
        simp only [Option.some.injEq] at h
        subst h
        have hne := k5 hpc
        refine ⟨k1, k2, k3, k4, by simp, fun _ => hne, k7, ?_⟩
        intro hc
        simpa [q_sentSizes_append, sentSizes] using k8 hc
      next hpc => simp at h

theorem q_inv_terminal_phase {data : List Byte} {s : Sys} (hi : Inv data s)
    (ht : Terminal s) :
    (s.spc = SPc.rcv ∨ s.spc = SPc.done) ∧ s.rpc = RPc.done ∧ s.msgSize = 0 ∧
      s.queue = [] := by
  obtain ⟨h1, h2, hp⟩ := hi
  obtain ⟨hts, htr⟩ := ht
  rcases hp with ⟨hs, hr, hq, hd⟩ | ⟨hs, hr, hq, hd⟩ | ⟨hs, hr, hq, hd⟩ | ⟨hs, hr, hm, hq, hd⟩ |
    ⟨hs, hr, hm, hq, hd⟩ | ⟨hs, hr, hm, hq, hd⟩ | ⟨hs, hr, hq, hd⟩ | ⟨hs, hr, hm, hq, hd⟩ |
    ⟨hs, hr, hm, hq, hd⟩
  · exfalso; unfold sendFile at hts; rw [hs] at hts; simp only at hts; split at hts <;> simp at hts
  · simp [sendFile, hs] at hts
  · obtain ⟨hr | hr, hm⟩ := hr
    · simp [mainLoop, hr] at htr
    · simp [mainLoop, hr, hm, hq, msgrcvData] at htr
  · exfalso; unfold mainLoop at htr; rw [hr] at htr; simp only at htr; split at htr <;> simp at htr
  · simp [mainLoop, hr] at htr
  · simp [sendFile, hs, hq, msgrcvAck] at hts
  · obtain ⟨hr | hr, hm⟩ := hr
    · simp [mainLoop, hr] at htr
    · simp [mainLoop, hr, hm, hq, msgrcvData] at htr
  · simp [mainLoop, hr, hm] at htr
  · rcases hr with hr | hr
    · simp [mainLoop, hr, hm] at htr
    · exact ⟨hs, hr, hm, hq⟩

end Queue
namespace Notify

/-- Facts about the sender that hold in every reachable state when the length of the source
is a multiple of 1000: `sendFile` has not returned, the end-of-file indicator is clear at
the loop test, and it is set only behind a read of 0 bytes, which nobody answers. -/
theorem n_multiple_reachable {data shm0 : List Byte} {hdr0 : Nat}
    (hlen : data.length % 1000 = 0) {t : Sys} (ht : Reachable data shm0 hdr0 t) :
    Inv data t ∧ t.fp.rest.length % 1000 = 0 ∧ t.spc ≠ SPc.done ∧
      (t.spc = SPc.loop → t.fp.eof = false) ∧
      (t.fp.eof = true → t.hdr = 0) ∧
      (t.rpc = RPc.kill → t.hdr ≠ 0) ∧
      (t.sPending = true ∨ t.sFlag = true → t.hdr ≠ 0) := by
  refine n_reachable_induction
    (fun t => Inv data t ∧ t.fp.rest.length % 1000 = 0 ∧ t.spc ≠ SPc.done ∧
      (t.spc = SPc.loop → t.fp.eof = false) ∧
      (t.fp.eof = true → t.hdr = 0) ∧
      (t.rpc = RPc.kill → t.hdr ≠ 0) ∧
      (t.sPending = true ∨ t.sFlag = true → t.hdr ≠ 0))
    ?_ ?_ ht
  · exact ⟨n_inv_init data shm0 hdr0, by simpa [initial] using hlen, by simp [initial],
      by simp [initial], by simp [initial], by simp [initial], by simp [initial]⟩
  · intro s t ⟨hi, k1, k2, k3, k4, k5, k6⟩ hst
    rcases hst with h | h | h | h
    · refine ⟨n_inv_sendFile hi h, ?_⟩
      obtain ⟨h1, h2, hp⟩ := hi
      unfold sendFile at h
      split at h
      next hpc =>
        have he := k3 hpc
        simp only [feof, he] at h
        simp only [Bool.false_eq_true, if_false, Option.some.injEq] at h
        subst h
        have hA : s.rpc ≠ RPc.kill ∧ sQuiet s := by
          rcases hp with ⟨hs, hsq, hr, hd⟩ | ⟨hs, hsq, hr, hd⟩ | ⟨hw, hr, hd⟩ |
            ⟨hw, hr, hm, hrq, hd⟩ | ⟨hw, hr, hm, hrq, hd⟩ | ⟨hss, hr, hd⟩ |
            ⟨hs, hsq, hr, hh, hd⟩ | ⟨hs, hsq, hr, hm, hrq, hd⟩ | ⟨hw, hr, hm, hrq, hd⟩
          · refine ⟨?_, hsq⟩
            obtain ⟨hb | hb | hb | hb, _⟩ := hr <;> · rw [hb]; simp
          · rw [hpc] at hs; simp at hs
          · obtain ⟨hw | hw, _⟩ := hw <;> · rw [hpc] at hw; simp at hw
          · obtain ⟨hw | hw, _⟩ := hw <;> · rw [hpc] at hw; simp at hw
          · obtain ⟨hw | hw, _⟩ := hw <;> · rw [hpc] at hw; simp at hw
          · rcases hss with ⟨hw | hw, _⟩ | ⟨hw | hw, _⟩ <;> · rw [hpc] at hw; simp at hw
          · rw [hpc] at hs; simp at hs
          · rw [hpc] at hs; simp at hs
          · rcases hw with ⟨hw | hw, _⟩ | ⟨hw, _⟩ <;> · rw [hpc] at hw; simp at hw
        have hlen' : (List.take 1000 s.fp.rest).length = 1000 ∨ s.fp.rest = [] := by
          by_cases hc : 1000 ≤ s.fp.rest.length
          · left; simp; omega
          · right
            have : s.fp.rest.length = 0 := by omega
            exact List.length_eq_zero.mp this
        refine ⟨?_, by simp, by simp, ?_, ?_, ?_⟩
        · simp only [fread, SHARED_MEMORY_CHUNK_SIZE, List.length_drop]
          omega
        · simp only [fread, SHARED_MEMORY_CHUNK_SIZE, he, Bool.false_or, decide_eq_true_eq]
          intro hlt
          rcases hlen' with hl | hl
          · omega
          · simp [hl]
        · intro hc; exact absurd hc hA.1
        · intro hc
          rcases hc with hc | hc
          · rw [hA.2.2] at hc; simp at hc
          · rw [hA.2.1] at hc; simp at hc
      next hpc =>
        simp only [Option.some.injEq] at h
        subst h
        exact ⟨k1, by simp, by simp, k4, k5, k6⟩
      next hpc =>
        simp only [Option.some.injEq] at h
        subst h
        exact ⟨k1, by simp, by simp, k4, k5, k6⟩
      next hpc =>
        split at h
        next hf =>
          simp only [Option.some.injEq] at h
          subst h
          exact ⟨k1, by simp, by simp, k4, k5, k6⟩
        next hf =>
          split at h
          next hpd =>
            simp only [Option.some.injEq] at h
            subst h
            exact ⟨k1, k2, k3, k4, k5, fun _ => k6 (Or.inl hpd)⟩
          · simp at h
      next hpc =>
        simp only [Option.some.injEq] at h
        subst h
        exact ⟨k1, by simp, by simp, k4, k5, k6⟩
      next hpc =>
        simp only [Option.some.injEq] at h
        subst h
        have hfl : s.sFlag = true := by
          rcases hp with ⟨hs, hsq, hr, hd⟩ | ⟨hs, hsq, hr, hd⟩ | ⟨hw, hr, hd⟩ |
            ⟨hw, hr, hm, hrq, hd⟩ | ⟨hw, hr, hm, hrq, hd⟩ | ⟨hss, hr, hd⟩ |
            ⟨hs, hsq, hr, hh, hd⟩ | ⟨hs, hsq, hr, hm, hrq, hd⟩ | ⟨hw, hr, hm, hrq, hd⟩
          · rw [hpc] at hs; simp at hs
          · rw [hpc] at hs; simp at hs
          · obtain ⟨hw | hw, _⟩ := hw <;> · rw [hpc] at hw; simp at hw
          · obtain ⟨hw | hw, _⟩ := hw <;> · rw [hpc] at hw; simp at hw
          · obtain ⟨hw | hw, _⟩ := hw <;> · rw [hpc] at hw; simp at hw
          · rcases hss with ⟨hw | hw, _⟩ | ⟨_, _, hf⟩
            · rw [hpc] at hw; simp at hw
            · rw [hpc] at hw; simp at hw
            · exact hf
          · rw [hpc] at hs; simp at hs
          · rw [hpc] at hs; simp at hs
          · rcases hw with ⟨hw | hw, _⟩ | ⟨hw, _⟩ <;> · rw [hpc] at hw; simp at hw
        have hne := k6 (Or.inr hfl)
        refine ⟨k1, by simp, ?_, k4, k5, ?_⟩
        · intro _
          cases hev : s.fp.eof with
          | false => rfl
          | true => exact absurd (k4 hev) hne
        · intro _; exact hne
      next hpc => simp at h
    · refine ⟨n_inv_mainLoop hi h, ?_⟩
      obtain ⟨h1, h2, hp⟩ := hi
      unfold mainLoop at h
      split at h
      next hpc =>
        simp only [Option.some.injEq] at h
        subst h
        exact ⟨k1, k2, k3, k4, by simp, k6⟩
      next hpc =>
        split at h <;>
        · simp only [Option.some.injEq] at h
          subst h
          exact ⟨k1, k2, k3, k4, by simp, k6⟩
      next hpc =>
        simp only [Option.some.injEq] at h
        subst h
        exact ⟨k1, k2, k3, k4, by simp, k6⟩
      next hpc =>
        split at h
        · simp only [Option.some.injEq] at h
          subst h
          exact ⟨k1, k2, k3, k4, by simp, k6⟩
        · split at h
          · simp only [Option.some.injEq] at h
            subst h
            exact ⟨k1, k2, k3, k4, by simp [hpc], k6⟩
          · simp at h
      next hpc =>
        simp only [Option.some.injEq] at h
        subst h
        exact ⟨k1, k2, k3, k4, by simp, k6⟩
      next hpc =>
        simp only [Option.some.injEq] at h
        subst h
        exact ⟨k1, k2, k3, k4, by simp, k6⟩
      next hpc =>
        have hD : s.chunkSize = s.hdr := by
          rcases hp with ⟨hs, hsq, hr, hd⟩ | ⟨hs, hsq, hr, hd⟩ | ⟨hw, hr, hd⟩ |
            ⟨hw, hr, hm, hrq, hd⟩ | ⟨hw, hr, hm, hrq, hd⟩ | ⟨hss, hr, hd⟩ |
            ⟨hs, hsq, hr, hh, hd⟩ | ⟨hs, hsq, hr, hm, hrq, hd⟩ | ⟨hw, hr, hm, hrq, hd⟩
          · obtain ⟨hb | hb | hb | hb, _⟩ := hr <;> · rw [hpc] at hb; simp at hb
          · obtain ⟨hb | hb | hb | hb, _⟩ := hr <;> · rw [hpc] at hb; simp at hb
          · obtain ⟨_, ⟨hb | hb | hb | hb, _⟩ | ⟨hb | hb, _⟩⟩ := hr <;>
              · rw [hpc] at hb; simp at hb
          · exact hm
          · rw [hpc] at hr; simp at hr
          · obtain ⟨hb | hb | hb | hb, _⟩ := hr <;> · rw [hpc] at hb; simp at hb
          · exact absurd hs k2
          · exact absurd hs k2
          · rcases hr with hr | hr <;> · rw [hpc] at hr; simp at hr
        split at h
        next hm =>
          simp only [Option.some.injEq] at h
          subst h
          refine ⟨k1, k2, k3, k4, ?_, k6⟩
          intro _; rw [← hD]; exact hm
        next hm =>
          simp only [Option.some.injEq] at h
          subst h
          exact ⟨k1, k2, k3, k4, by simp, k6⟩
      next hpc =>
        simp only [Option.some.injEq] at h
        subst h
        have hne := k5 hpc
        exact ⟨k1, k2, k3, k4, by simp, fun _ => hne⟩
      next hpc => simp at h
    · refine ⟨n_inv_usr2Signal hi h, ?_⟩
      unfold usr2Signal at h
      split at h
      next hc =>
        simp only [Option.some.injEq] at h
        subst h
        exact ⟨k1, k2, k3, k4, k5, fun _ => k6 (Or.inl hc.1)⟩
      · simp at h
    · refine ⟨n_inv_usr1Signal hi h, ?_⟩
      unfold usr1Signal at h
      split at h
      next hc =>
        simp only [Option.some.injEq] at h
        subst h
        exact ⟨k1, k2, k3, k4, k5, k6⟩
      · simp at h

end Notify

/-! ## Theorems: byte counts -/

theorem wrapInt_add_wrapInt (a b : Int) : wrapInt (wrapInt a + b) = wrapInt (a + b) := by
  unfold wrapInt
  omega

theorem addULong_lt (a b : Nat) : addULong a b < 2 ^ 64 := by
  unfold addULong
  exact Nat.mod_lt _ (by norm_num)

namespace Queue

/-- The counters of both sides in every reachable state: `numBytesSent` is the number of
source bytes read so far modulo 2^64, `numBytesRecv` is the length of the sink as an `int`,
and the chunk in the segment has the announced size. -/
theorem q_counts_reachable {data shm0 : List Byte} {t : Sys} (ht : Reachable data shm0 t) :
    Inv data t ∧
      (t.numBytesSent + t.fp.rest.length) % 2 ^ 64 = data.length % 2 ^ 64 ∧
      t.numBytesSent < 2 ^ 64 ∧
      (t.spc = SPc.done → t.fp.rest = []) ∧
      t.numBytesRecv = wrapInt t.sink.length ∧
      (t.spc ≠ SPc.loop → ((t.shm.take (toULong t.sndSize)).length : Int) = t.sndSize) := by
  refine q_reachable_induction
    (fun t => Inv data t ∧
      (t.numBytesSent + t.fp.rest.length) % 2 ^ 64 = data.length % 2 ^ 64 ∧
      t.numBytesSent < 2 ^ 64 ∧
      (t.spc = SPc.done → t.fp.rest = []) ∧
      t.numBytesRecv = wrapInt t.sink.length ∧
      (t.spc ≠ SPc.loop → ((t.shm.take (toULong t.sndSize)).length : Int) = t.sndSize))
    ?_ ?_ ht
  · refine ⟨q_inv_init data shm0, by simp [initial], by simp [initial], by simp [initial],
      by simp [initial, wrapInt], by simp [initial]⟩
  · intro s t ⟨hi, k1, k2, k3, k4, k5⟩ hst
    rcases hst with h | h
    · refine ⟨q_inv_sendFile hi h, ?_⟩
      obtain ⟨h1, h2, hp⟩ := hi
      unfold sendFile at h
      split at h
      next hpc =>
        split at h
        next he =>
          simp only [Option.some.injEq] at h
          subst h
          simp only [feof] at he
          refine ⟨k1, k2, fun _ => h2 he, k4, fun _ => ?_⟩
          simp [toULong]
        next he =>
          simp only [Option.some.injEq] at h
          subst h
          refine ⟨?_, addULong_lt _ _, by simp, k4, fun _ => ?_⟩
          · have hsplit : (fread SHARED_MEMORY_CHUNK_SIZE s.fp).1.length +
                (fread SHARED_MEMORY_CHUNK_SIZE s.fp).2.rest.length = s.fp.rest.length := by
              rw [← List.length_append, fread_split]
            simp only [addULong]
            omega
          · show ((List.take (toULong ((fread SHARED_MEMORY_CHUNK_SIZE s.fp).1.length : Int))
                (memWrite s.shm (fread SHARED_MEMORY_CHUNK_SIZE s.fp).1)).length : Int) =
              ((fread SHARED_MEMORY_CHUNK_SIZE s.fp).1.length : Int)
            rw [q_take_fread]
      next hpc =>
        simp only [Option.some.injEq] at h
        subst h
        exact ⟨k1, k2, by simp, k4, fun _ => k5 (by rw [hpc]; simp)⟩
      next hpc =>
        split at h
        · simp at h
        · simp only [Option.some.injEq] at h
          subst h
          exact ⟨k1, k2, by simp, k4, by simp⟩
      next hpc => simp at h
    · refine ⟨q_inv_mainLoop hi h, ?_⟩
      obtain ⟨h1, h2, hp⟩ := hi
      unfold mainLoop at h
      split at h
      next hpc =>
        simp only [Option.some.injEq] at h
        subst h
        refine ⟨k1, k2, k3, ?_, k5⟩
        show s.numBytesRecv = wrapInt (([] : List Byte).length : Int)
        rw [k4, h1 hpc]
      next hpc =>
        split at h
        · split at h
          · simp at h
          · simp only [Option.some.injEq] at h
            subst h
            exact ⟨k1, k2, k3, k4, k5⟩
        · simp only [Option.some.injEq] at h
          subst h
          exact ⟨k1, k2, k3, k4, k5⟩
      next hpc =>
        split at h
        next hm =>
          simp only [Option.some.injEq] at h
          subst h
          -- the chunk handled is the one the sender announced
          have hD : s.msgSize = s.sndSize ∧ s.spc = SPc.rcv := by
            rcases hp with ⟨hs, hr', hq, hd⟩ | ⟨hs, hr', hq, hd⟩ | ⟨hs, hr', hq, hd⟩ |
              ⟨hs, hr', hm', hq, hd⟩ | ⟨hs, hr', hm', hq, hd⟩ | ⟨hs, hr', hm', hq, hd⟩ |
              ⟨hs, hr', hq, hd⟩ | ⟨hs, hr', hm', hq, hd⟩ | ⟨hs, hr', hm', hq, hd⟩
            · obtain ⟨hr' | hr', _⟩ := hr' <;> · rw [hpc] at hr'; simp at hr'
            · obtain ⟨hr' | hr', _⟩ := hr' <;> · rw [hpc] at hr'; simp at hr'
            · obtain ⟨hr' | hr', _⟩ := hr' <;> · rw [hpc] at hr'; simp at hr'
            · exact ⟨hm', hs⟩
            · rw [hpc] at hr'; simp at hr'
            · rw [hpc] at hr'; simp at hr'
            · obtain ⟨hr' | hr', _⟩ := hr' <;> · rw [hpc] at hr'; simp at hr'
            · exact absurd hm' hm
            · exact absurd hm' hm
          have hlen := k5 (by rw [hD.2]; simp)
          refine ⟨k1, k2, k3, ?_, k5⟩
          show wrapInt (s.numBytesRecv + s.msgSize) =
            wrapInt ((s.sink ++ List.take (toULong s.msgSize) s.shm).length : Int)
          rw [k4, wrapInt_add_wrapInt, List.length_append, hD.1]
          push_cast
          rw [hlen]
        next hm =>
          simp only [Option.some.injEq] at h
          subst h
          exact ⟨k1, k2, k3, k4, k5⟩
      next hpc =>
        simp only [Option.some.injEq] at h
        subst h
        exact ⟨k1, k2, k3, k4, k5⟩
      next hpc => simp at h

theorem q_counts_terminal {data shm0 : List Byte} {t : Sys} (ht : Reachable data shm0 t) :
    (Terminal t → mainLoopResult t = some (toULong (wrapInt data.length))) ∧
    (t.spc = SPc.done → sendFileResult t = some (data.length % 2 ^ 64)) := by
  obtain ⟨hi, k1, k2, k3, k4, _⟩ := q_counts_reachable ht
  constructor
  · intro hterm
    obtain ⟨hr, hs⟩ := q_inv_terminal hi hterm
    simp [mainLoopResult, hr, k4, hs]
  · intro hd
    have hrest := k3 hd
    rw [hrest] at k1
    simp only [List.length_nil, Nat.add_zero] at k1
    rw [Nat.mod_eq_of_lt k2] at k1
    simp [sendFileResult, hd, k1]

end Queue

namespace Notify

/-- The counters of both sides in every reachable state of the signal backend. -/
theorem n_counts_reachable {data shm0 : List Byte} {hdr0 : Nat} {t : Sys}
    (ht : Reachable data shm0 hdr0 t) :
    Inv data t ∧
      (t.numBytesSent + t.fp.rest.length) % 2 ^ 64 = data.length % 2 ^ 64 ∧
      t.numBytesSent < 2 ^ 64 ∧
      (t.spc = SPc.done → t.fp.rest = []) ∧
      t.numBytesRecv = wrapInt t.sink.length ∧
      (t.spc ≠ SPc.loop → (t.payload.take t.hdr).length = t.hdr) := by
  refine n_reachable_induction
    (fun t => Inv data t ∧
      (t.numBytesSent + t.fp.rest.length) % 2 ^ 64 = data.length % 2 ^ 64 ∧
      t.numBytesSent < 2 ^ 64 ∧
      (t.spc = SPc.done → t.fp.rest = []) ∧
      t.numBytesRecv = wrapInt t.sink.length ∧
      (t.spc ≠ SPc.loop → (t.payload.take t.hdr).length = t.hdr))
    ?_ ?_ ht
  · refine ⟨n_inv_init data shm0 hdr0, by simp [initial], by simp [initial],
      by simp [initial], by simp [initial, wrapInt], by simp [initial]⟩
  · intro s t ⟨hi, k1, k2, k3, k4, k5⟩ hst
    rcases hst with h | h | h | h
    · refine ⟨n_inv_sendFile hi h, ?_⟩
      obtain ⟨h1, h2, hp⟩ := hi
      unfold sendFile at h
      split at h
      next hpc =>
        split at h
        next he =>
          simp only [Option.some.injEq] at h
          subst h
          simp only [feof] at he
          exact ⟨k1, k2, fun _ => h2 he, k4, fun _ => by simp⟩
        next he =>
          simp only [Option.some.injEq] at h
          subst h
          refine ⟨?_, addULong_lt _ _, by simp, k4, fun _ => ?_⟩
          · have hsplit : (fread SHARED_MEMORY_CHUNK_SIZE s.fp).1.length +
                (fread SHARED_MEMORY_CHUNK_SIZE s.fp).2.rest.length = s.fp.rest.length := by
              rw [← List.length_append, fread_split]
            simp only [addULong]
            omega
          · show (List.take (fread SHARED_MEMORY_CHUNK_SIZE s.fp).1.length
                (memWrite s.payload (fread SHARED_MEMORY_CHUNK_SIZE s.fp).1)).length =
              (fread SHARED_MEMORY_CHUNK_SIZE s.fp).1.length
            rw [n_take_fread]
      next hpc =>
        simp only [Option.some.injEq] at h
        subst h
        exact ⟨k1, k2, by simp, k4, fun _ => k5 (by rw [hpc]; simp)⟩
      next hpc =>
        simp only [Option.some.injEq] at h
        subst h
        exact ⟨k1, k2, by simp, k4, fun _ => k5 (by rw [hpc]; simp)⟩
      next hpc =>
        split at h
        · simp only [Option.some.injEq] at h
          subst h
          exact ⟨k1, k2, by simp, k4, fun _ => k5 (by rw [hpc]; simp)⟩
        · split at h
          · simp only [Option.some.injEq] at h
            subst h
            exact ⟨k1, k2, k3, k4, k5⟩
          · simp at h
      next hpc =>
        simp only [Option.some.injEq] at h
        subst h
        exact ⟨k1, k2, by simp, k4, fun _ => k5 (by rw [hpc]; simp)⟩
      next hpc =>
        simp only [Option.some.injEq] at h
        subst h
        exact ⟨k1, k2, by simp, k4, by simp⟩
      next hpc => simp at h
    · refine ⟨n_inv_mainLoop hi h, ?_⟩
      obtain ⟨h1, h2, hp⟩ := hi
      unfold mainLoop at h
      split at h
      next hpc =>
        simp only [Option.some.injEq] at h
        subst h
        refine ⟨k1, k2, k3, ?_, k5⟩
        show s.numBytesRecv = wrapInt (([] : List Byte).length : Int)
        rw [k4, h1 hpc]
      next hpc =>
        split at h <;>
        · simp only [Option.some.injEq] at h
          subst h
          exact ⟨k1, k2, k3, k4, k5⟩
      next hpc =>
        simp only [Option.some.injEq] at h
        subst h
        exact ⟨k1, k2, k3, k4, k5⟩
      next hpc =>
        split at h
        · simp only [Option.some.injEq] at h
          subst h
          exact ⟨k1, k2, k3, k4, k5⟩
        · split at h
          · simp only [Option.some.injEq] at h
            subst h
            exact ⟨k1, k2, k3, k4, k5⟩
          · simp at h
      next hpc =>
        simp only [Option.some.injEq] at h
        subst h
        exact ⟨k1, k2, k3, k4, k5⟩
      next hpc =>
        simp only [Option.some.injEq] at h
        subst h
        exact ⟨k1, k2, k3, k4, k5⟩
      next hpc =>
        split at h
        next hm =>
          simp only [Option.some.injEq] at h
          subst h
          have hD : s.chunkSize = s.hdr ∧ s.spc ≠ SPc.loop := by
            rcases hp with ⟨hs, hsq, hr, hd⟩ | ⟨hs, hsq, hr, hd⟩ | ⟨hw, hr, hd⟩ |
              ⟨hw, hr, hm', hrq, hd⟩ | ⟨hw, hr, hm', hrq, hd⟩ | ⟨hss, hr, hd⟩ |
              ⟨hs, hsq, hr, hh, hd⟩ | ⟨hs, hsq, hr, hm', hrq, hd⟩ | ⟨hw, hr, hm', hrq, hd⟩
            · obtain ⟨hb | hb | hb | hb, _⟩ := hr <;> · rw [hpc] at hb; simp at hb
            · obtain ⟨hb | hb | hb | hb, _⟩ := hr <;> · rw [hpc] at hb; simp at hb
            · obtain ⟨_, ⟨hb | hb | hb | hb, _⟩ | ⟨hb | hb, _⟩⟩ := hr <;>
                · rw [hpc] at hb; simp at hb
            · refine ⟨hm', ?_⟩
              obtain ⟨hw | hw, _⟩ := hw <;> · rw [hw]; simp
            · rw [hpc] at hr; simp at hr
            · obtain ⟨hb | hb | hb | hb, _⟩ := hr <;> · rw [hpc] at hb; simp at hb
            · obtain ⟨_, ⟨hb | hb | hb | hb, _⟩ | ⟨hb | hb, _⟩⟩ := hr <;>
                · rw [hpc] at hb; simp at hb
            · exact absurd hm' hm
            · exact absurd hm' hm
          have hlen := k5 hD.2
          refine ⟨k1, k2, k3, ?_, k5⟩
          show wrapInt (s.numBytesRecv + (s.chunkSize : Int)) =
            wrapInt ((s.sink ++ List.take s.chunkSize s.payload).length : Int)
          rw [k4, wrapInt_add_wrapInt, List.length_append, hD.1, hlen]
          push_cast
          rfl
        next hm =>
          simp only [Option.some.injEq] at h
          subst h
          exact ⟨k1, k2, k3, k4, k5⟩
      next hpc =>
        simp only [Option.some.injEq] at h
        subst h
        exact ⟨k1, k2, k3, k4, k5⟩
      next hpc => simp at h
    · refine ⟨n_inv_usr2Signal hi h, ?_⟩
      unfold usr2Signal at h
      split at h
      · simp only [Option.some.injEq] at h
        subst h
        exact ⟨k1, k2, k3, k4, k5⟩
      · simp at h
    · refine ⟨n_inv_usr1Signal hi h, ?_⟩
      unfold usr1Signal at h
      split at h
      · simp only [Option.some.injEq] at h
        subst h
        exact ⟨k1, k2, k3, k4, k5⟩
      · simp at h

theorem n_counts_terminal {data shm0 : List Byte} {hdr0 : Nat} {t : Sys}
    (ht : Reachable data shm0 hdr0 t) :
    (Terminal t → mainLoopResult t = some (toULong (wrapInt data.length))) ∧
    (t.spc = SPc.done → sendFileResult t = some (data.length % 2 ^ 64)) := by
  obtain ⟨hi, k1, k2, k3, k4, _⟩ := n_counts_reachable ht
  constructor
  · intro hterm
    obtain ⟨hr, hs⟩ := n_inv_terminal hi hterm
    simp [mainLoopResult, hr, k4, hs]
  · intro hd
    have hrest := k3 hd
    rw [hrest] at k1
    simp only [List.length_nil, Nat.add_zero] at k1
    rw [Nat.mod_eq_of_lt k2] at k1
    simp [sendFileResult, hd, k1]

end Notify

theorem toULong_wrapInt_small (n : Nat) (h : n < 2 ^ 31) : toULong (wrapInt n) = n := by
  unfold toULong wrapInt
  omega

theorem toULong_wrapInt_two_pow_31 :
    toULong (wrapInt ((2 ^ 31 : Nat) : Int)) = 2 ^ 64 - 2 ^ 31 := by
  unfold toULong wrapInt
  push_cast

/-! ## Theorems: the signal mask across `wait` -/

namespace Signal

theorem maskInv_exec {m0 mk : Finset Nat} {p : Proc} (e : Ev) (h : MaskInv m0 mk p)
    (hne : p.pc ≠ WPc.returned) : MaskInv m0 mk (exec e p) := by
  obtain ⟨hm, hp⟩ := h
  cases e with
  | signal =>
    unfold exec onSignal
    simp only
    split
    · exact ⟨hm, hp⟩
    · split
      next hs =>
        rw [hs] at hp
        simp only at hp
        exact ⟨hm, hp.2.2, hp.2.1⟩
      next hs =>
        refine ⟨hm, ?_⟩
        cases hpc : p.pc <;> rw [hpc] at hp <;> simp only at hp ⊢
        · exact hp
        · exact hp
        · exact absurd hpc hs
        · exact hp
        · exact hp
        · exact absurd hpc hne
  | tick =>
    unfold exec tick
    simp only
    cases hpc : p.pc <;> rw [hpc] at hp <;> simp only at hp ⊢
    · exact ⟨hm, by rw [hp, hm], hp⟩
    · split
      · exact ⟨hm, hp.1⟩
      · split
        · exact ⟨hm, hp⟩
        · exact ⟨hm, hp.2, hp.2, hp.1⟩
    · refine ⟨hm, ?_⟩
      rw [hpc]
      exact hp
    · split
      · refine ⟨hm, ?_⟩
        show p.sigmask \ p.mask = m0 \ mk
        rw [hp, hm, Finset.union_sdiff_right]
      · refine ⟨hm, ?_⟩
        show p.sigmask \ p.mask = m0 \ mk
        rw [hp, hm, Finset.union_sdiff_right]
    · exact ⟨hm, hp, rfl⟩
    · exact absurd hpc hne

theorem wait_maskInv {m0 mk : Finset Nat} (evs : List Ev) (p q : Proc)
    (h : MaskInv m0 mk p) (hq : wait evs p = some q) :
    q.flag = false ∧ q.sigmask = m0 \ mk := by
  induction evs generalizing p with
  | nil =>
    unfold wait at hq
    split at hq
    next hr =>
      simp only [Option.some.injEq] at hq
      subst hq
      have hp := h.2
      rw [hr] at hp
      exact ⟨hp.2, hp.1⟩
    · simp at hq
  | cons e es ih =>
    unfold wait at hq
    split at hq
    next hr =>
      simp only [Option.some.injEq] at hq
      subst hq
      have hp := h.2
      rw [hr] at hp
      exact ⟨hp.2, hp.1⟩
    next hr => exact ih (exec e p) (maskInv_exec e h hr) hq

end Signal

/-! ## Theorems: exchange of the process ids -/

namespace Handshake

theorem h_sender_mu {s t : Sys} (h : sender s = some t) : mu t < mu s := by
  unfold sender at h
  split at h
  next hpc =>
    simp only [Option.some.injEq] at h
    subst h
    simp only [mu, hpc, sRank]
    omega
  next hpc =>
    simp only [Option.some.injEq] at h
    subst h
    simp only [mu, hpc, sRank]
    omega
  next hpc =>
    split at h
    · simp only [Option.some.injEq] at h
      subst h
      simp only [mu, hpc, sRank]
      split <;> simp <;> omega
    · simp only [Option.some.injEq] at h
      subst h
      simp only [mu, hpc, sRank]
      omega
  next hpc => simp at h
  next hpc => simp at h

theorem h_receiver_mu {s t : Sys} (h : receiver s = some t) : mu t < mu s := by
  unfold receiver at h
  split at h
  next hpc =>
    simp only [Option.some.injEq] at h
    subst h
    simp only [mu, hpc, rRank, rFlagCounts]
    omega
  next hpc =>
    simp only [Option.some.injEq] at h
    subst h
    simp only [mu, hpc, rRank, rFlagCounts]
    omega
  next hpc =>
    split at h
    next hf =>
      simp only [Option.some.injEq] at h
      subst h
      simp only [mu, hpc, rRank, rFlagCounts, hf]
      simp
    next hf =>
      split at h
      next hp =>
        simp only [Option.some.injEq] at h
        subst h
        simp only [mu, hpc, rRank, rFlagCounts, hp]
        simp
        split <;> omega
      · simp at h
  next hpc =>
    simp only [Option.some.injEq] at h
    subst h
    simp only [mu, hpc, rRank, rFlagCounts]
    simp
  next hpc =>
    simp only [Option.some.injEq] at h
    subst h
    simp only [mu, hpc, rRank, rFlagCounts]
    simp
  next hpc =>
    simp only [Option.some.injEq] at h
    subst h
    simp only [mu, hpc, rRank, rFlagCounts]
    omega
  next hpc => simp at h

theorem h_usr1Signal_mu {s t : Sys} (h : usr1Signal s = some t) : mu t < mu s := by
  unfold usr1Signal at h
  split at h
  next hc =>
    simp only [Option.some.injEq] at h
    subst h
    simp only [mu, hc.1]
    simp
    split <;> split <;> omega
  · simp at h

theorem h_step_mu {s t : Sys} (h : Step s t) : mu t < mu s := by
  rcases h with h | h | h
  · exact h_sender_mu h
  · exact h_receiver_mu h
  · exact h_usr1Signal_mu h

theorem h_sched_step {s t : Sys} (h : sched s = some t) : Step s t := by
  unfold sched at h
  split at h
  next u hu =>
    simp only [Option.some.injEq] at h
    subst h
    exact Or.inr (Or.inl hu)
  next hr =>
    split at h
    next u hu =>
      simp only [Option.some.injEq] at h
      subst h
      exact Or.inl hu
    next hs => exact Or.inr (Or.inr h)

theorem h_sched_none {s : Sys} (h : sched s = none) : Terminal s := by
  unfold sched at h
  split at h
  · simp at h
  next hr =>
    split at h
    · simp at h
    next hs => exact ⟨hs, hr, h⟩

theorem h_run_terminal (n : Nat) (s : Sys) (h : mu s ≤ n) : Terminal (run n s) := by
  induction n generalizing s with
  | zero =>
    have hs : sched s = none := by
      cases hc : sched s with
      | none => rfl
      | some t => have := h_step_mu (h_sched_step hc); omega
    simpa [run] using h_sched_none hs
  | succ n ih =>
    cases hc : sched s with
    | none => simpa [run, hc] using h_sched_none hc
    | some t =>
      have := h_step_mu (h_sched_step hc)
      simpa [run, hc] using ih t (by omega)

theorem h_run_reaches (n : Nat) (s : Sys) : Relation.ReflTransGen Step s (run n s) := by
  induction n generalizing s with
  | zero => exact Relation.ReflTransGen.refl
  | succ n ih =>
    cases hc : sched s with
    | none => simpa [run, hc] using Relation.ReflTransGen.refl
    | some t =>
      simpa [run, hc] using Relation.ReflTransGen.head (h_sched_step hc) (ih t)

theorem h_inv_init (sp rp cell0 : Int) : Inv sp rp (initial sp rp cell0) := by
  simp [Inv, initial, rQuiet]

theorem h_inv_sender {sp rp : Int} {s t : Sys} (hi : Inv sp rp s) (h : sender s = some t) :
    Inv sp rp t := by
  obtain ⟨hS, hR, ha, hb⟩ := hi
  unfold sender at h
  split at h
  next hpc =>
    simp only [Option.some.injEq] at h
    subst h
    obtain ⟨_, hq, hr, hc⟩ := ha hpc
    refine ⟨hS, hR, by simp, ?_⟩
    intro ho
    have hne : s.rpc ≠ RPc.sendpid := by simpa using ho
    have hbef : rBefore s := by
      rcases hr with hr | hr
      · exact absurd hr hne
      · exact hr
    exact ⟨hc hne, by simp, fun _ => ⟨hq, hbef⟩, by simp, by simp⟩
  next hpc =>
    simp only [Option.some.injEq] at h
    subst h
    refine ⟨hS, hR, by simp, ?_⟩
    intro ho
    obtain ⟨b1, b2, b3, b4, b5⟩ := hb ho
    obtain ⟨hq, hbef⟩ := b3 hpc
    exact ⟨b1, by simp, by simp, fun _ => ⟨hS, hq, hbef⟩, by simp⟩
  next hpc =>
    split at h
    next he =>
      simp only [Option.some.injEq] at h
      subst h
      refine ⟨hS, hR, by simp, ?_⟩
      intro ho
      obtain ⟨b1, b2, b3, b4, b5⟩ := hb ho
      obtain ⟨hcell, hq, hbef⟩ := b4 hpc
      refine ⟨b1, by simp, by simp, by simp, fun _ => ⟨hcell, Or.inl ⟨hbef, Or.inl ⟨rfl, hq.1⟩⟩⟩⟩
    next he =>
      simp only [Option.some.injEq] at h
      subst h
      refine ⟨hS, hR, by simp, ?_⟩
      intro ho
      obtain ⟨b1, b2, b3, b4, b5⟩ := hb ho
      exact absurd (b1.trans hR.symm) he
  next hpc => simp at h
  next hpc => simp at h

theorem h_inv_receiver {sp rp : Int} {s t : Sys} (hi : Inv sp rp s)
    (h : receiver s = some t) : Inv sp rp t := by
  obtain ⟨hS, hR, ha, hb⟩ := hi
  unfold receiver at h
  split at h
  next hpc =>
    simp only [Option.some.injEq] at h
    subst h
    refine ⟨hS, hR, ?_, ?_⟩
    · intro hs
      obtain ⟨a1, a2, a3, a4⟩ := ha hs
      exact ⟨a1, a2, Or.inr (Or.inl rfl), fun _ => hR⟩
    · intro ho
      obtain ⟨b1, b2, b3, b4, b5⟩ := hb ho
      exfalso
      cases hsp : s.spc with
      | recvpid =>
        have := (ha hsp).1
        rw [this] at ho
        simp at ho
      | store =>
        rcases (b3 hsp).2 with hr | hr <;> · rw [hpc] at hr; simp at hr
      | kill =>
        rcases (b4 hsp).2.2 with hr | hr <;> · rw [hpc] at hr; simp at hr
      | done =>
        rcases (b5 hsp).2 with ⟨hr | hr, _⟩ | ⟨hr | hr, _⟩ | ⟨hr, _⟩ | ⟨hr, _⟩ <;>
          · rw [hpc] at hr; simp at hr
      | astray => exact b2 hsp
  next hpc =>
    simp only [Option.some.injEq] at h
    subst h
    refine ⟨hS, hR, ?_, ?_⟩
    · intro hs
      obtain ⟨a1, a2, a3, a4⟩ := ha hs
      exact ⟨a1, a2, Or.inr (Or.inr rfl), fun _ => a4 (by rw [hpc]; simp)⟩
    · intro ho
      obtain ⟨b1, b2, b3, b4, b5⟩ := hb ho
      refine ⟨b1, b2, fun hs => ⟨(b3 hs).1, Or.inr rfl⟩,
        fun hs => ⟨(b4 hs).1, (b4 hs).2.1, Or.inr rfl⟩, fun hs => ⟨(b5 hs).1, ?_⟩⟩
      rcases (b5 hs).2 with ⟨_, hx⟩ | ⟨hr | hr, _⟩ | ⟨hr, _⟩ | ⟨hr, _⟩
      · exact Or.inl ⟨Or.inr rfl, hx⟩
      all_goals (rw [hpc] at hr; simp at hr)
  next hpc =>
    split at h
    next hf =>
      simp only [Option.some.injEq] at h
      subst h
      refine ⟨hS, hR, ?_, ?_⟩
      · intro hs
        have := (ha hs).2.1.1
        rw [this] at hf
        simp at hf
      · intro ho
        obtain ⟨b1, b2, b3, b4, b5⟩ := hb ho
        refine ⟨b1, b2, ?_, ?_, fun hs => ⟨(b5 hs).1, ?_⟩⟩
        · intro hs
          have := (b3 hs).1.1
          rw [this] at hf
          simp at hf
        · intro hs
          have := (b4 hs).2.1.1
          rw [this] at hf
          simp at hf
        · rcases (b5 hs).2 with ⟨_, hx⟩ | ⟨hr | hr, _⟩ | ⟨hr, _⟩ | ⟨hr, _⟩
          · rcases hx with ⟨_, hx⟩ | ⟨hp, _⟩
            · rw [hx] at hf; simp at hf
            · exact Or.inr (Or.inl ⟨Or.inl rfl, hp, hf⟩)
          all_goals (rw [hpc] at hr; simp at hr)
    next hf =>
      split at h
      next hp =>
        simp only [Option.some.injEq] at h
        subst h
        refine ⟨hS, hR, ?_, ?_⟩
        · intro hs
          have := (ha hs).2.1.2
          rw [this] at hp
          simp at hp
        · intro ho
          obtain ⟨b1, b2, b3, b4, b5⟩ := hb ho
          refine ⟨b1, b2, ?_, ?_, fun hs => ⟨(b5 hs).1, ?_⟩⟩
          · intro hs
            have := (b3 hs).1.2
            rw [this] at hp
            simp at hp
          · intro hs
            have := (b4 hs).2.1.2
            rw [this] at hp
            simp at hp
          · exact Or.inl ⟨Or.inr hpc, Or.inr ⟨rfl, rfl⟩⟩
      · simp at h
  next hpc =>
    simp only [Option.some.injEq] at h
    subst h
    refine ⟨hS, hR, ?_, ?_⟩
    · intro hs
      rcases (ha hs).2.2.1 with hr | hr | hr <;> · rw [hpc] at hr; simp at hr
    · intro ho
      obtain ⟨b1, b2, b3, b4, b5⟩ := hb ho
      refine ⟨b1, b2, ?_, ?_, fun hs => ⟨(b5 hs).1, ?_⟩⟩
      · intro hs
        rcases (b3 hs).2 with hr | hr <;> · rw [hpc] at hr; simp at hr
      · intro hs
        rcases (b4 hs).2.2 with hr | hr <;> · rw [hpc] at hr; simp at hr
      · rcases (b5 hs).2 with ⟨hr | hr, _⟩ | ⟨_, hx⟩ | ⟨hr, _⟩ | ⟨hr, _⟩
        · rw [hpc] at hr; simp at hr
        · rw [hpc] at hr; simp at hr
        · exact Or.inr (Or.inl ⟨Or.inr rfl, hx⟩)
        all_goals (rw [hpc] at hr; simp at hr)
  next hpc =>
    simp only [Option.some.injEq] at h
    subst h
    refine ⟨hS, hR, ?_, ?_⟩
    · intro hs
      rcases (ha hs).2.2.1 with hr | hr | hr <;> · rw [hpc] at hr; simp at hr
    · intro ho
      obtain ⟨b1, b2, b3, b4, b5⟩ := hb ho
      refine ⟨b1, b2, ?_, ?_, fun hs => ⟨(b5 hs).1, ?_⟩⟩
      · intro hs
        rcases (b3 hs).2 with hr | hr <;> · rw [hpc] at hr; simp at hr
      · intro hs
        rcases (b4 hs).2.2 with hr | hr <;> · rw [hpc] at hr; simp at hr
      · rcases (b5 hs).2 with ⟨hr | hr, _⟩ | ⟨_, hx⟩ | ⟨hr, _⟩ | ⟨hr, _⟩
        · rw [hpc] at hr; simp at hr
        · rw [hpc] at hr; simp at hr
        · exact Or.inr (Or.inr (Or.inl ⟨rfl, rfl, hx.1⟩))
        all_goals (rw [hpc] at hr; simp at hr)
  next hpc =>
    simp only [Option.some.injEq] at h
    subst h
    refine ⟨hS, hR, ?_, ?_⟩
    · intro hs
      rcases (ha hs).2.2.1 with hr | hr | hr <;> · rw [hpc] at hr; simp at hr
    · intro ho
      obtain ⟨b1, b2, b3, b4, b5⟩ := hb ho
      refine ⟨b1, b2, ?_, ?_, fun hs => ⟨(b5 hs).1, ?_⟩⟩
      · intro hs
        rcases (b3 hs).2 with hr | hr <;> · rw [hpc] at hr; simp at hr
      · intro hs
        rcases (b4 hs).2.2 with hr | hr <;> · rw [hpc] at hr; simp at hr
      · rcases (b5 hs).2 with ⟨hr | hr, _⟩ | ⟨hr | hr, _⟩ | ⟨_, hx⟩ | ⟨hr, _⟩
        · rw [hpc] at hr; simp at hr
        · rw [hpc] at hr; simp at hr
        · rw [hpc] at hr; simp at hr
        · rw [hpc] at hr; simp at hr
        · exact Or.inr (Or.inr (Or.inr ⟨rfl, hx, (b5 hs).1⟩))
        · rw [hpc] at hr; simp at hr
  next hpc => simp at h

theorem h_inv_usr1Signal {sp rp : Int} {s t : Sys} (hi : Inv sp rp s)
    (h : usr1Signal s = some t) : Inv sp rp t := by
  obtain ⟨hS, hR, ha, hb⟩ := hi
  unfold usr1Signal at h
  split at h
  next hc =>
    simp only [Option.some.injEq] at h
    subst h
    obtain ⟨hp, hbl⟩ := hc
    refine ⟨hS, hR, ?_, ?_⟩
    · intro hs
      have := (ha hs).2.1.2
      rw [this] at hp
      simp at hp
    · intro ho
      obtain ⟨b1, b2, b3, b4, b5⟩ := hb ho
      refine ⟨b1, b2, ?_, ?_, fun hs => ⟨(b5 hs).1, ?_⟩⟩
      · intro hs
        have := (b3 hs).1.2
        rw [this] at hp
        simp at hp
      · intro hs
        have := (b4 hs).2.1.2
        rw [this] at hp
        simp at hp
      · rcases (b5 hs).2 with ⟨hbef, hx⟩ | ⟨_, hx, _⟩ | ⟨_, hx⟩ | ⟨_, hx, _⟩
        · exact Or.inl ⟨hbef, Or.inr ⟨rfl, rfl⟩⟩
        · rw [hx] at hp; simp at hp
        · rw [hx.2] at hp; simp at hp
        · rw [hx.2] at hp; simp at hp
  · simp at h

theorem h_reachable_induction {sp rp cell0 : Int} (P : Sys → Prop)
    (h0 : P (initial sp rp cell0)) (hstep : ∀ s t, P s → Step s t → P t) {t : Sys}
    (ht : Reachable sp rp cell0 t) : P t := by
  induction ht with
  | refl => exact h0
  | tail _ hst ih => exact hstep _ _ ih hst

theorem h_inv_reachable {sp rp cell0 : Int} {t : Sys} (ht : Reachable sp rp cell0 t) :
    Inv sp rp t := by
  refine h_reachable_induction (Inv sp rp) (h_inv_init sp rp cell0) ?_ ht
  intro s t hi hst
  rcases hst with h | h | h
  · exact h_inv_sender hi h
  · exact h_inv_receiver hi h
  · exact h_inv_usr1Signal hi h

/-- In an ordered exchange the sender is past `recvpid` and holds the receiver's id; the
receiver holds the sender's id once `recvpid` has returned; and nothing stops before that. -/
theorem h_ordered {sp rp : Int} {t : Sys} (hi : Inv sp rp t) (ho : t.ordered = true) :
    t.rpid = rp ∧ (t.rpc = RPc.done → t.spid = sp) ∧
      (Terminal t → t.spc = SPc.done ∧ t.rpc = RPc.done) := by
  obtain ⟨hS, hR, ha, hb⟩ := hi
  obtain ⟨b1, b2, b3, b4, b5⟩ := hb ho
  refine ⟨b1, ?_, ?_⟩
  · intro hd
    cases hsp : t.spc with
    | recvpid =>
      have := (ha hsp).1
      rw [this] at ho
      simp at ho
    | store =>
      rcases (b3 hsp).2 with hr | hr <;> · rw [hd] at hr; simp at hr
    | kill =>
      rcases (b4 hsp).2.2 with hr | hr <;> · rw [hd] at hr; simp at hr
    | done =>
      rcases (b5 hsp).2 with ⟨hr | hr, _⟩ | ⟨hr | hr, _⟩ | ⟨hr, _⟩ | ⟨_, _, hx⟩
      · rw [hd] at hr; simp at hr
      · rw [hd] at hr; simp at hr
      · rw [hd] at hr; simp at hr
      · rw [hd] at hr; simp at hr
      · rw [hd] at hr; simp at hr
      · exact hx
    | astray => exact absurd hsp b2
  · intro ⟨hts, htr, htu⟩
    cases hsp : t.spc with
    | recvpid =>
      have := (ha hsp).1
      rw [this] at ho
      simp at ho
    | store => simp [sender, hsp] at hts
    | kill =>
      exfalso
      unfold sender at hts
      rw [hsp] at hts
      simp only at hts
      split at hts <;> simp at hts
    | done =>
      refine ⟨rfl, ?_⟩
      rcases (b5 hsp).2 with ⟨hr | hr, hx⟩ | ⟨hr | hr, _⟩ | ⟨hr, _⟩ | ⟨hr, _⟩
      · simp [receiver, hr] at htr
      · exfalso
        rcases hx with ⟨hp, hf⟩ | ⟨hp, hf⟩
        · simp [receiver, hr, hp, hf] at htr
        · simp [receiver, hr, hf] at htr
      · simp [receiver, hr] at htr
      · simp [receiver, hr] at htr
      · simp [receiver, hr] at htr
      · exact hr
    | astray => exact absurd hsp b2

/-- The receiver-first run: the receiver stores its id and sleeps in `wait`, the sender
reads the id, stores its own and signals, the receiver wakes up and reads it. -/
theorem h_run_ordered (sp rp cell0 : Int) :
    run 10 (initial sp rp cell0) =
      { senderPid := sp, receiverPid := rp, cell := sp, spc := SPc.done, rpid := rp,
        rpc := RPc.done, spid := sp, rFlag := false, rPending := false, ordered := true } := by
  simp [run, sched, receiver, sender, usr1Signal, initial]

end Handshake

theorem handshake_no_infinite_run (f : Nat → Handshake.Sys)
    (h : ∀ n, Handshake.Step (f n) (f (n + 1))) : False := by
  have key : ∀ n, Handshake.mu (f n) + n ≤ Handshake.mu (f 0) := by
    intro n
    induction n with
    | zero => simp
    | succ n ih => have := Handshake.h_step_mu (h n); omega
  have h1 := key (Handshake.mu (f 0) + 1)
  omega

/-! ## Theorems: the chunk sequence -/

theorem chunkSeqAux_fuel (n m : Nat) (rest : List Byte) (hn : rest.length ≤ n)
    (hm : rest.length ≤ m) : chunkSeqAux n rest = chunkSeqAux m rest := by
  induction n generalizing m rest with
  | zero =>
    have : rest = [] := List.length_eq_zero.mp (by omega)
    subst this
    cases m <;> simp [chunkSeqAux]
  | succ n ih =>
    cases m with
    | zero =>
      have : rest = [] := List.length_eq_zero.mp (by omega)
      subst this
      simp [chunkSeqAux]
    | succ m =>
      by_cases hr : rest = []
      · simp [chunkSeqAux, hr]
      · have hpos : 0 < rest.length := List.length_pos.mpr hr
        have hd : (rest.drop SHARED_MEMORY_CHUNK_SIZE).length < rest.length := by
          simp only [List.length_drop, SHARED_MEMORY_CHUNK_SIZE]
          omega
        simp only [chunkSeqAux, hr, if_false]
        rw [ih m _ (by omega) (by omega)]

theorem chunkSeq_nil : chunkSeq [] = [(0, [])] := by
  simp [chunkSeq, chunkSeqAux]

theorem chunkSeq_cons (rest : List Byte) (hr : rest ≠ []) :
    chunkSeq rest =
      ((rest.take SHARED_MEMORY_CHUNK_SIZE).length, rest.take SHARED_MEMORY_CHUNK_SIZE) ::
        chunkSeq (rest.drop SHARED_MEMORY_CHUNK_SIZE) := by
  have hpos : 0 < rest.length := List.length_pos.mpr hr
  have hd : (rest.drop SHARED_MEMORY_CHUNK_SIZE).length < rest.length := by
    simp only [List.length_drop, SHARED_MEMORY_CHUNK_SIZE]
    omega
  obtain ⟨n, hn⟩ : ∃ n, rest.length = n + 1 := ⟨rest.length - 1, by omega⟩
  unfold chunkSeq
  rw [hn]
  simp only [chunkSeqAux, hr, if_false, List.cons_append]
  rw [chunkSeqAux_fuel n _ _ (by omega) (le_refl _)]

theorem sizesToInt_cons (a : Nat × List Byte) (l : List (Nat × List Byte)) :
    sizesToInt (a :: l) = ((a.1 : Int), a.2) :: sizesToInt l := by
  simp [sizesToInt]

theorem take_chunk_length_ne_zero (rest : List Byte) (hr : rest ≠ []) :
    (rest.take SHARED_MEMORY_CHUNK_SIZE).length ≠ 0 := by
  have hpos : 0 < rest.length := List.length_pos.mpr hr
  simp only [List.length_take, SHARED_MEMORY_CHUNK_SIZE]
  omega

namespace Queue

theorem q_sentChunks_append (a b : List Ev) :
    sentChunks (a ++ b) = sentChunks a ++ sentChunks b := by
  induction a with
  | nil => simp [sentChunks]
  | cons e a ih => cases e <;> simp [sentChunks, ih]

/-- The chunks announced so far and the ones still to come make up the chunk sequence of
the source, at every program point of the sender; a chunk of size 0 is never acknowledged;
and when the length of the source is not a multiple of 1000 no chunk read in the loop is
empty. -/
theorem q_chunks_reachable {data shm0 : List Byte} {t : Sys} (ht : Reachable data shm0 t) :
    Inv data t ∧
      (t.rpc = RPc.ack → t.sndSize ≠ 0) ∧
      (Msg.ack ∈ t.queue → t.sndSize ≠ 0) ∧
      (t.msgSize = 0 → t.sndSize = 0) ∧
      (t.spc = SPc.loop →
        sentChunks t.trace ++ sizesToInt (chunkSeq t.fp.rest) = sizesToInt (chunkSeq data)) ∧
      (t.spc = SPc.snd →
        (t.sndSize = 0 → sentChunks t.trace ++ [(0, [])] = sizesToInt (chunkSeq data)) ∧
        (t.sndSize ≠ 0 →
          sentChunks t.trace ++
            (t.sndSize, t.shm.take (toULong t.sndSize)) :: sizesToInt (chunkSeq t.fp.rest) =
            sizesToInt (chunkSeq data))) ∧
      (t.spc = SPc.rcv →
        (t.sndSize = 0 → sentChunks t.trace = sizesToInt (chunkSeq data)) ∧
        (t.sndSize ≠ 0 →
          sentChunks t.trace ++ sizesToInt (chunkSeq t.fp.rest) =
            sizesToInt (chunkSeq data))) ∧
      (t.spc = SPc.done →
        t.sndSize = 0 ∧ sentChunks t.trace = sizesToInt (chunkSeq data)) ∧
      (t.fp.eof = false → t.fp.rest.length % 1000 = data.length % 1000) ∧
      (data.length % 1000 ≠ 0 → t.spc = SPc.snd ∨ t.spc = SPc.rcv → t.sndSize ≠ 0) := by
  refine q_reachable_induction
    (fun t => Inv data t ∧
      (t.rpc = RPc.ack → t.sndSize ≠ 0) ∧
      (Msg.ack ∈ t.queue → t.sndSize ≠ 0) ∧
      (t.msgSize = 0 → t.sndSize = 0) ∧
      (t.spc = SPc.loop →
        sentChunks t.trace ++ sizesToInt (chunkSeq t.fp.rest) = sizesToInt (chunkSeq data)) ∧
      (t.spc = SPc.snd →
        (t.sndSize = 0 → sentChunks t.trace ++ [(0, [])] = sizesToInt (chunkSeq data)) ∧
        (t.sndSize ≠ 0 →
          sentChunks t.trace ++
            (t.sndSize, t.shm.take (toULong t.sndSize)) :: sizesToInt (chunkSeq t.fp.rest) =
            sizesToInt (chunkSeq data))) ∧
      (t.spc = SPc.rcv →
        (t.sndSize = 0 → sentChunks t.trace = sizesToInt (chunkSeq data)) ∧
        (t.sndSize ≠ 0 →
          sentChunks t.trace ++ sizesToInt (chunkSeq t.fp.rest) =
            sizesToInt (chunkSeq data))) ∧
      (t.spc = SPc.done →
        t.sndSize = 0 ∧ sentChunks t.trace = sizesToInt (chunkSeq data)) ∧
      (t.fp.eof = false → t.fp.rest.length % 1000 = data.length % 1000) ∧
      (data.length % 1000 ≠ 0 → t.spc = SPc.snd ∨ t.spc = SPc.rcv → t.sndSize ≠ 0))
    ?_ ?_ ht
  · exact ⟨q_inv_init data shm0, by simp [initial], by simp [initial], by simp [initial],
      by simp [initial, sentChunks], by simp [initial], by simp [initial], by simp [initial],
      by simp [initial], by simp [initial]⟩
  · intro s t ⟨hi, g1, g2, g3, cl, cs, cr, cd, m1, m2⟩ hst
    rcases hst with h | h
    · refine ⟨q_inv_sendFile hi h, ?_⟩
      obtain ⟨h1, h2, hp⟩ := hi
      unfold sendFile at h
      split at h
      next hpc =>
        -- the receiver is idle and the queue is empty at the loop test
        have hA : s.rpc ≠ RPc.ack ∧ s.queue = [] ∧ s.msgSize ≠ 0 := by
          rcases hp with ⟨hs, hr, hq, hd⟩ | ⟨hs, hr, hq, hd⟩ | ⟨hs, hr, hq, hd⟩ |
            ⟨hs, hr, hm, hq, hd⟩ | ⟨hs, hr, hm, hq, hd⟩ | ⟨hs, hr, hm, hq, hd⟩ |
            ⟨hs, hr, hq, hd⟩ | ⟨hs, hr, hm, hq, hd⟩ | ⟨hs, hr, hm, hq, hd⟩
          · obtain ⟨hr | hr, hm⟩ := hr
            · exact ⟨by rw [hr]; simp, hq, hm⟩
            · exact ⟨by rw [hr]; simp, hq, hm⟩
          all_goals (rw [hpc] at hs; simp at hs)
        have hcl := cl hpc
        split at h
        next he =>
          simp only [Option.some.injEq] at h
          subst h
          simp only [feof] at he
          have hrest := h2 he
          rw [hrest, chunkSeq_nil] at hcl
          refine ⟨fun hc => absurd hc hA.1, ?_, fun _ => rfl, by simp, by simp, by simp,
            fun _ => ⟨rfl, ?_⟩, m1, by simp⟩
          · intro hc
            rw [hA.2.1] at hc
            simp [msgsnd] at hc
          · rw [← hcl]
            simp [q_sentChunks_append, sentChunks, sizesToInt]
        next he =>
          simp only [Option.some.injEq] at h
          subst h
          simp only [feof, Bool.not_eq_true] at he
          refine ⟨fun hc => absurd hc hA.1, ?_, fun hc => absurd hc hA.2.2, by simp,
            fun _ => ⟨?_, ?_⟩, by simp, by simp, ?_, fun hne _ => ?_⟩
          · intro hc
            rw [hA.2.1] at hc
            simp at hc
          · intro hz
            have hz' : (List.take SHARED_MEMORY_CHUNK_SIZE s.fp.rest).length = 0 := by
              have : ((List.take SHARED_MEMORY_CHUNK_SIZE s.fp.rest).length : Int) = 0 := hz
              exact_mod_cast this
            have hnil : s.fp.rest = [] := by
              by_contra hne
              exact take_chunk_length_ne_zero _ hne hz'
            rw [hnil, chunkSeq_nil] at hcl
            rw [← hcl]
            simp [sizesToInt]
          · intro hnz
            have hne : s.fp.rest ≠ [] := by
              intro hnil
              apply hnz
              show ((List.take SHARED_MEMORY_CHUNK_SIZE s.fp.rest).length : Int) = 0
              rw [hnil]
              simp
            rw [chunkSeq_cons _ hne, sizesToInt_cons] at hcl
            rw [← hcl]
            show sentChunks s.trace ++
              (((fread SHARED_MEMORY_CHUNK_SIZE s.fp).1.length : Int),
                List.take (toULong ((fread SHARED_MEMORY_CHUNK_SIZE s.fp).1.length : Int))
                  (memWrite s.shm (fread SHARED_MEMORY_CHUNK_SIZE s.fp).1)) ::
                sizesToInt (chunkSeq (List.drop SHARED_MEMORY_CHUNK_SIZE s.fp.rest)) = _
            rw [q_take_fread]
            rfl
          · have hm := m1 he
            simp only [fread, SHARED_MEMORY_CHUNK_SIZE, he, Bool.false_or, decide_eq_false_iff_not,
              List.length_take, List.length_drop]
            intro hlt
            omega
          · have hm := m1 he
            show ((List.take SHARED_MEMORY_CHUNK_SIZE s.fp.rest).length : Int) ≠ 0
            simp only [List.length_take, SHARED_MEMORY_CHUNK_SIZE]
            omega
      next hpc =>
        simp only [Option.some.injEq] at h
        subst h
        obtain ⟨cs0, cs1⟩ := cs hpc
        refine ⟨g1, ?_, g3, by simp, by simp, fun _ => ⟨?_, ?_⟩, by simp, m1,
          fun hne _ => m2 hne (Or.inl hpc)⟩
        · intro hc
          simp only [msgsnd, List.mem_append, List.mem_singleton] at hc
          rcases hc with hc | hc
          · exact g2 hc
          · simp at hc
        · intro hz
          have hz' : s.sndSize = 0 := hz
          rw [← cs0 hz', hz']
          simp [q_sentChunks_append, sentChunks, toULong]
        · intro hnz
          rw [← cs1 hnz]
          simp [q_sentChunks_append, sentChunks]
      next hpc =>
        split at h
        · simp at h
        next q hq =>
          simp only [Option.some.injEq] at h
          subst h
          -- an acknowledgment was in the queue, and it was the only message
          have hack : Msg.ack ∈ s.queue ∧ q = [] := by
            rcases hp with ⟨hs, hr, hq', hd⟩ | ⟨hs, hr, hq', hd⟩ | ⟨hs, hr, hq', hd⟩ |
              ⟨hs, hr, hm, hq', hd⟩ | ⟨hs, hr, hm, hq', hd⟩ | ⟨hs, hr, hm, hq', hd⟩ |
              ⟨hs, hr, hq', hd⟩ | ⟨hs, hr, hm, hq', hd⟩ | ⟨hs, hr, hm, hq', hd⟩
            all_goals (rw [hq'] at hq ⊢; simp [msgrcvAck] at hq ⊢)
            all_goals exact hq
          have hne := g2 hack.1
          refine ⟨g1, ?_, g3, fun _ => ?_, by simp, by simp, by simp, m1, by simp⟩
          · intro hc
            rw [hack.2] at hc
            simp at hc
          · rw [← (cr hpc).2 hne]
            simp [q_sentChunks_append, sentChunks]
      next hpc => simp at h
    · refine ⟨q_inv_mainLoop hi h, ?_⟩
      obtain ⟨h1, h2, hp⟩ := hi
      have hfr := q_mainLoop_frame h
      unfold mainLoop at h
      split at h
      next hpc =>
        simp only [Option.some.injEq] at h
        subst h
        refine ⟨by simp, g2, g3, ?_, ?_, ?_, ?_, m1, m2⟩
        · intro hc
          simpa [q_sentChunks_append, sentChunks] using cl hc
        · intro hc
          simpa [q_sentChunks_append, sentChunks] using cs hc
        · intro hc
          simpa [q_sentChunks_append, sentChunks] using cr hc
        · intro hc
          simpa [q_sentChunks_append, sentChunks] using cd hc
      next hpc =>
        split at h
        next hm =>
          split at h
          · simp at h
          next r hr =>
            simp only [Option.some.injEq] at h
            subst h
            -- the message taken is the one announcing `sndSize`
            have hsz : r.1 = s.sndSize ∧ r.2 = [] := by
              rcases hp with ⟨hs, hr', hq, hd⟩ | ⟨hs, hr', hq, hd⟩ | ⟨hs, hr', hq, hd⟩ |
                ⟨hs, hr', hm', hq, hd⟩ | ⟨hs, hr', hm', hq, hd⟩ | ⟨hs, hr', hm', hq, hd⟩ |
                ⟨hs, hr', hq, hd⟩ | ⟨hs, hr', hm', hq, hd⟩ | ⟨hs, hr', hm', hq, hd⟩
              · rw [hq] at hr; simp [msgrcvData] at hr
              · rw [hq] at hr; simp [msgrcvData] at hr
              · rw [hq] at hr; simp [msgrcvData] at hr; subst hr; exact ⟨rfl, rfl⟩
              · rw [hq] at hr; simp [msgrcvData] at hr
              · rw [hq] at hr; simp [msgrcvData] at hr
              · rw [hq] at hr; simp [msgrcvData] at hr
              · rw [hq] at hr; simp [msgrcvData] at hr; subst hr
                exact ⟨((cd hs).1).symm, rfl⟩
              · rw [hq] at hr; simp [msgrcvData] at hr
              · rw [hq] at hr; simp [msgrcvData] at hr
            refine ⟨by simp, ?_, ?_, ?_, ?_, ?_, ?_, m1, m2⟩
            · intro hc; rw [hsz.2] at hc; simp at hc
            · intro hc; rw [← hsz.1]; exact hc
            · intro hc
              simpa [q_sentChunks_append, sentChunks] using cl hc
            · intro hc
              simpa [q_sentChunks_append, sentChunks] using cs hc
            · intro hc
              simpa [q_sentChunks_append, sentChunks] using cr hc
            · intro hc
              simpa [q_sentChunks_append, sentChunks] using cd hc
        next hm =>
          simp only [Option.some.injEq] at h
          subst h
          exact ⟨by simp, g2, g3, cl, cs, cr, cd, m1, m2⟩
      next hpc =>
        have hD : s.msgSize = s.sndSize := by
          rcases hp with ⟨hs, hr', hq, hd⟩ | ⟨hs, hr', hq, hd⟩ | ⟨hs, hr', hq, hd⟩ |
            ⟨hs, hr', hm', hq, hd⟩ | ⟨hs, hr', hm', hq, hd⟩ | ⟨hs, hr', hm', hq, hd⟩ |
            ⟨hs, hr', hq, hd⟩ | ⟨hs, hr', hm', hq, hd⟩ | ⟨hs, hr', hm', hq, hd⟩
          · obtain ⟨hr' | hr', _⟩ := hr' <;> · rw [hpc] at hr'; simp at hr'
          · obtain ⟨hr' | hr', _⟩ := hr' <;> · rw [hpc] at hr'; simp at hr'
          · obtain ⟨hr' | hr', _⟩ := hr' <;> · rw [hpc] at hr'; simp at hr'
          · exact hm'
          · rw [hpc] at hr'; simp at hr'
          · rw [hpc] at hr'; simp at hr'
          · obtain ⟨hr' | hr', _⟩ := hr' <;> · rw [hpc] at hr'; simp at hr'
          · rw [hm', (cd hs).1]
          · rcases hr' with hr' | hr' <;> · rw [hpc] at hr'; simp at hr'
        split at h
        next hm =>
          simp only [Option.some.injEq] at h
          subst h
          refine ⟨?_, g2, g3, ?_, ?_, ?_, ?_, m1, m2⟩
          · intro _; rw [← hD]; exact hm
          · intro hc
            simpa [q_sentChunks_append, sentChunks] using cl hc
          · intro hc
            simpa [q_sentChunks_append, sentChunks] using cs hc
          · intro hc
            simpa [q_sentChunks_append, sentChunks] using cr hc
          · intro hc
            simpa [q_sentChunks_append, sentChunks] using cd hc
        next hm =>
          simp only [Option.some.injEq] at h
          subst h
          refine ⟨by simp, g2, g3, ?_, ?_, ?_, ?_, m1, m2⟩
          · intro hc
            simpa [q_sentChunks_append, sentChunks] using cl hc
          · intro hc
            simpa [q_sentChunks_append, sentChunks] using cs hc
          · intro hc
            simpa [q_sentChunks_append, sentChunks] using cr hc
          · intro hc
            simpa [q_sentChunks_append, sentChunks] using cd hc
      next hpc =>
        simp only [Option.some.injEq] at h
        subst h
        have hne := g1 hpc
        refine ⟨by simp, fun _ => hne, g3, ?_, ?_, ?_, ?_, m1, m2⟩
        · intro hc
          simpa [q_sentChunks_append, sentChunks] using cl hc
        · intro hc
          simpa [q_sentChunks_append, sentChunks] using cs hc
        · intro hc
          simpa [q_sentChunks_append, sentChunks] using cr hc
        · intro hc
          simpa [q_sentChunks_append, sentChunks] using cd hc
      next hpc => simp at h

/-- Where nothing can move any more the sender has announced exactly the chunk sequence of
the source; it has returned from `sendFile` when the length is not a multiple of 1000. -/
theorem q_chunks_terminal {data shm0 : List Byte} {t : Sys} (ht : Reachable data shm0 t)
    (hterm : Terminal t) :
    sentChunks t.trace = sizesToInt (chunkSeq data) ∧
      (data.length % 1000 ≠ 0 → t.spc = SPc.done) := by
  obtain ⟨hi, g1, g2, g3, cl, cs, cr, cd, m1, m2⟩ := q_chunks_reachable ht
  obtain ⟨hs, hr, hm, hq⟩ := q_inv_terminal_phase hi hterm
  rcases hs with hs | hs
  · exact ⟨(cr hs).1 (g3 hm), fun hne => absurd (g3 hm) (m2 hne (Or.inr hs))⟩
  · exact ⟨(cd hs).2, fun _ => hs⟩

end Queue

namespace Notify

theorem n_sentChunks_append (a b : List Ev) :
    sentChunks (a ++ b) = sentChunks a ++ sentChunks b := by
  induction a with
  | nil => simp [sentChunks]
  | cons e a ih => cases e <;> simp [sentChunks, ih]

theorem n_inv_terminal_phase {data : List Byte} {s : Sys} (hi : Inv data s)
    (ht : Terminal s) :
    (s.spc = SPc.wBlock ∨ s.spc = SPc.wTest ∨ s.spc = SPc.done) ∧ s.rpc = RPc.done ∧
      s.chunkSize = 0 := by
  obtain ⟨h1, h2, hp⟩ := hi
  obtain ⟨hts, htr, ht2, ht1⟩ := ht
  rcases hp with ⟨hs, hsq, hr, hd⟩ | ⟨hs, hsq, hr, hd⟩ | ⟨hw, hr, hd⟩ |
    ⟨hw, hr, hm, hrq, hd⟩ | ⟨hw, hr, hm, hrq, hd⟩ | ⟨hss, hr, hd⟩ |
    ⟨hs, hsq, hr, hh, hd⟩ | ⟨hs, hsq, hr, hm, hrq, hd⟩ | ⟨hw, hr, hm, hrq, hd⟩
  · exfalso; unfold sendFile at hts; rw [hs] at hts; simp only at hts; split at hts <;> simp at hts
  · simp [sendFile, hs] at hts
  · exact absurd htr (n_rSignalled_enabled hr)
  · exfalso; unfold mainLoop at htr; rw [hr] at htr; simp only at htr; split at htr <;> simp at htr
  · simp [mainLoop, hr] at htr
  · exact absurd hts (n_sSignalled_enabled hss)
  · exact absurd htr (n_rSignalled_enabled hr)
  · simp [mainLoop, hr, hm] at htr
  · rcases hr with hr | hr
    · simp [mainLoop, hr, hm] at htr
    · refine ⟨?_, hr, hm⟩
      rcases hw with ⟨hw | hw, _⟩ | ⟨hw, _⟩
      · exact Or.inl hw
      · exact Or.inr (Or.inl hw)
      · exact Or.inr (Or.inr hw)

/-- The chunks announced so far and the ones still to come make up the chunk sequence of
the source, at every program point of the sender; a chunk of size 0 is never acknowledged;
and when the length of the source is not a multiple of 1000 no chunk read in the loop is
empty. -/
theorem n_chunks_reachable {data shm0 : List Byte} {hdr0 : Nat} {t : Sys}
    (ht : Reachable data shm0 hdr0 t) :
    Inv data t ∧
      (t.rpc = RPc.kill → t.hdr ≠ 0) ∧
      (t.sPending = true ∨ t.sFlag = true → t.hdr ≠ 0) ∧
      (t.chunkSize = 0 → t.hdr = 0) ∧
      (t.spc = SPc.loop → sentChunks t.trace ++ chunkSeq t.fp.rest = chunkSeq data) ∧
      (t.spc = SPc.kill →
        (t.hdr = 0 → sentChunks t.trace ++ [(0, [])] = chunkSeq data) ∧
        (t.hdr ≠ 0 →
          sentChunks t.trace ++ (t.hdr, t.payload.take t.hdr) :: chunkSeq t.fp.rest =
            chunkSeq data)) ∧
      (t.spc ≠ SPc.loop → t.spc ≠ SPc.kill → t.spc ≠ SPc.done →
        (t.hdr = 0 → sentChunks t.trace = chunkSeq data) ∧
        (t.hdr ≠ 0 → sentChunks t.trace ++ chunkSeq t.fp.rest = chunkSeq data)) ∧
      (t.spc = SPc.done → t.hdr = 0 ∧ sentChunks t.trace = chunkSeq data) ∧
      (t.fp.eof = false → t.fp.rest.length % 1000 = data.length % 1000) ∧
      (data.length % 1000 ≠ 0 → t.spc ≠ SPc.loop → t.spc ≠ SPc.done → t.hdr ≠ 0) := by
  refine n_reachable_induction
    (fun t => Inv data t ∧
      (t.rpc = RPc.kill → t.hdr ≠ 0) ∧
      (t.sPending = true ∨ t.sFlag = true → t.hdr ≠ 0) ∧
      (t.chunkSize = 0 → t.hdr = 0) ∧
      (t.spc = SPc.loop → sentChunks t.trace ++ chunkSeq t.fp.rest = chunkSeq data) ∧
      (t.spc = SPc.kill →
        (t.hdr = 0 → sentChunks t.trace ++ [(0, [])] = chunkSeq data) ∧
        (t.hdr ≠ 0 →
          sentChunks t.trace ++ (t.hdr, t.payload.take t.hdr) :: chunkSeq t.fp.rest =
            chunkSeq data)) ∧
      (t.spc ≠ SPc.loop → t.spc ≠ SPc.kill → t.spc ≠ SPc.done →
        (t.hdr = 0 → sentChunks t.trace = chunkSeq data) ∧
        (t.hdr ≠ 0 → sentChunks t.trace ++ chunkSeq t.fp.rest = chunkSeq data)) ∧
      (t.spc = SPc.done → t.hdr = 0 ∧ sentChunks t.trace = chunkSeq data) ∧
      (t.fp.eof = false → t.fp.rest.length % 1000 = data.length % 1000) ∧
      (data.length % 1000 ≠ 0 → t.spc ≠ SPc.loop → t.spc ≠ SPc.done → t.hdr ≠ 0))
    ?_ ?_ ht
  · exact ⟨n_inv_init data shm0 hdr0, by simp [initial], by simp [initial],
      by simp [initial], by simp [initial, sentChunks], by simp [initial], by simp [initial],
      by simp [initial], by simp [initial], by simp [initial]⟩
  · intro s t ⟨hi, g1, g2, g3, cl, ck, cw, cd, m1, m2⟩ hst
    rcases hst with h | h | h | h
    · refine ⟨n_inv_sendFile hi h, ?_⟩
      obtain ⟨h1, h2, hp⟩ := hi
      unfold sendFile at h
      split at h
      next hpc =>
        have hA : s.rpc ≠ RPc.kill ∧ sQuiet s ∧ s.chunkSize ≠ 0 := by
          rcases hp with ⟨hs, hsq, hr, hd⟩ | ⟨hs, hsq, hr, hd⟩ | ⟨hw, hr, hd⟩ |
            ⟨hw, hr, hm, hrq, hd⟩ | ⟨hw, hr, hm, hrq, hd⟩ | ⟨hss, hr, hd⟩ |
            ⟨hs, hsq, hr, hh, hd⟩ | ⟨hs, hsq, hr, hm, hrq, hd⟩ | ⟨hw, hr, hm, hrq, hd⟩
          · refine ⟨?_, hsq, hr.2.1⟩
            obtain ⟨hb | hb | hb | hb, _⟩ := hr <;> · rw [hb]; simp
          · rw [hpc] at hs; simp at hs
          · obtain ⟨hw | hw, _⟩ := hw <;> · rw [hpc] at hw; simp at hw
          · obtain ⟨hw | hw, _⟩ := hw <;> · rw [hpc] at hw; simp at hw
          · obtain ⟨hw | hw, _⟩ := hw <;> · rw [hpc] at hw; simp at hw
          · rcases hss with ⟨hw | hw, _⟩ | ⟨hw | hw, _⟩ <;> · rw [hpc] at hw; simp at hw
          · rw [hpc] at hs; simp at hs
          · rw [hpc] at hs; simp at hs
          · rcases hw with ⟨hw | hw, _⟩ | ⟨hw, _⟩ <;> · rw [hpc] at hw; simp at hw
        have hq2 : ¬ (s.sPending = true ∨ s.sFlag = true) := by
          intro hc
          rcases hc with hc | hc
          · rw [hA.2.1.2] at hc; simp at hc
          · rw [hA.2.1.1] at hc; simp at hc
        have hcl := cl hpc
        split at h
        next he =>
          simp only [Option.some.injEq] at h
          subst h
          simp only [feof] at he
          have hrest := h2 he
          rw [hrest, chunkSeq_nil] at hcl
          refine ⟨fun hc => absurd hc hA.1, fun hc => absurd hc hq2, fun _ => rfl, by simp,
            by simp, by simp, fun _ => ⟨rfl, ?_⟩, m1, by simp⟩
          rw [← hcl]
          simp [n_sentChunks_append, sentChunks]
        next he =>
          simp only [Option.some.injEq] at h
          subst h
          simp only [feof, Bool.not_eq_true] at he
          refine ⟨fun hc => absurd hc hA.1, fun hc => absurd hc hq2,
            fun hc => absurd hc hA.2.2, by simp, fun _ => ⟨?_, ?_⟩, by simp, by simp, ?_,
            fun hne _ _ => ?_⟩
          · intro hz
            have hz' : (List.take SHARED_MEMORY_CHUNK_SIZE s.fp.rest).length = 0 := hz
            have hnil : s.fp.rest = [] := by
              by_contra hne
              exact take_chunk_length_ne_zero _ hne hz'
            rw [hnil, chunkSeq_nil] at hcl
            rw [← hcl]
            simp [n_sentChunks_append, sentChunks]
          · intro hnz
            have hne : s.fp.rest ≠ [] := by
              intro hnil
              apply hnz
              show (List.take SHARED_MEMORY_CHUNK_SIZE s.fp.rest).length = 0
              rw [hnil]
              simp
            rw [chunkSeq_cons _ hne] at hcl
            rw [← hcl]
            show sentChunks (s.trace ++
                [Ev.setChunkSize (fread SHARED_MEMORY_CHUNK_SIZE s.fp).1.length]) ++
              ((fread SHARED_MEMORY_CHUNK_SIZE s.fp).1.length,
                List.take (fread SHARED_MEMORY_CHUNK_SIZE s.fp).1.length
                  (memWrite s.payload (fread SHARED_MEMORY_CHUNK_SIZE s.fp).1)) ::
                chunkSeq (List.drop SHARED_MEMORY_CHUNK_SIZE s.fp.rest) = _
            rw [n_take_fread]
            simp [n_sentChunks_append, sentChunks, fread]
          · have hm := m1 he
            simp only [fread, SHARED_MEMORY_CHUNK_SIZE, he, Bool.false_or, decide_eq_false_iff_not,
              List.length_take, List.length_drop]
            intro hlt
            omega
          · have hm := m1 he
            show (List.take SHARED_MEMORY_CHUNK_SIZE s.fp.rest).length ≠ 0
            simp only [List.length_take, SHARED_MEMORY_CHUNK_SIZE]
            omega
      next hpc =>
        simp only [Option.some.injEq] at h
        subst h
        obtain ⟨ck0, ck1⟩ := ck hpc
        refine ⟨g1, g2, g3, by simp, by simp, fun _ _ _ => ⟨?_, ?_⟩, by simp, m1,
          fun hne _ _ => m2 hne (by rw [hpc]; simp) (by rw [hpc]; simp)⟩
        · intro hz
          have hz' : s.hdr = 0 := hz
          rw [← ck0 hz', hz']
          simp [n_sentChunks_append, sentChunks]
        · intro hnz
          rw [← ck1 hnz]
          simp [n_sentChunks_append, sentChunks]
      next hpc =>
        simp only [Option.some.injEq] at h
        subst h
        have hw := cw (by rw [hpc]; simp) (by rw [hpc]; simp) (by rw [hpc]; simp)
        exact ⟨g1, g2, g3, by simp, by simp, fun _ _ _ => hw, by simp, m1,
          fun hne _ _ => m2 hne (by rw [hpc]; simp) (by rw [hpc]; simp)⟩
      next hpc =>
        have hw := cw (by rw [hpc]; simp) (by rw [hpc]; simp) (by rw [hpc]; simp)
        split at h
        next hf =>
          simp only [Option.some.injEq] at h
          subst h
          exact ⟨g1, g2, g3, by simp, by simp, fun _ _ _ => hw, by simp, m1,
            fun hne _ _ => m2 hne (by rw [hpc]; simp) (by rw [hpc]; simp)⟩
        next hf =>
          split at h
          next hpd =>
            simp only [Option.some.injEq] at h
            subst h
            exact ⟨g1, fun _ => g2 (Or.inl hpd), g3, cl, ck, cw, cd, m1, m2⟩
          · simp at h
      next hpc =>
        simp only [Option.some.injEq] at h
        subst h
        have hw := cw (by rw [hpc]; simp) (by rw [hpc]; simp) (by rw [hpc]; simp)
        exact ⟨g1, g2, g3, by simp, by simp, fun _ _ _ => hw, by simp, m1,
          fun hne _ _ => m2 hne (by rw [hpc]; simp) (by rw [hpc]; simp)⟩
      next hpc =>
        simp only [Option.some.injEq] at h
        subst h
        have hw := cw (by rw [hpc]; simp) (by rw [hpc]; simp) (by rw [hpc]; simp)
        have hfl : s.sFlag = true ∧ s.sPending = false := by
          rcases hp with ⟨hs, hsq, hr, hd⟩ | ⟨hs, hsq, hr, hd⟩ | ⟨hw, hr, hd⟩ |
            ⟨hw, hr, hm, hrq, hd⟩ | ⟨hw, hr, hm, hrq, hd⟩ | ⟨hss, hr, hd⟩ |
            ⟨hs, hsq, hr, hh, hd⟩ | ⟨hs, hsq, hr, hm, hrq, hd⟩ | ⟨hw, hr, hm, hrq, hd⟩
          · rw [hpc] at hs; simp at hs
          · rw [hpc] at hs; simp at hs
          · obtain ⟨hw | hw, _⟩ := hw <;> · rw [hpc] at hw; simp at hw
          · obtain ⟨hw | hw, _⟩ := hw <;> · rw [hpc] at hw; simp at hw
          · obtain ⟨hw | hw, _⟩ := hw <;> · rw [hpc] at hw; simp at hw
          · rcases hss with ⟨hw | hw, _⟩ | ⟨_, hp', hf⟩
            · rw [hpc] at hw; simp at hw
            · rw [hpc] at hw; simp at hw
            · exact ⟨hf, hp'⟩
          · rw [hpc] at hs; simp at hs
          · rw [hpc] at hs; simp at hs
          · rcases hw with ⟨hw | hw, _⟩ | ⟨hw, _⟩ <;> · rw [hpc] at hw; simp at hw
        have hne := g2 (Or.inr hfl.1)
        refine ⟨g1, fun _ => hne, g3, fun _ => ?_, by simp, by simp, by simp, m1, by simp⟩
        rw [← hw.2 hne]
        simp [n_sentChunks_append, sentChunks]
      next hpc => simp at h
    · refine ⟨n_inv_mainLoop hi h, ?_⟩
      obtain ⟨h1, h2, hp⟩ := hi
      unfold mainLoop at h
      split at h
      next hpc =>
        simp only [Option.some.injEq] at h
        subst h
        refine ⟨by simp, g2, g3, ?_, ?_, ?_, ?_, m1, m2⟩
        · intro hc
          simpa [n_sentChunks_append, sentChunks] using cl hc
        · intro hc
          simpa [n_sentChunks_append, sentChunks] using ck hc
        · intro a b c
          simpa [n_sentChunks_append, sentChunks] using cw a b c
        · intro hc
          simpa [n_sentChunks_append, sentChunks] using cd hc
      next hpc =>
        split at h <;>
        · simp only [Option.some.injEq] at h
          subst h
          exact ⟨by simp, g2, g3, cl, ck, cw, cd, m1, m2⟩
      next hpc =>
        simp only [Option.some.injEq] at h
        subst h
        exact ⟨by simp, g2, g3, cl, ck, cw, cd, m1, m2⟩
      next hpc =>
        split at h
        · simp only [Option.some.injEq] at h
          subst h
          exact ⟨by simp, g2, g3, cl, ck, cw, cd, m1, m2⟩
        · split at h
          · simp only [Option.some.injEq] at h
            subst h
            exact ⟨by simp [hpc], g2, g3, cl, ck, cw, cd, m1, m2⟩
          · simp at h
      next hpc =>
        simp only [Option.some.injEq] at h
        subst h
        exact ⟨by simp, g2, g3, cl, ck, cw, cd, m1, m2⟩
      next hpc =>
        simp only [Option.some.injEq] at h
        subst h
        refine ⟨by simp, g2, fun hc => hc, ?_, ?_, ?_, ?_, m1, m2⟩
        · intro hc
          simpa [n_sentChunks_append, sentChunks] using cl hc
        · intro hc
          simpa [n_sentChunks_append, sentChunks] using ck hc
        · intro a b c
          simpa [n_sentChunks_append, sentChunks] using cw a b c
        · intro hc
          simpa [n_sentChunks_append, sentChunks] using cd hc
      next hpc =>
        have hD : s.chunkSize = s.hdr := by
          rcases hp with ⟨hs, hsq, hr, hd⟩ | ⟨hs, hsq, hr, hd⟩ | ⟨hw, hr, hd⟩ |
            ⟨hw, hr, hm, hrq, hd⟩ | ⟨hw, hr, hm, hrq, hd⟩ | ⟨hss, hr, hd⟩ |
            ⟨hs, hsq, hr, hh, hd⟩ | ⟨hs, hsq, hr, hm, hrq, hd⟩ | ⟨hw, hr, hm, hrq, hd⟩
          · obtain ⟨hb | hb | hb | hb, _⟩ := hr <;> · rw [hpc] at hb; simp at hb
          · obtain ⟨hb | hb | hb | hb, _⟩ := hr <;> · rw [hpc] at hb; simp at hb
          · obtain ⟨_, ⟨hb | hb | hb | hb, _⟩ | ⟨hb | hb, _⟩⟩ := hr <;>
              · rw [hpc] at hb; simp at hb
          · exact hm
          · rw [hpc] at hr; simp at hr
          · obtain ⟨hb | hb | hb | hb, _⟩ := hr <;> · rw [hpc] at hb; simp at hb
          · obtain ⟨_, ⟨hb | hb | hb | hb, _⟩ | ⟨hb | hb, _⟩⟩ := hr <;>
              · rw [hpc] at hb; simp at hb
          · rw [hm, (cd hs).1]
          · rcases hr with hr | hr <;> · rw [hpc] at hr; simp at hr
        split at h
        next hm =>
          simp only [Option.some.injEq] at h
          subst h
          refine ⟨?_, g2, g3, ?_, ?_, ?_, ?_, m1, m2⟩
          · intro _; rw [← hD]; exact hm
          · intro hc
            simpa [n_sentChunks_append, sentChunks] using cl hc
          · intro hc
            simpa [n_sentChunks_append, sentChunks] using ck hc
          · intro a b c
            simpa [n_sentChunks_append, sentChunks] using cw a b c
          · intro hc
            simpa [n_sentChunks_append, sentChunks] using cd hc
        next hm =>
          simp only [Option.some.injEq] at h
          subst h
          refine ⟨by simp, g2, g3, ?_, ?_, ?_, ?_, m1, m2⟩
          · intro hc
            simpa [n_sentChunks_append, sentChunks] using cl hc
          · intro hc
            simpa [n_sentChunks_append, sentChunks] using ck hc
          · intro a b c
            simpa [n_sentChunks_append, sentChunks] using cw a b c
          · intro hc
            simpa [n_sentChunks_append, sentChunks] using cd hc
      next hpc =>
        simp only [Option.some.injEq] at h
        subst h
        have hne := g1 hpc
        refine ⟨by simp, fun _ => hne, g3, ?_, ?_, ?_, ?_, m1, m2⟩
        · intro hc
          simpa [n_sentChunks_append, sentChunks] using cl hc
        · intro hc
          simpa [n_sentChunks_append, sentChunks] using ck hc
        · intro a b c
          simpa [n_sentChunks_append, sentChunks] using cw a b c
        · intro hc
          simpa [n_sentChunks_append, sentChunks] using cd hc
      next hpc => simp at h
    · refine ⟨n_inv_usr2Signal hi h, ?_⟩
      unfold usr2Signal at h
      split at h
      next hc =>
        simp only [Option.some.injEq] at h
        subst h
        exact ⟨g1, fun _ => g2 (Or.inl hc.1), g3, cl, ck, cw, cd, m1, m2⟩
      · simp at h
    · refine ⟨n_inv_usr1Signal hi h, ?_⟩
      unfold usr1Signal at h
      split at h
      next hc =>
        simp only [Option.some.injEq] at h
        subst h
        exact ⟨g1, g2, g3, cl, ck, cw, cd, m1, m2⟩
      · simp at h

/-- Where nothing can move any more the sender has announced exactly the chunk sequence of
the source; it has returned from `sendFile` when the length is not a multiple of 1000. -/
theorem n_chunks_terminal {data shm0 : List Byte} {hdr0 : Nat} {t : Sys}
    (ht : Reachable data shm0 hdr0 t) (hterm : Terminal t) :
    sentChunks t.trace = chunkSeq data ∧ (data.length % 1000 ≠ 0 → t.spc = SPc.done) := by
  obtain ⟨hi, g1, g2, g3, cl, ck, cw, cd, m1, m2⟩ := n_chunks_reachable ht
  obtain ⟨hs, hr, hm⟩ := n_inv_terminal_phase hi hterm
  rcases hs with hs | hs | hs
  · exact ⟨(cw (by rw [hs]; simp) (by rw [hs]; simp) (by rw [hs]; simp)).1 (g3 hm),
      fun hne => absurd (g3 hm) (m2 hne (by rw [hs]; simp) (by rw [hs]; simp))⟩
  · exact ⟨(cw (by rw [hs]; simp) (by rw [hs]; simp) (by rw [hs]; simp)).1 (g3 hm),
      fun hne => absurd (g3 hm) (m2 hne (by rw [hs]; simp) (by rw [hs]; simp))⟩
  · exact ⟨(cd hs).2, fun _ => hs⟩

end Notify

/-! ## Theorems: the chunks of a 2500-byte source -/

theorem chunkSeq_sizes_2500 (data : List Byte) (h : data.length = 2500) :
    (chunkSeq data).map Prod.fst = [1000, 1000, 500, 0] := by
  have l1 : (data.drop SHARED_MEMORY_CHUNK_SIZE).length = 1500 := by
    simp only [List.length_drop, SHARED_MEMORY_CHUNK_SIZE, h]
  have l2 : ((data.drop SHARED_MEMORY_CHUNK_SIZE).drop SHARED_MEMORY_CHUNK_SIZE).length =
      500 := by
    simp only [List.length_drop, SHARED_MEMORY_CHUNK_SIZE, h]
  have l3 : ((data.drop SHARED_MEMORY_CHUNK_SIZE).drop SHARED_MEMORY_CHUNK_SIZE).drop
      SHARED_MEMORY_CHUNK_SIZE = [] := by
    apply List.length_eq_zero.mp
    simp only [List.length_drop, SHARED_MEMORY_CHUNK_SIZE, h]
  have h1 : data ≠ [] := by
    intro e
    rw [e] at h
    simp at h
  have h2 : data.drop SHARED_MEMORY_CHUNK_SIZE ≠ [] := by
    intro e
    rw [e] at l1
    simp at l1
  have h3 : (data.drop SHARED_MEMORY_CHUNK_SIZE).drop SHARED_MEMORY_CHUNK_SIZE ≠ [] := by
    intro e
    rw [e] at l2
    simp at l2
  rw [chunkSeq_cons _ h1, chunkSeq_cons _ h2, chunkSeq_cons _ h3, l3, chunkSeq_nil]
  have l1' : (List.drop 1000 data).length = 1500 := l1
  have l2' : (List.drop 1000 (List.drop 1000 data)).length = 500 := l2
  simp only [List.map_cons, List.map_nil, List.length_take, h, SHARED_MEMORY_CHUNK_SIZE,
    l1', l2']
  rfl

theorem sizesToInt_fst (l : List (Nat × List Byte)) :
    (sizesToInt l).map Prod.fst = (l.map Prod.fst).map (fun n : Nat => (n : Int)) := by
  simp [sizesToInt, List.map_map, Function.comp_def]

namespace Queue

theorem q_sentSizes_sentChunks (tr : List Ev) :
    sentSizes tr = (sentChunks tr).map Prod.fst := by
  induction tr with
  | nil => simp [sentSizes, sentChunks]
  | cons e tr ih => cases e <;> simp [sentSizes, sentChunks, ih]

/-- The sizes announced so far are an initial part of the sizes of the chunk sequence. -/
theorem q_sentSizes_initial {data shm0 : List Byte} {t : Sys} (ht : Reachable data shm0 t) :
    ∃ r, sentSizes t.trace ++ r =
      ((chunkSeq data).map Prod.fst).map (fun n : Nat => (n : Int)) := by
  obtain ⟨hi, g1, g2, g3, cl, cs, cr, cd, m1, m2⟩ := q_chunks_reachable ht
  have key : ∃ r, sentChunks t.trace ++ r = sizesToInt (chunkSeq data) := by
    cases hpc : t.spc with
    | loop => exact ⟨_, cl hpc⟩
    | snd =>
      by_cases hz : t.sndSize = 0
      · exact ⟨_, (cs hpc).1 hz⟩
      · exact ⟨_, (cs hpc).2 hz⟩
    | rcv =>
      by_cases hz : t.sndSize = 0
      · exact ⟨[], by rw [List.append_nil]; exact (cr hpc).1 hz⟩
      · exact ⟨_, (cr hpc).2 hz⟩
    | done => exact ⟨[], by rw [List.append_nil]; exact (cd hpc).2⟩
  obtain ⟨r, hr⟩ := key
  refine ⟨r.map Prod.fst, ?_⟩
  rw [q_sentSizes_sentChunks, ← List.map_append, hr, sizesToInt_fst]

end Queue

/-! ## The claims -/

theorem queue_no_infinite_run (f : Nat → Queue.Sys) (h : ∀ n, Queue.Step (f n) (f (n + 1))) :
    False := by
  have key : ∀ n, Queue.mu (f n) + n ≤ Queue.mu (f 0) := by
    intro n
    induction n with
    | zero => simp
    | succ n ih => have := Queue.q_step_mu (h n); omega
  have h1 := key (Queue.mu (f 0) + 1)
  omega

theorem notify_no_infinite_run (f : Nat → Notify.Sys)
    (h : ∀ n, Notify.Step (f n) (f (n + 1))) : False := by
  have key : ∀ n, Notify.mu (f n) + n ≤ Notify.mu (f 0) := by
    intro n
    induction n with
    | zero => simp
    | succ n ih => have := Notify.n_step_mu (h n); omega
  have h1 := key (Notify.mu (f 0) + 1)
  omega

theorem queue_run_result (data shm0 : List Byte) (n : Nat)
    (h : Queue.mu (Queue.initial data shm0) ≤ n) :
    (Queue.run n (Queue.initial data shm0)).rpc = Queue.RPc.done ∧
    (Queue.written (Queue.run n (Queue.initial data shm0)).trace).flatten = data ∧
    (Queue.run n (Queue.initial data shm0)).sink = data := by
  have hr : Queue.Reachable data shm0 (Queue.run n (Queue.initial data shm0)) :=
    Queue.q_run_reaches n _
  have ht := Queue.q_run_terminal n _ h
  obtain ⟨h1, h2⟩ := Queue.q_inv_terminal (Queue.q_inv_reachable hr) ht
  exact ⟨h1, by rw [(Queue.q_written_reachable hr).1, h2], h2⟩

theorem notify_run_result (data shm0 : List Byte) (hdr0 : Nat) (n : Nat)
    (h : Notify.mu (Notify.initial data shm0 hdr0) ≤ n) :
    (Notify.run n (Notify.initial data shm0 hdr0)).rpc = Notify.RPc.done ∧
    (Notify.written (Notify.run n (Notify.initial data shm0 hdr0)).trace).flatten = data ∧
    (Notify.run n (Notify.initial data shm0 hdr0)).sink = data := by
  have hr : Notify.Reachable data shm0 hdr0 (Notify.run n (Notify.initial data shm0 hdr0)) :=
    Notify.n_run_reaches n _
  have ht := Notify.n_run_terminal n _ h
  obtain ⟨h1, h2⟩ := Notify.n_inv_terminal (Notify.n_inv_reachable hr) ht
  exact ⟨h1, by rw [(Notify.n_written_reachable hr).1, h2], h2⟩

/-- C1: for every source `data`, in both backends, when `sendFile` and `mainLoop` run
against each other: in every reachable state (any interleaving) the payloads written to
the sink so far, concatenated in order, are a prefix of `data`; in every state where
nothing can move any more `mainLoop` has returned and the concatenation is exactly `data`;
no interleaving runs for ever; and running the system reaches such a state. -/
theorem C1_sink_receives_source (data shm0 : List Byte) (hdr0 : Nat) :
    ((∀ t, Queue.Reachable data shm0 t →
        (∃ r, (Queue.written t.trace).flatten ++ r = data) ∧
        (Queue.Terminal t →
          t.rpc = Queue.RPc.done ∧ (Queue.written t.trace).flatten = data)) ∧
      (∀ f : Nat → Queue.Sys, ¬ ∀ n, Queue.Step (f n) (f (n + 1))) ∧
      (∃ fuel, ∀ n, fuel ≤ n →
        (Queue.run n (Queue.initial data shm0)).rpc = Queue.RPc.done ∧
        (Queue.written (Queue.run n (Queue.initial data shm0)).trace).flatten = data ∧
        (Queue.run n (Queue.initial data shm0)).sink = data)) ∧
    ((∀ t, Notify.Reachable data shm0 hdr0 t →
        (∃ r, (Notify.written t.trace).flatten ++ r = data) ∧
        (Notify.Terminal t →
          t.rpc = Notify.RPc.done ∧ (Notify.written t.trace).flatten = data)) ∧
      (∀ f : Nat → Notify.Sys, ¬ ∀ n, Notify.Step (f n) (f (n + 1))) ∧
      (∃ fuel, ∀ n, fuel ≤ n →
        (Notify.run n (Notify.initial data shm0 hdr0)).rpc = Notify.RPc.done ∧
        (Notify.written (Notify.run n (Notify.initial data shm0 hdr0)).trace).flatten = data ∧
        (Notify.run n (Notify.initial data shm0 hdr0)).sink = data)) := by
  refine ⟨⟨?_, ?_, ?_⟩, ⟨?_, ?_, ?_⟩⟩
  · intro t ht
    have hw := (Queue.q_written_reachable ht).1
    have hi := Queue.q_inv_reachable ht
    refine ⟨by rw [hw]; exact Queue.q_inv_sink_part hi, fun hterm => ?_⟩
    obtain ⟨h1, h2⟩ := Queue.q_inv_terminal hi hterm
    exact ⟨h1, by rw [hw, h2]⟩
  · exact fun f hf => queue_no_infinite_run f hf
  · exact ⟨Queue.mu (Queue.initial data shm0), fun n hn => queue_run_result data shm0 n hn⟩
  · intro t ht
    have hw := (Notify.n_written_reachable ht).1
    have hi := Notify.n_inv_reachable ht
    refine ⟨by rw [hw]; exact Notify.n_inv_sink_part hi, fun hterm => ?_⟩
    obtain ⟨h1, h2⟩ := Notify.n_inv_terminal hi hterm
    exact ⟨h1, by rw [hw, h2]⟩
  · exact fun f hf => notify_no_infinite_run f hf
  · exact ⟨Notify.mu (Notify.initial data shm0 hdr0),
      fun n hn => notify_run_result data shm0 hdr0 n hn⟩

/-- C2: for every 2500-byte source, whatever the interleaving of the two processes.  In the
queue backend the sizes of the data messages sent so far are always an initial part of
1000, 1000, 500, 0; in every state where nothing can move any more they are exactly 1000,
1000, 500 and then the terminator 0, `sendFile` has returned 2500 and `mainLoop` has
returned 2500; no interleaving runs for ever; and the sender-first run is in such a state
after 23 steps.  In the signal backend the states where nothing can move any more show the
same sizes and the same two results. -/
theorem C2_chunks_of_2500 (data shm0 : List Byte) (hdr0 : Nat) (h : data.length = 2500) :
    (∀ t, Queue.Reachable data shm0 t →
      (∃ r, Queue.sentSizes t.trace ++ r = [1000, 1000, 500, 0]) ∧
      (Queue.Terminal t →
        Queue.sentSizes t.trace = [1000, 1000, 500, 0] ∧
        Queue.sendFileResult t = some 2500 ∧
        Queue.mainLoopResult t = some 2500)) ∧
    (∀ f : Nat → Queue.Sys, ¬ ∀ n, Queue.Step (f n) (f (n + 1))) ∧
    (Queue.Terminal (Queue.run 23 (Queue.initial data shm0)) ∧
      Queue.sentSizes (Queue.run 23 (Queue.initial data shm0)).trace = [1000, 1000, 500, 0] ∧
      Queue.sendFileResult (Queue.run 23 (Queue.initial data shm0)) = some 2500 ∧
      Queue.mainLoopResult (Queue.run 23 (Queue.initial data shm0)) = some 2500) ∧
    (∀ t, Notify.Reachable data shm0 hdr0 t → Notify.Terminal t →
      (Notify.sentChunks t.trace).map Prod.fst = [1000, 1000, 500, 0] ∧
      Notify.sendFileResult t = some 2500 ∧
      Notify.mainLoopResult t = some 2500) ∧
    (∀ f : Nat → Notify.Sys, ¬ ∀ n, Notify.Step (f n) (f (n + 1))) := by
  have hsz := chunkSeq_sizes_2500 data h
  have hmod : data.length % 1000 ≠ 0 := by rw [h]; decide
  have hsent : data.length % 2 ^ 64 = 2500 := by rw [h]; norm_num
  have hrecv : toULong (wrapInt (data.length : Int)) = 2500 := by
    rw [toULong_wrapInt_small data.length (by rw [h]; norm_num), h]
  refine ⟨fun t ht => ⟨?_, fun hterm => ⟨?_, ?_, ?_⟩⟩, fun f hf => queue_no_infinite_run f hf,
    ?_, fun t ht hterm => ⟨?_, ?_, ?_⟩, fun f hf => notify_no_infinite_run f hf⟩
  · obtain ⟨r, hr⟩ := Queue.q_sentSizes_initial ht
    rw [hsz] at hr
    exact ⟨r, by simpa using hr⟩
  · rw [Queue.q_sentSizes_sentChunks, (Queue.q_chunks_terminal ht hterm).1, sizesToInt_fst,
      hsz]
    simp
  · rw [(Queue.q_counts_terminal ht).2 ((Queue.q_chunks_terminal ht hterm).2 hmod), hsent]
  · rw [(Queue.q_counts_terminal ht).1 hterm, hrecv]
  · have hd : data.take 1000 ++ ((data.drop 1000).take 1000 ++ (data.drop 1000).drop 1000) =
        data := by
      rw [List.take_append_drop, List.take_append_drop]
    have key := Queue.q_run_2500 (data.take 1000) ((data.drop 1000).take 1000)
      ((data.drop 1000).drop 1000) shm0 (by simp [h]) (by simp [h]) (by simp [h])
    rw [hd] at key
    exact key
  · rw [(Notify.n_chunks_terminal ht hterm).1, hsz]
  · rw [(Notify.n_counts_terminal ht).2 ((Notify.n_chunks_terminal ht hterm).2 hmod), hsent]
  · rw [(Notify.n_counts_terminal ht).1 hterm, hrecv]

theorem C2_chunks_of_2500_witness :
    (List.replicate 2500 (0 : Byte)).length = 2500 ∧
    Queue.sentSizes (Queue.run 23 (Queue.initial (List.replicate 2500 0) [])).trace =
      [1000, 1000, 500, 0] ∧
    Queue.sendFileResult (Queue.run 23 (Queue.initial (List.replicate 2500 0) [])) =
      some 2500 ∧
    Queue.mainLoopResult (Queue.run 23 (Queue.initial (List.replicate 2500 0) [])) =
      some 2500 :=
  ⟨List.length_replicate 2500 0,
    ((C2_chunks_of_2500 (List.replicate 2500 0) [] 0 (List.length_replicate 2500 0)).1
      (Queue.run 23 (Queue.initial (List.replicate 2500 0) []))
      (Queue.q_run_reaches 23 _)).2
      (C2_chunks_of_2500 (List.replicate 2500 0) [] 0
        (List.length_replicate 2500 0)).2.2.1.1⟩

/-- C3: the zero-length source.  In both backends the run ends in a state where nothing
can move: the only size announced is 0, the receiver has opened its sink, written nothing
and returned 0, but the sender is inside the loop of `sendFile`, waiting for the answer to
the size-0 chunk (in `msgrcv`; asleep in `sigsuspend`).  In no reachable state, whatever
the interleaving, has `sendFile` returned. -/
theorem C3_empty_source_sender_waits (shm0 : List Byte) (hdr0 : Nat) :
    (Queue.Terminal (Queue.run 6 (Queue.initial [] shm0)) ∧
      (Queue.run 6 (Queue.initial [] shm0)).trace =
        [Queue.Ev.sndData 0 [], Queue.Ev.fopen, Queue.Ev.rcvData 0, Queue.Ev.fclose] ∧
      (Queue.run 6 (Queue.initial [] shm0)).sink = [] ∧
      Queue.mainLoopResult (Queue.run 6 (Queue.initial [] shm0)) = some 0 ∧
      (Queue.run 6 (Queue.initial [] shm0)).spc = Queue.SPc.rcv ∧
      Queue.sendFileResult (Queue.run 6 (Queue.initial [] shm0)) = none) ∧
    (∀ t, Queue.Reachable [] shm0 t → Queue.sendFileResult t = none) ∧
    (Notify.Terminal (Notify.run 12 (Notify.initial [] shm0 hdr0)) ∧
      (Notify.run 12 (Notify.initial [] shm0 hdr0)).trace =
        [Notify.Ev.setChunkSize 0, Notify.Ev.killUsr1 0 [], Notify.Ev.fopen,
          Notify.Ev.getChunkSize 0, Notify.Ev.fclose] ∧
      (Notify.run 12 (Notify.initial [] shm0 hdr0)).sink = [] ∧
      Notify.mainLoopResult (Notify.run 12 (Notify.initial [] shm0 hdr0)) = some 0 ∧
      (Notify.run 12 (Notify.initial [] shm0 hdr0)).spc = Notify.SPc.wTest ∧
      (Notify.run 12 (Notify.initial [] shm0 hdr0)).sFlag = false ∧
      (Notify.run 12 (Notify.initial [] shm0 hdr0)).sPending = false ∧
      Notify.sendFileResult (Notify.run 12 (Notify.initial [] shm0 hdr0)) = none) ∧
    (∀ t, Notify.Reachable [] shm0 hdr0 t → Notify.sendFileResult t = none) := by
  refine ⟨?_, ?_, ?_, ?_⟩
  · simp [Queue.run, Queue.sched, Queue.sendFile, Queue.mainLoop, Queue.initial, fread, feof,
      Queue.msgsnd, Queue.msgrcvAck, Queue.msgrcvData, SHARED_MEMORY_CHUNK_SIZE,
      Queue.Terminal, Queue.sendFileResult, Queue.mainLoopResult, addULong, toULong, memWrite]
  · intro t ht
    have h := (Queue.q_multiple_reachable (by simp) ht).2.2.1
    simp [Queue.sendFileResult, h]
  · simp [Notify.run, Notify.sched, Notify.sendFile, Notify.mainLoop, Notify.usr1Signal,
      Notify.usr2Signal, Notify.initial, fread, feof, SHARED_MEMORY_CHUNK_SIZE,
      Notify.Terminal, Notify.sendFileResult, Notify.mainLoopResult, addULong, toULong,
      memWrite, Notify.sBlocked, Notify.rBlocked]
  · intro t ht
    have h := (Notify.n_multiple_reachable (by simp) ht).2.2.1
    simp [Notify.sendFileResult, h]

/-- C4: the queue backend on a source whose length is a multiple of 1000 (0 included).  In
no reachable state has `sendFile` returned; every state in which nothing can move has the
receiver returned and the sender in `msgrcv` for an acknowledgment (program point `rcv`),
the queue empty, and the last data message the sender sent has size 0; and the run reaches
such a state. -/
theorem C4_sender_waits_after_terminator (data shm0 : List Byte)
    (hlen : data.length % 1000 = 0) :
    (∀ t, Queue.Reachable data shm0 t → Queue.sendFileResult t = none) ∧
    (∀ t, Queue.Reachable data shm0 t → Queue.Terminal t →
      t.spc = Queue.SPc.rcv ∧ t.rpc = Queue.RPc.done ∧ t.queue = [] ∧
      (Queue.sentSizes t.trace).getLast? = some 0) ∧
    (∃ fuel, ∀ n, fuel ≤ n → Queue.Terminal (Queue.run n (Queue.initial data shm0))) := by
  refine ⟨?_, ?_, ?_⟩
  · intro t ht
    have h := (Queue.q_multiple_reachable hlen ht).2.2.1
    simp [Queue.sendFileResult, h]
  · intro t ht hterm
    obtain ⟨hi, _, k2, _, _, _, _, k7, k8⟩ := Queue.q_multiple_reachable hlen ht
    obtain ⟨hs, hr, hm, hq⟩ := Queue.q_inv_terminal_phase hi hterm
    have hrcv : t.spc = Queue.SPc.rcv := by
      rcases hs with hs | hs
      · exact hs
      · exact absurd hs k2
    refine ⟨hrcv, hr, hq, ?_⟩
    rw [k8 hrcv, k7 hm]
  · exact ⟨Queue.mu (Queue.initial data shm0), fun n hn => Queue.q_run_terminal n _ hn⟩

theorem C4_sender_waits_after_terminator_witness :
    (List.replicate 1000 (7 : Byte)).length % 1000 = 0 ∧
    ∀ t, Queue.Reachable (List.replicate 1000 7) [] t → Queue.sendFileResult t = none :=
  ⟨by rw [List.length_replicate],
    (C4_sender_waits_after_terminator (List.replicate 1000 7) []
      (by rw [List.length_replicate])).1⟩

/-- C5: in every state the queue backend can reach (any interleaving of `sendFile` and
`mainLoop`), the sender has received at most as many acknowledgments as it has sent data
messages, and the number of data messages sent exceeds the number of acknowledgments
received by at most 1. -/
theorem C5_lock_step (data shm0 : List Byte) (t : Queue.Sys)
    (ht : Queue.Reachable data shm0 t) :
    Queue.acksReceived t.trace ≤ (Queue.sentSizes t.trace).length ∧
    (Queue.sentSizes t.trace).length - Queue.acksReceived t.trace ≤ 1 := by
  obtain ⟨h1, h2⟩ := Queue.q_lockstep_reachable ht
  cases hpc : t.spc with
  | loop => have := h1 (Or.inl hpc); omega
  | snd => have := h1 (Or.inr hpc); omega
  | rcv => have := h2 (Or.inl hpc); omega
  | done => have := h2 (Or.inr hpc); omega

theorem C5_lock_step_witness :
    Queue.Reachable [7, 8] [] (Queue.run 2 (Queue.initial [7, 8] [])) ∧
    (Queue.sentSizes (Queue.run 2 (Queue.initial [7, 8] [])).trace).length -
      Queue.acksReceived (Queue.run 2 (Queue.initial [7, 8] [])).trace ≤ 1 :=
  ⟨Queue.q_run_reaches 2 _,
    (C5_lock_step [7, 8] [] (Queue.run 2 (Queue.initial [7, 8] []))
      (Queue.q_run_reaches 2 _)).2⟩

theorem wrapInt_of_lt {n : Nat} (h : n < 2 ^ 31) : wrapInt (n : Int) = n := by
  unfold wrapInt
  have : ((n : Int) + 2 ^ 31) % 2 ^ 32 = (n : Int) + 2 ^ 31 :=
    Int.emod_eq_of_lt (by omega) (by omega)
  rw [this]; omega

theorem sendFileName_short (fileName : List Byte) (hfit : fileName.length < 2 ^ 31)
    (hle : fileName.length ≤ 100) (ok : Bool) :
    Queue.sendFileName MAX_FILE_NAME_SIZE fileName ok =
      (if ok then ([Act.msgsndFileName fileName], Except.ok ())
        else ([Act.msgsndFileName fileName], Except.error (-1))) ∧
    Notify.sendFileName fileName ok =
      (if ok then ([Act.wait, Act.strcpy fileName, Act.kill, Act.wait], Except.ok ())
        else ([Act.wait, Act.strcpy fileName, Act.kill], Except.error (-1))) := by
  have hw := wrapInt_of_lt hfit
  have h1 : ¬ ((fileName.length : Int) > ((100 : Nat) : Int)) := by omega
  simp only [Queue.sendFileName, Notify.sendFileName, hw, MAX_FILE_NAME_SIZE]
  rw [if_neg h1, if_neg h1]
  exact ⟨rfl, rfl⟩

theorem sendFileName_long (fileName : List Byte) (hfit : fileName.length < 2 ^ 31)
    (hge : 101 ≤ fileName.length) (ok : Bool) :
    Queue.sendFileName MAX_FILE_NAME_SIZE fileName ok = ([], Except.error (-1)) ∧
    Notify.sendFileName fileName ok = ([], Except.error (-1)) := by
  have hw := wrapInt_of_lt hfit
  have h1 : (fileName.length : Int) > ((100 : Nat) : Int) := by omega
  simp only [Queue.sendFileName, Notify.sendFileName, hw, MAX_FILE_NAME_SIZE]
  rw [if_pos h1, if_pos h1]
  exact ⟨rfl, rfl⟩

/-- C6: for every file name whose length fits the `int` it is stored in, `sendFileName`
(both backends, `MAX_FILE_NAME_SIZE` = 100) sends the name when the length is at most 100,
and when the length is 101 or more it exits with status 255 having performed no action: no
file-name message, no store to the shared segment, and `main` never calls `sendFile`.
With the system calls succeeding it fails exactly when the length exceeds 100. -/
theorem C6_file_name_limit (fileName : List Byte) (hfit : fileName.length < 2 ^ 31) :
    (fileName.length ≤ 100 →
      Queue.sendFileName MAX_FILE_NAME_SIZE fileName true =
        ([Act.msgsndFileName fileName], Except.ok ()) ∧
      Notify.sendFileName fileName true =
        ([Act.wait, Act.strcpy fileName, Act.kill, Act.wait], Except.ok ())) ∧
    (101 ≤ fileName.length → ∀ ok : Bool,
      Queue.sendFileName MAX_FILE_NAME_SIZE fileName ok = ([], Except.error (-1)) ∧
      Notify.sendFileName fileName ok = ([], Except.error (-1)) ∧
      Queue.main MAX_FILE_NAME_SIZE fileName ok = ([], some (-1)) ∧
      Notify.main fileName ok = ([], some (-1)) ∧
      exitStatus (-1) = 255) ∧
    ((Queue.sendFileName MAX_FILE_NAME_SIZE fileName true).2 = Except.error (-1) ↔
      100 < fileName.length) ∧
    ((Notify.sendFileName fileName true).2 = Except.error (-1) ↔ 100 < fileName.length) := by
  refine ⟨?_, ?_, ?_, ?_⟩
  · intro hle
    have h := sendFileName_short fileName hfit hle true
    simpa using h
  · intro hge ok
    have h := sendFileName_long fileName hfit hge ok
    refine ⟨h.1, h.2, ?_, ?_, by decide⟩
    · unfold Queue.main
      rw [h.1]
      rfl
    · unfold Notify.main
      rw [h.2]
      rfl
  · by_cases hc : fileName.length ≤ 100
    · rw [(sendFileName_short fileName hfit hc true).1]
      have : ¬ 100 < fileName.length := by omega
      simp [this]
    · rw [(sendFileName_long fileName hfit (by omega) true).1]
      have : 100 < fileName.length := by omega
      simp [this]
  · by_cases hc : fileName.length ≤ 100
    · rw [(sendFileName_short fileName hfit hc true).2]
      have : ¬ 100 < fileName.length := by omega
      simp [this]
    · rw [(sendFileName_long fileName hfit (by omega) true).2]
      have : 100 < fileName.length := by omega
      simp [this]

theorem C6_file_name_limit_witness :
    (List.replicate 101 (65 : Byte)).length < 2 ^ 31 ∧
    Queue.main MAX_FILE_NAME_SIZE (List.replicate 101 65) true = ([], some (-1)) ∧
    Notify.main (List.replicate 101 65) true = ([], some (-1)) :=
  ⟨by rw [List.length_replicate]; norm_num,
    ((C6_file_name_limit (List.replicate 101 65)
      (by rw [List.length_replicate]; norm_num)).2.1
      (by rw [List.length_replicate]) true).2.2.1,
    ((C6_file_name_limit (List.replicate 101 65)
      (by rw [List.length_replicate]; norm_num)).2.1
      (by rw [List.length_replicate]) true).2.2.2.1⟩

/-- C7: if the flag is already set when `wait` is called, then under every schedule of
signal arrivals that lets the process execute its four statements, `wait` returns, it has
not called `sigsuspend`, and the flag is false at the return. -/
theorem C7_no_lost_wakeup (p : Signal.Proc) (evs : List Signal.Ev)
    (hpc : p.pc = Signal.WPc.entry) (hflag : p.flag = true)
    (hticks : 4 ≤ evs.count Signal.Ev.tick) :
    ∃ q, Signal.wait evs p = some q ∧ q.pc = Signal.WPc.returned ∧ q.flag = false ∧
      q.suspends = p.suspends := by
  refine Signal.wait_awake evs p (Or.inr (Or.inr (Or.inr ⟨hpc, hflag⟩))) ?_
  rw [hpc]
  exact hticks

theorem C7_no_lost_wakeup_witness :
    (Signal.atEntry 10 ∅ {10} false true).pc = Signal.WPc.entry ∧
    (Signal.atEntry 10 ∅ {10} false true).flag = true ∧
    4 ≤ List.count Signal.Ev.tick
      [Signal.Ev.tick, Signal.Ev.signal, Signal.Ev.tick, Signal.Ev.tick, Signal.Ev.tick] ∧
    ∃ q, Signal.wait
        [Signal.Ev.tick, Signal.Ev.signal, Signal.Ev.tick, Signal.Ev.tick, Signal.Ev.tick]
        (Signal.atEntry 10 ∅ {10} false true) = some q ∧
      q.pc = Signal.WPc.returned ∧ q.flag = false ∧
      q.suspends = (Signal.atEntry 10 ∅ {10} false true).suspends :=
  ⟨rfl, rfl, by decide,
    C7_no_lost_wakeup (Signal.atEntry 10 ∅ {10} false true)
      [Signal.Ev.tick, Signal.Ev.signal, Signal.Ev.tick, Signal.Ev.tick, Signal.Ev.tick]
      rfl rfl (by decide)⟩

/-- C8: evaluation of `init` when `shmat` fails (returns `(void*) -1`) and the other calls
succeed: the test `sharedMemPtr < 0` is false, `init` does not exit, goes on to `msgget`
and returns with the failure value as the segment address. -/
theorem C8_shmat_failure_not_detected :
    Queue.init { ftok := 1, shmget := 2, shmat := Queue.shmatFailed, msgget := 3 } =
      Except.ok (2, Queue.shmatFailed, 3) ∧
    ∀ c : Queue.InitCalls, 0 ≤ c.ftok → 0 ≤ c.shmget → 0 ≤ c.msgget →
      Queue.init c = Except.ok (c.shmget, c.shmat, c.msgget) := by
  constructor
  · simp [Queue.init, Queue.ptrLtNull]
  · intro c h1 h2 h3
    have a1 : ¬ c.ftok < 0 := by omega
    have a2 : ¬ c.shmget < 0 := by omega
    have a3 : ¬ c.msgget < 0 := by omega
    simp [Queue.init, Queue.ptrLtNull, a1, a2, a3]

/-- C9: the receiver, at the head of its loop with a chunk announced.  Queue backend: when
the data message has size 0 the next three steps of `mainLoop` take the message, close the
sink and return, the sink is unchanged and nothing is added to the queue (no
acknowledgment); when the size is not 0 they take the message, append the payload to the
sink and then send exactly one acknowledgment, and `mainLoop` is back at the head of the
loop.  Signal backend, where `wait` is about to return: the same with the length header
read by `getChunkSize` and `kill(spid, SIGUSR2)`; with header 0 no signal is sent to the
sender. -/
theorem C9_receiver_round :
    (∀ (s : Queue.Sys) (n : Int) (q : List Queue.Msg),
      s.rpc = Queue.RPc.loop → s.msgSize ≠ 0 → Queue.msgrcvData s.queue = some (n, q) →
      (n = 0 →
        ((Queue.mainLoop s).bind Queue.mainLoop).bind Queue.mainLoop =
          some { s with
            rpc := Queue.RPc.done, msgSize := 0, queue := q,
            trace := s.trace ++ [Queue.Ev.rcvData 0, Queue.Ev.fclose] }) ∧
      (n ≠ 0 →
        ((Queue.mainLoop s).bind Queue.mainLoop).bind Queue.mainLoop =
          some { s with
            rpc := Queue.RPc.loop, msgSize := n, queue := q ++ [Queue.Msg.ack],
            numBytesRecv := wrapInt (s.numBytesRecv + n),
            sink := s.sink ++ s.shm.take (toULong n),
            trace := s.trace ++ [Queue.Ev.rcvData n,
              Queue.Ev.write (s.shm.take (toULong n)), Queue.Ev.sndAck] })) ∧
    (∀ (s : Notify.Sys),
      s.rpc = Notify.RPc.wClear →
      (s.hdr = 0 →
        ((Notify.mainLoop s).bind Notify.mainLoop).bind Notify.mainLoop =
          some { s with
            rpc := Notify.RPc.done, chunkSize := 0, rFlag := false,
            trace := s.trace ++ [Notify.Ev.getChunkSize 0, Notify.Ev.fclose] }) ∧
      (s.hdr ≠ 0 →
        ((Notify.mainLoop s).bind Notify.mainLoop).bind Notify.mainLoop =
          some { s with
            rpc := Notify.RPc.loop, chunkSize := s.hdr, rFlag := false, sPending := true,
            numBytesRecv := wrapInt (s.numBytesRecv + s.hdr),
            sink := s.sink ++ s.payload.take s.hdr,
            trace := s.trace ++ [Notify.Ev.getChunkSize s.hdr,
              Notify.Ev.write (s.payload.take s.hdr), Notify.Ev.killUsr2] })) := by
  constructor
  · intro s n q hpc hm hq
    constructor
    · intro hn
      subst hn
      simp [Queue.mainLoop, hpc, hm, hq]
    · intro hn
      simp [Queue.mainLoop, hpc, hm, hq, hn, Queue.msgsnd]
  · intro s hpc
    constructor
    · intro hn
      simp [Notify.mainLoop, hpc, hn]
    · intro hn
      simp [Notify.mainLoop, hpc, hn]

theorem C9_receiver_round_witness :
    ((Queue.mainLoop (Queue.run 3 (Queue.initial [] []))).bind Queue.mainLoop).bind
        Queue.mainLoop =
      some { Queue.run 3 (Queue.initial [] []) with
        rpc := Queue.RPc.done, msgSize := 0, queue := [],
        trace := (Queue.run 3 (Queue.initial [] [])).trace ++
          [Queue.Ev.rcvData 0, Queue.Ev.fclose] } :=
  (C9_receiver_round.1 (Queue.run 3 (Queue.initial [] [])) 0 [] (by decide) (by decide)
    (by decide)).1 rfl

/-- C10: in every state either backend can reach from a 1000-byte payload region, every
size the sender has announced (the `size` field of a data message; the length header) lies
between 0 and 1000, every chunk `fread` stores has at most 1000 bytes, and the payload
region still has exactly 1000 bytes: no store went past its end. -/
theorem C10_chunk_size_bounds (data shm0 : List Byte) (hdr0 : Nat)
    (h : shm0.length = SHARED_MEMORY_CHUNK_SIZE) :
    (∀ t, Queue.Reachable data shm0 t →
      (∀ n ∈ Queue.sentSizes t.trace, 0 ≤ n ∧ n ≤ 1000) ∧
      t.shm.length = SHARED_MEMORY_CHUNK_SIZE) ∧
    (∀ t, Notify.Reachable data shm0 hdr0 t →
      (∀ n ∈ Notify.sentSizes t.trace, n ≤ 1000) ∧
      t.payload.length = SHARED_MEMORY_CHUNK_SIZE) ∧
    (∀ fp : FILE, (fread SHARED_MEMORY_CHUNK_SIZE fp).1.length ≤ 1000) := by
  refine ⟨?_, ?_, fread_length_le⟩
  · intro t ht
    obtain ⟨h1, _, h3⟩ := Queue.q_sizes_reachable ht
    exact ⟨h1, h3 h⟩
  · intro t ht
    obtain ⟨h1, h3⟩ := Notify.n_sizes_reachable ht
    exact ⟨h1, h3 h⟩

theorem C10_chunk_size_bounds_witness :
    (List.replicate 1000 (0 : Byte)).length = SHARED_MEMORY_CHUNK_SIZE ∧
    (Queue.run 2 (Queue.initial [1, 2, 3] (List.replicate 1000 0))).shm.length =
      SHARED_MEMORY_CHUNK_SIZE ∧
    (Notify.run 2 (Notify.initial [1, 2, 3] (List.replicate 1000 0) 5)).payload.length =
      SHARED_MEMORY_CHUNK_SIZE :=
  ⟨List.length_replicate 1000 0,
    ((C10_chunk_size_bounds [1, 2, 3] (List.replicate 1000 0) 5
      (List.length_replicate 1000 0)).1 _ (Queue.q_run_reaches 2 _)).2,
    ((C10_chunk_size_bounds [1, 2, 3] (List.replicate 1000 0) 5
      (List.length_replicate 1000 0)).2.1 _ (Notify.n_run_reaches 2 _)).2⟩


/-- C11 (the code at the failing input): for a source of 2^31 bytes, in both backends, the
transfer runs to completion, all 2^31 bytes reach the sink and `sendFile` returns 2^31, but
`mainLoop`, which keeps its count in an `int`, returns 2^64 - 2^31 = 18446744071562067968. -/
theorem C11_receiver_count_wraps (b : Byte) (shm0 : List Byte) (hdr0 : Nat) :
    ((∀ t, Queue.Reachable (List.replicate (2 ^ 31) b) shm0 t → Queue.Terminal t →
        t.sink.length = 2 ^ 31 ∧ Queue.sendFileResult t = some (2 ^ 31) ∧
        Queue.mainLoopResult t = some (2 ^ 64 - 2 ^ 31)) ∧
      (∃ t, Queue.Reachable (List.replicate (2 ^ 31) b) shm0 t ∧ Queue.Terminal t)) ∧
    ((∀ t, Notify.Reachable (List.replicate (2 ^ 31) b) shm0 hdr0 t → Notify.Terminal t →
        t.sink.length = 2 ^ 31 ∧ Notify.sendFileResult t = some (2 ^ 31) ∧
        Notify.mainLoopResult t = some (2 ^ 64 - 2 ^ 31)) ∧
      (∃ t, Notify.Reachable (List.replicate (2 ^ 31) b) shm0 hdr0 t ∧ Notify.Terminal t)) := by
  have hmod : (List.replicate (2 ^ 31) b).length % 1000 ≠ 0 := by
    rw [List.length_replicate]
    norm_num
  have hsent : (List.replicate (2 ^ 31) b).length % 2 ^ 64 = 2 ^ 31 := by
    rw [List.length_replicate]
    norm_num
  have hrecv : toULong (wrapInt ((List.replicate (2 ^ 31) b).length : Int)) =
      2 ^ 64 - 2 ^ 31 := by
    rw [List.length_replicate]
    exact toULong_wrapInt_two_pow_31
  refine ⟨⟨fun t ht hterm => ?_, ?_⟩, ⟨fun t ht hterm => ?_, ?_⟩⟩
  · obtain ⟨c1, c2⟩ := Queue.q_counts_terminal ht
    have hdone := (Queue.q_chunks_terminal ht hterm).2 hmod
    have hsink := (Queue.q_inv_terminal (Queue.q_inv_reachable ht) hterm).2
    refine ⟨by rw [hsink, List.length_replicate], ?_, ?_⟩
    · rw [c2 hdone, hsent]
    · rw [c1 hterm, hrecv]
  · exact ⟨_, Queue.q_run_reaches _ _, Queue.q_run_terminal _ _ (le_refl _)⟩
  · obtain ⟨c1, c2⟩ := Notify.n_counts_terminal ht
    have hdone := (Notify.n_chunks_terminal ht hterm).2 hmod
    have hsink := (Notify.n_inv_terminal (Notify.n_inv_reachable ht) hterm).2
    refine ⟨by rw [hsink, List.length_replicate], ?_, ?_⟩
    · rw [c2 hdone, hsent]
    · rw [c1 hterm, hrecv]
  · exact ⟨_, Notify.n_run_reaches _ _, Notify.n_run_terminal _ _ (le_refl _)⟩

/-- C12 (as stated, refuted): entered with `SIGUSR1` already blocked and the flag set, `wait`
returns with the flag false but with `SIGUSR1` unblocked: the signal mask is not the one in
effect before the call. -/
theorem C12_mask_not_restored :
    ∃ q, Signal.wait [Signal.Ev.tick, Signal.Ev.tick, Signal.Ev.tick, Signal.Ev.tick]
        (Signal.atEntry 10 {10} {10} false true) = some q ∧
      q.flag = false ∧ q.sigmask = ∅ ∧
      q.sigmask ≠ (Signal.atEntry 10 {10} {10} false true).sigmask := by
  refine ⟨{ pc := Signal.WPc.returned, sig := 10, sigmask := ∅, pending := false,
            mask := {10}, oldmask := {10}, saved := ∅, flag := false, suspends := 0 },
    ?_, rfl, rfl, ?_⟩
  · simp [Signal.wait, Signal.exec, Signal.tick, Signal.atEntry]
  · show (∅ : Finset Nat) ≠ {10}
    exact (Finset.singleton_ne_empty 10).symm

/-- C12 (amended): for every initial signal mask, flag value and schedule of signal
arrivals, when `wait` returns the flag is false and the process signal mask is the mask in
effect before the call without the signals of the global `mask`; it equals the mask before
the call when none of those signals was blocked then. -/
theorem C12_wait_mask (p q : Signal.Proc) (evs : List Signal.Ev)
    (hpc : p.pc = Signal.WPc.entry) (hq : Signal.wait evs p = some q) :
    q.flag = false ∧ q.sigmask = p.sigmask \ p.mask ∧
      (Disjoint p.sigmask p.mask → q.sigmask = p.sigmask) := by
  have hinv : Signal.MaskInv p.sigmask p.mask p := by
    refine ⟨rfl, ?_⟩
    rw [hpc]
  obtain ⟨h1, h2⟩ := Signal.wait_maskInv evs p q hinv hq
  refine ⟨h1, h2, fun hd => ?_⟩
  rw [h2]
  exact Finset.sdiff_eq_self_of_disjoint hd

theorem C12_wait_mask_witness :
    (Signal.atEntry 10 {2} {10} false false).pc = Signal.WPc.entry ∧
    Signal.wait [Signal.Ev.tick, Signal.Ev.tick, Signal.Ev.signal, Signal.Ev.tick,
        Signal.Ev.tick, Signal.Ev.tick] (Signal.atEntry 10 {2} {10} false false) =
      some { pc := Signal.WPc.returned, sig := 10, sigmask := {2}, pending := false,
             mask := {10}, oldmask := {2}, saved := {2, 10}, flag := false, suspends := 1 } ∧
    (({ pc := Signal.WPc.returned, sig := 10, sigmask := {2}, pending := false,
        mask := {10}, oldmask := {2}, saved := {2, 10}, flag := false,
        suspends := 1 } : Signal.Proc).sigmask =
      (Signal.atEntry 10 {2} {10} false false).sigmask \
        (Signal.atEntry 10 {2} {10} false false).mask) :=
  ⟨rfl, by decide,
    (C12_wait_mask (Signal.atEntry 10 {2} {10} false false)
      { pc := Signal.WPc.returned, sig := 10, sigmask := {2}, pending := false,
        mask := {10}, oldmask := {2}, saved := {2, 10}, flag := false, suspends := 1 }
      [Signal.Ev.tick, Signal.Ev.tick, Signal.Ev.signal, Signal.Ev.tick,
        Signal.Ev.tick, Signal.Ev.tick] rfl (by decide)).2.1⟩


/-- C13: in the signal backend, for all process ids and whatever the segment holds at the
start, in every interleaving in which the receiver has executed `sendpid` before the sender
executes `recvpid`: the sender's `rpid` is the receiver's process id from then on, the
receiver's `spid` is the sender's process id once its `recvpid` has returned, and nothing
comes to rest before both have; no interleaving runs for ever, and such an exchange exists. -/
theorem C13_identity_exchange (sp rp cell0 : Int) :
    (∀ t, Handshake.Reachable sp rp cell0 t → t.ordered = true →
      t.rpid = rp ∧ (t.rpc = Handshake.RPc.done → t.spid = sp) ∧
      (Handshake.Terminal t →
        t.spc = Handshake.SPc.done ∧ t.rpc = Handshake.RPc.done ∧
        t.rpid = t.receiverPid ∧ t.spid = t.senderPid)) ∧
    (∀ f : Nat → Handshake.Sys, ¬ ∀ n, Handshake.Step (f n) (f (n + 1))) ∧
    (∃ t, Handshake.Reachable sp rp cell0 t ∧ t.ordered = true ∧ Handshake.Terminal t ∧
      t.rpid = rp ∧ t.spid = sp) := by
  refine ⟨fun t ht ho => ?_, fun f hf => handshake_no_infinite_run f hf, ?_⟩
  · have hi := Handshake.h_inv_reachable ht
    obtain ⟨h1, h2, h3⟩ := Handshake.h_ordered hi ho
    refine ⟨h1, h2, fun hterm => ?_⟩
    obtain ⟨hs, hr⟩ := h3 hterm
    exact ⟨hs, hr, by rw [h1, hi.2.1], by rw [h2 hr, hi.1]⟩
  · refine ⟨Handshake.run 10 (Handshake.initial sp rp cell0), Handshake.h_run_reaches _ _, ?_⟩
    rw [Handshake.h_run_ordered]
    refine ⟨rfl, ?_, rfl, rfl⟩
    simp [Handshake.Terminal, Handshake.sender, Handshake.receiver, Handshake.usr1Signal]

/-- C14: for every source `data`, whatever the shared segments hold at the start and for any
interleaving, once nothing can move any more the chunks (size, payload) announced by the
`sendFile` of the queue backend are those announced by the `sendFile` of the signal backend,
namely the chunk sequence of `data`; the two `mainLoop` have written the same bytes to their
sinks, and they return the same count. -/
theorem C14_backends_equivalent (data shmq shmn : List Byte) (hdr0 : Nat)
    (tq : Queue.Sys) (tn : Notify.Sys)
    (hq : Queue.Reachable data shmq tq) (hqt : Queue.Terminal tq)
    (hn : Notify.Reachable data shmn hdr0 tn) (hnt : Notify.Terminal tn) :
    Queue.sentChunks tq.trace = sizesToInt (Notify.sentChunks tn.trace) ∧
    Notify.sentChunks tn.trace = chunkSeq data ∧
    (Queue.written tq.trace).flatten = (Notify.written tn.trace).flatten ∧
    tq.sink = tn.sink ∧
    Queue.mainLoopResult tq = Notify.mainLoopResult tn ∧
    (Queue.mainLoopResult tq).isSome = true := by
  have hcq := (Queue.q_chunks_terminal hq hqt).1
  have hcn := (Notify.n_chunks_terminal hn hnt).1
  have hsq := (Queue.q_inv_terminal (Queue.q_inv_reachable hq) hqt).2
  have hsn := (Notify.n_inv_terminal (Notify.n_inv_reachable hn) hnt).2
  have hwq := (Queue.q_written_reachable hq).1
  have hwn := (Notify.n_written_reachable hn).1
  have hrq := (Queue.q_counts_terminal hq).1 hqt
  have hrn := (Notify.n_counts_terminal hn).1 hnt
  refine ⟨by rw [hcq, hcn], hcn, by rw [hwq, hwn, hsq, hsn], by rw [hsq, hsn],
    by rw [hrq, hrn], by rw [hrq]; rfl⟩

theorem C14_backends_equivalent_witness :
    Queue.sentChunks (Queue.run 60 (Queue.initial [1, 2, 3] [7])).trace =
      sizesToInt (Notify.sentChunks (Notify.run 120 (Notify.initial [1, 2, 3] [] 9)).trace) ∧
    Notify.sentChunks (Notify.run 120 (Notify.initial [1, 2, 3] [] 9)).trace =
      chunkSeq [1, 2, 3] ∧
    Queue.mainLoopResult (Queue.run 60 (Queue.initial [1, 2, 3] [7])) =
      Notify.mainLoopResult (Notify.run 120 (Notify.initial [1, 2, 3] [] 9)) :=
  have h := C14_backends_equivalent [1, 2, 3] [7] [] 9
    (Queue.run 60 (Queue.initial [1, 2, 3] [7]))
    (Notify.run 120 (Notify.initial [1, 2, 3] [] 9))
    (Queue.q_run_reaches 60 _) (Queue.q_run_terminal 60 _ (by decide))
    (Notify.n_run_reaches 120 _) (Notify.n_run_terminal 120 _ (by decide))
  ⟨h.1, h.2.1, h.2.2.2.2.1⟩

end Transfer
